import Mathlib

/-!
Verification of the cucv core: layouts, shapes and tensor-data views.

A shallow embedding of the metadata layer of `cucv` (`tensor_layout.{h,hpp,cpp}`,
`shape.hpp`, `tensor_shape.{hpp,cpp}`, `itensor_data.hpp`, `tensor_data.hpp`,
`detail/optional.h`, `alloc/requirements.h`, `tensor.h`, `status.{hpp,cpp}`) together with
theorems about it.
The requirements planner (`classify`, `Tensor::CalcRequirements`) has no body among the
sources; its definitions follow the specification and say so.

Conventions of the embedding.

* A `char` is held as its byte value (a natural number below 256), the value that `memchr`
  and `memcmp` look at.  `int`, `int32_t`, `int64_t` and `ptrdiff_t` values are integers;
  the one place where 32-bit wrap-around is reachable on valid inputs (the negation in
  `CreateFirst` / `CreateLast`) wraps explicitly.
* A fixed-size C array is a list of its cells; reading cell `i` is `getD i 0`.
* A local that the source leaves uninitialised (`TensorLayout_t out;`) is a parameter of the
  embedded function: the bytes the storage happens to hold.
* `cucv::error` throws an exception that carries a status code; functions that can throw
  return `Result`.  A failing `<cassert>` `assert` and the `std::runtime_error` of
  `Optional::value` are failures of their own, and so is a call that never returns.
-/

namespace cucv

/-! ## Status codes and failures (`status.hpp`, `base.hpp`) -/

/-- The status codes of `enum Status`, in declaration order. -/
inductive Status
  | CUCV_SUCCESS
  | CUCV_ERROR_NOT_IMPLEMENTED
  | CUCV_ERROR_INVALID_ARGUMENT
  | CUCV_ERROR_INVALID_IMAGE_FORMAT
  | CUCV_ERROR_INVALID_OPERATION
  | CUCV_ERROR_DEVICE
  | CUCV_ERROR_NOT_READY
  | CUCV_ERROR_OUT_OF_MEMORY
  | CUCV_ERROR_INTERNAL
  | CUCV_ERROR_NOT_COMPATIBLE
  | CUCV_ERROR_OVERFLOW
  | CUCV_ERROR_UNDERFLOW
  | CUCV_ERROR_ASSERT_FAILED
  deriving DecidableEq, Repr

/-- The ways a call can fail to return. -/
inductive Failure
  /-- The exception thrown by `CUCV_Error(code, msg)` and by a failing `CUCV_Assert`. -/
  | raised (code : Status)
  /-- A failing `assert(...)` of `<cassert>`. -/
  | assertFailed
  /-- The `std::runtime_error("Bad optional access")` of `Optional::value`. -/
  | badOptionalAccess
  /-- A loop that never reaches its end: the call runs on, storing past the object, and does
  not return (the process is stopped by the system). -/
  | neverReturns
  deriving DecidableEq, Repr

/-- The outcome of a call that may throw. -/
abbrev Result (α : Type) := Except Failure α

instance {ε α : Type} [DecidableEq ε] [DecidableEq α] : DecidableEq (Except ε α)
  | .ok a, .ok b => if h : a = b then isTrue (by rw [h]) else isFalse (by intro c; cases c; exact h rfl)
  | .error a, .error b =>
    if h : a = b then isTrue (by rw [h]) else isFalse (by intro c; cases c; exact h rfl)
  | .ok _, .error _ => isFalse (by intro c; cases c)
  | .error _, .ok _ => isFalse (by intro c; cases c)

/-- The failure raised by `CUCV_Error(CUCV_ERROR_INVALID_ARGUMENT, ...)`. -/
abbrev invalidArgument : Failure := .raised .CUCV_ERROR_INVALID_ARGUMENT

/-- The failure raised by a failing `CUCV_Assert`. -/
abbrev cucvAssertFailed : Failure := .raised .CUCV_ERROR_ASSERT_FAILED

/-! ## Machine integers and raw memory -/

/-- Conversion of a signed value to `size_t` (64 bits). -/
def toSizeT (x : Int) : Nat := (x % 2 ^ 64).toNat

/-- The value of an `int` expression after 32-bit two's-complement wrap-around. -/
def wrapInt32 (x : Int) : Int := (x + 2 ^ 31) % 2 ^ 32 - 2 ^ 31

/-- The smallest `int`. -/
def INT_MIN : Int := -(2 ^ 31)

/-- The largest `int`. -/
def INT_MAX : Int := 2 ^ 31 - 1

/-- Byte memory addressed by natural numbers; what a `const char *` points into. -/
abbrev Mem := Nat → Nat

/-- A `const char *`: `none` is the null pointer, `some a` the address `a`. -/
abbrev CharPtr := Option Nat

/-- Reading cell `off + i` of an array, as the source of a `memcpy` or `memcmp`. -/
def cells (arr : List Nat) (off : Nat) : Nat → Nat := fun i => arr.getD (off + i) 0

/-- Effect of `memcpy(dst, src, n)` (and of `std::copy_n(src, n, dst)`) on the array `dst`:
its first `n` cells become `src 0, ..., src (n - 1)`, the others are kept.  (`n` does not
exceed the array.) -/
def memcpy {α : Type} (dst : List α) (src : Nat → α) (n : Nat) : List α :=
  (List.range n).map src ++ dst.drop n

/-- Effect of `std::fill_n(dst, n, v)` on the array `dst`. -/
def fill_n {α : Type} (dst : List α) (n : Nat) (v : α) : List α :=
  memcpy dst (fun _ => v) n

/-- Result of `memchr(base + start, c, n)` as an offset from `base`: the first offset in
`[start, start + n)` whose byte is `c`, if there is one.  `read` gives the byte at an
offset from `base`. -/
def memchr (read : Int → Nat) (start : Int) (c : Nat) : Nat → Option Int
  | 0 => none
  | n + 1 => if read start = c then some start else memchr read (start + 1) c n

/-- Result of `memcmp(a, b, n)`: the difference of the first pair of differing bytes among the
first `n`, and `0` when there is none. -/
def memcmp (a b : Nat → Nat) : Nat → Int
  | 0 => 0
  | n + 1 => if a 0 = b 0 then memcmp (fun i => a (i + 1)) (fun i => b (i + 1)) n
             else (a 0 : Int) - (b 0 : Int)

/-! ## `TensorLayout_t` (`tensor_layout.h`) -/

/-- Largest number of dimensions of a tensor: `#define TENSOR_MAX_RANK (15)`. -/
def TENSOR_MAX_RANK : Nat := 15

/-- The record `TensorLayoutRec`: `char data[TENSOR_MAX_RANK + 1]; int32_t rank;`. -/
structure TensorLayout_t where
  data : List Nat
  rank : Int
  deriving DecidableEq, Repr

namespace TensorLayout_t

/-- A layout record whose array has its 16 cells and whose rank is within `0..15`. -/
def Valid (l : TensorLayout_t) : Prop :=
  l.data.length = TENSOR_MAX_RANK + 1 ∧ 0 ≤ l.rank ∧ l.rank ≤ TENSOR_MAX_RANK

instance (l : TensorLayout_t) : Decidable l.Valid := by
  unfold Valid; infer_instance

/-- The labels of a layout: the first `rank` cells of `data`, in order. -/
def labels (l : TensorLayout_t) : List Nat := l.data.take l.rank.toNat

end TensorLayout_t

/-- The macro `TENSOR_LAYOUT_MAKE(layout)` applied to a string literal of at most 15
characters: the array holds the characters followed by zeros, the rank is
`sizeof(layout) - 1`. -/
def TENSOR_LAYOUT_MAKE (layout : List Nat) : TensorLayout_t :=
  { data := layout ++ List.replicate (TENSOR_MAX_RANK + 1 - layout.length) 0,
    rank := layout.length }

/-- The empty layout `TENSOR_NONE`. -/
def TENSOR_NONE : TensorLayout_t := TENSOR_LAYOUT_MAKE []

/-- Source: `TLABEL_BATCH = 'N'`. -/
def TLABEL_BATCH : Nat := 78
/-- Source: `TLABEL_CHANNEL = 'C'`. -/
def TLABEL_CHANNEL : Nat := 67
/-- Source: `TLABEL_FRAME = 'F'`. -/
def TLABEL_FRAME : Nat := 70
/-- Source: `TLABEL_DEPTH = 'D'`. -/
def TLABEL_DEPTH : Nat := 68
/-- Source: `TLABEL_HEIGHT = 'H'`. -/
def TLABEL_HEIGHT : Nat := 72
/-- Source: `TLABEL_WIDTH = 'W'`. -/
def TLABEL_WIDTH : Nat := 87

/-- The layout `NCHW`. -/
def layoutNCHW : TensorLayout_t :=
  TENSOR_LAYOUT_MAKE [TLABEL_BATCH, TLABEL_CHANNEL, TLABEL_HEIGHT, TLABEL_WIDTH]
/-- The layout `NHWC`. -/
def layoutNHWC : TensorLayout_t :=
  TENSOR_LAYOUT_MAKE [TLABEL_BATCH, TLABEL_HEIGHT, TLABEL_WIDTH, TLABEL_CHANNEL]
/-- The layout `HW`. -/
def layoutHW : TensorLayout_t := TENSOR_LAYOUT_MAKE [TLABEL_HEIGHT, TLABEL_WIDTH]

/-! ## Layout construction (`tensor_layout.cpp`) -/

/-- The copy loop of `CreateLayout(const char *)`:
`for (int i = 0; i < TENSOR_MAX_RANK && *cur; ++i, ++cur) out.data[i] = *cur;`
with `cur = descr + i` throughout.  The first argument counts the iterations that
`i < TENSOR_MAX_RANK` still allows (`TENSOR_MAX_RANK - i`).  Returns the final `i` and array. -/
def CreateLayout.copyLoop (mem : Mem) (descr : Nat) : Nat → Nat → List Nat → Nat × List Nat
  | 0, i, data => (i, data)
  | k + 1, i, data =>
    if mem (descr + i) ≠ 0 then copyLoop mem descr k (i + 1) (data.set i (mem (descr + i)))
    else (i, data)

/-- Source: `TensorLayout_t CreateLayout(const char *descr)`.  `out` is the uninitialised local. -/
def CreateLayout (mem : Mem) (descr : CharPtr) (out : TensorLayout_t) : Result TensorLayout_t :=
  match descr with
  | none => .ok { data := List.replicate (TENSOR_MAX_RANK + 1) 0, rank := 0 }
  | some p =>
    let r := CreateLayout.copyLoop mem p TENSOR_MAX_RANK 0 out.data
    if mem (p + r.1) ≠ 0 then .error invalidArgument
    else
      let rank : Int := r.1
      if 0 ≤ rank ∧ toSizeT rank < TENSOR_MAX_RANK + 1 then
        .ok { data := r.2.set rank.toNat 0, rank := rank }
      else .error cucvAssertFailed

/-- Source: `TensorLayout_t CreateLayout(const char *begin, const char *end)`, the range overload.
`out` is the uninitialised local. -/
def CreateLayoutRange (mem : Mem) (pbegin pend : CharPtr) (out : TensorLayout_t) :
    Result TensorLayout_t :=
  match pbegin, pend with
  | some b, some e =>
    if (e : Int) - b < 0 then .error invalidArgument
    else if (e : Int) - b > TENSOR_MAX_RANK then .error invalidArgument
    else
      let rank : Int := (e : Int) - b
      .ok { data := memcpy out.data (fun i => mem (b + i)) (toSizeT rank), rank := rank }
  | _, _ => .error invalidArgument

/-- A C string of length `len` at address `p`: `len` non-NUL bytes followed by a NUL. -/
def IsCStr (mem : Mem) (p len : Nat) : Prop :=
  (∀ i, i < len → mem (p + i) ≠ 0) ∧ mem (p + len) = 0

instance (mem : Mem) (p len : Nat) : Decidable (IsCStr mem p len) := by
  unfold IsCStr; infer_instance

/-- Memory holding the bytes `s` from address 0 on, and NUL everywhere else. -/
def memOf (s : List Nat) : Mem := fun a => s.getD a 0

mutual
/-- Source: `TensorLayout_t CreateFirst(const TensorLayout_t &layout, int n)`.
`CreateFirst` and `CreateLast` call each other on a negative `n`: the first argument bounds
the depth of the call chain, and `none` means that the chain did not return within it.
`out` is the uninitialised local of the call that builds the result.  The negation `-n` is
taken in 32-bit arithmetic. -/
def CreateFirst : Nat → TensorLayout_t → TensorLayout_t → Int → Option TensorLayout_t
  | 0, _, _, _ => none
  | fuel + 1, out, layout, n =>
    if n ≥ 0 then
      let rank := min n layout.rank
      some { data := memcpy out.data (cells layout.data 0) (toSizeT rank), rank := rank }
    else CreateLast fuel out layout (wrapInt32 (-n))
/-- Source: `TensorLayout_t CreateLast(const TensorLayout_t &layout, int n)`; see `CreateFirst`. -/
def CreateLast : Nat → TensorLayout_t → TensorLayout_t → Int → Option TensorLayout_t
  | 0, _, _, _ => none
  | fuel + 1, out, layout, n =>
    if n ≥ 0 then
      let rank := min n layout.rank
      some { data := memcpy out.data (cells layout.data (layout.rank - rank).toNat) (toSizeT rank),
             rank := rank }
    else CreateFirst fuel out layout (wrapInt32 (-n))
end

/-- The value `CreateSubRange` gives to its parameter `begin` (and, likewise, to `end`):
`if (idx < 0) idx = std::max(0, layout.rank + idx); else idx = std::min(idx, layout.rank);`. -/
def CreateSubRange.clamp (layout : TensorLayout_t) (idx : Int) : Int :=
  if idx < 0 then max 0 (layout.rank + idx) else min idx layout.rank

/-- Source: `TensorLayout_t CreateSubRange(const TensorLayout_t &layout, int begin, int end)`.
`out` is the uninitialised local. -/
def CreateSubRange (out layout : TensorLayout_t) (begin_idx end_idx : Int) : TensorLayout_t :=
  let b := CreateSubRange.clamp layout begin_idx
  let e := CreateSubRange.clamp layout end_idx
  let rank := e - b
  if rank > 0 then
    { data := memcpy out.data (cells layout.data b.toNat) (toSizeT rank), rank := rank }
  else { data := out.data, rank := 0 }

/-- The byte at offset `off` of `layout.data`, for an offset inside the array. -/
def TensorLayout_t.read (layout : TensorLayout_t) : Int → Nat :=
  fun off => layout.data.getD off.toNat 0

/-- Source: `int FindDimIndex(const TensorLayout_t &layout, char dim_label)`: `memchr` over the first
`rank` cells; the distance from `layout.data`, or `-1`. -/
def FindDimIndex (layout : TensorLayout_t) (dim_label : Nat) : Int :=
  match memchr layout.read 0 dim_label (toSizeT layout.rank) with
  | some p => p
  | none => -1

/-- Source: `bool IsChannelLast(const TensorLayout_t &layout)`. -/
def IsChannelLast (layout : TensorLayout_t) : Bool :=
  layout.rank == 0 || layout.data.getD (layout.rank - 1).toNat 0 == TLABEL_CHANNEL

/-! ## Layout queries (`tensor_layout.h`) -/

/-- The byte at offset `off` from `layout.data` when `layout` is a by-value argument:
inside the array for `0 ≤ off`, and for `off < 0` the byte `before (-off - 1)` of whatever
memory lies in front of the array (`before 0` is the byte just in front of `data[0]`). -/
def TensorLayout_t.readAround (before : Nat → Nat) (layout : TensorLayout_t) : Int → Nat :=
  fun off => if off < 0 then before (-off - 1).toNat else layout.data.getD off.toNat 0

/-- Source: `int32_t TensorLayoutFindDimIndex(TensorLayout_t layout, char dim_label, int idx_start)`.
`before` is the memory in front of `layout.data`, which the `memchr` reaches when the
adjusted `idx_start` is negative.  `n` is computed in 32-bit arithmetic. -/
def TensorLayoutFindDimIndex (before : Nat → Nat) (layout : TensorLayout_t) (dim_label : Nat)
    (idx_start : Int) : Int :=
  let idx_start := if idx_start < 0 then layout.rank + idx_start else idx_start
  let n := wrapInt32 (layout.rank - idx_start)
  if n > 0 then
    match memchr (layout.readAround before) idx_start dim_label (toSizeT n) with
    | some p => p
    | none => -1
  else -1

/-- Source: `char TensorLayoutGetLabel(TensorLayout_t layout, int idx)`. -/
def TensorLayoutGetLabel (layout : TensorLayout_t) (idx : Int) : Nat :=
  if idx < 0 then
    (if 0 ≤ layout.rank + idx ∧ layout.rank + idx < layout.rank then
      layout.data.getD (layout.rank + idx).toNat 0 else 0)
  else (if 0 ≤ idx ∧ idx < layout.rank then layout.data.getD idx.toNat 0 else 0)

/-- Source: `int32_t TensorLayoutGetNumDim(TensorLayout_t layout)`. -/
def TensorLayoutGetNumDim (layout : TensorLayout_t) : Int := layout.rank

/-- Source: `int32_t TensorLayoutCompare(TensorLayout_t a, TensorLayout_t b)`. -/
def TensorLayoutCompare (a b : TensorLayout_t) : Int :=
  if a.rank = b.rank then memcmp (cells a.data 0) (cells b.data 0) (toSizeT a.rank)
  else a.rank - b.rank

/-- Source: `int32_t TensorLayoutStartsWith(TensorLayout_t layout, TensorLayout_t test)`. -/
def TensorLayoutStartsWith (layout test : TensorLayout_t) : Int :=
  if test.rank ≤ layout.rank then
    (if memcmp (cells test.data 0) (cells layout.data 0) (toSizeT test.rank) = 0 then 1 else 0)
  else 0

/-- Source: `int32_t TensorLayoutEndsWith(TensorLayout_t layout, TensorLayout_t test)`. -/
def TensorLayoutEndsWith (layout test : TensorLayout_t) : Int :=
  if test.rank ≤ layout.rank then
    (if memcmp (cells test.data 0) (cells layout.data (layout.rank - test.rank).toNat)
        (toSizeT test.rank) = 0 then 1 else 0)
  else 0

/-! ## `Shape<int64_t, TENSOR_MAX_RANK>` (`shape.hpp`) -/

/-- The class `Shape<T, N>` at `T = int64_t`, `N = TENSOR_MAX_RANK`:
`std::array<T, N> data_; int size_;`. -/
structure Shape where
  data_ : List Int
  size_ : Int
  deriving DecidableEq, Repr

namespace Shape

/-- Source: `constexpr static int MAX_RANK = N`. -/
def MAX_RANK : Nat := TENSOR_MAX_RANK

/-- Source: `Shape()`: `size_(0)`; the cells keep what the storage held. -/
def default (storage : List Int) : Shape := { data_ := storage, size_ := 0 }

/-- Source: `explicit Shape(size_type size)`: `size_(size)`, then
`std::fill(begin(), end(), 0)`.  The fill stores `0` at `first` and advances `first` until it
equals `end() = begin() + size`, which is computed before the loop.  For `0 ≤ size ≤ 15` it
zeroes the first `size` cells.  The members are `Data data_; size_type size_;`: the 4-byte
`size_` (and 4 bytes of padding) lies directly behind the 15 eight-byte cells, so for
`size > 15` the store at position 15 zeroes `size_` after all 15 cells were zeroed, and the
positions from 16 on lie behind the object (`sizedBehind`).  For `size < 0` the loop never
reaches `end()`. -/
def sized (storage : List Int) (size : Int) : Result Shape :=
  if size < 0 then .error .neverReturns
  else if size ≤ TENSOR_MAX_RANK then .ok { data_ := fill_n storage size.toNat 0, size_ := size }
  else .ok { data_ := fill_n storage TENSOR_MAX_RANK 0, size_ := 0 }

/-- Source: `Shape(const Shape &that)`: `size_(that.size_)`, then
`std::copy(that.begin(), that.end(), data_.begin())`. -/
def copy (storage : List Int) (that : Shape) : Shape :=
  { data_ := memcpy storage (fun i => that.data_.getD i 0) that.size_.toNat, size_ := that.size_ }

/-- Source: `Shape(const T *data, size_t n)`: `size_(n)`, the two checks, then
`std::copy_n(data, n, data_.begin())`.  `data` is `none` for a null pointer and otherwise the
cells it points to. -/
def ofData (storage : List Int) (data : Option (List Int)) (n : Nat) : Result Shape :=
  match data with
  | none => .error invalidArgument
  | some cellsOfData =>
    if n > TENSOR_MAX_RANK then .error invalidArgument
    else .ok { data_ := memcpy storage (fun i => cellsOfData.getD i 0) n, size_ := n }

/-- Source: `operator[](int i)`: `assert(0 <= i && i < size_); return data_[i];`. -/
def get (s : Shape) (i : Int) : Result Int :=
  if 0 ≤ i ∧ i < s.size_ then .ok (s.data_.getD i.toNat 0) else .error .assertFailed

/-- Source: `rank()`. -/
def rank (s : Shape) : Int := s.size_

/-- Source: `size()`. -/
def size (s : Shape) : Int := s.size_

/-- Source: `empty()`. -/
def empty (s : Shape) : Bool := s.size_ == 0

/-- The elements of the range `[begin(), end())`: the first `size_` cells. -/
def elems (s : Shape) : List Int := s.data_.take s.size_.toNat

/-- Source: `operator==`: equal sizes and `std::equal(begin(), end(), that.begin())`. -/
def eq (s that : Shape) : Bool :=
  if s.size_ = that.size_ then
    (List.range s.size_.toNat).all (fun i => s.data_.getD i 0 == that.data_.getD i 0)
  else false

end Shape

/-- Storage of 15 cells holding zeros, used where some storage has to be named. -/
def zeroStorage : List Int := List.replicate TENSOR_MAX_RANK 0

/-! ## `TensorShape` and permutation (`tensor_shape.hpp`, `tensor_shape.cpp`) -/

/-- The class `TensorShape`: `ShapeType shape_; TensorLayout layout_;`.  The class
`TensorLayout` has the single member `TensorLayout_t layout_` and is identified with it. -/
structure TensorShape where
  shape_ : Shape
  layout_ : TensorLayout_t
  deriving DecidableEq, Repr

namespace TensorShape

/-- Source: `TensorShape(ShapeType shape, TensorLayout layout)`: the members are copy-constructed
from the arguments (`Shape` has no move constructor), then
`if (layout_ != TENSOR_NONE && shape_.rank() != layout_.rank()) CUCV_Error(...)`.
`layout_ != TENSOR_NONE` is `!(TensorLayoutCompare(layout_, TENSOR_NONE) == 0)`.
`storage` is what the cells of the new `shape_` held before. -/
def ofShape (storage : List Int) (shape : Shape) (layout : TensorLayout_t) : Result TensorShape :=
  let shape_ := Shape.copy storage shape
  let layout_ := layout
  if ¬ (TensorLayoutCompare layout_ TENSOR_NONE = 0) ∧ shape_.rank ≠ TensorLayoutGetNumDim layout_ then
    .error invalidArgument
  else .ok { shape_ := shape_, layout_ := layout_ }

/-- Source: `TensorShape(const DimType *data, int32_t size, TensorLayout layout)`: delegates to
`TensorShape(ShapeType(data, size), std::move(layout))`; `size` becomes a `size_t`. -/
def ofData (storage : List Int) (data : Option (List Int)) (size : Int) (layout : TensorLayout_t) :
    Result TensorShape :=
  match Shape.ofData storage data (toSizeT size) with
  | .error e => .error e
  | .ok shape => ofShape storage shape layout

/-- Source: `shape()`. -/
def shape (ts : TensorShape) : Shape := ts.shape_

/-- Source: `layout()`. -/
def layout (ts : TensorShape) : TensorLayout_t := ts.layout_

/-- Source: `operator[](int i)`: `return shape_[i];`. -/
def get (ts : TensorShape) (i : Int) : Result Int := ts.shape_.get i

/-- Source: `rank()`. -/
def rank (ts : TensorShape) : Int := ts.shape_.rank

end TensorShape

/-- The body of the loop of `TensorShapePermute` at index `i`, on the destination cells `cur`:
`int dst_idx = FindDimIndex(dst_layout, src_layout.data[i]);`
`if (dst_idx >= 0) dst_shape[dst_idx] = src_shape[i];`. -/
def TensorShapePermute.body (src_layout : TensorLayout_t) (src : List Int)
    (dst_layout : TensorLayout_t) (cur : List Int) (i : Nat) : List Int :=
  let dst_idx := FindDimIndex dst_layout (src_layout.data.getD i 0)
  if dst_idx ≥ 0 then cur.set dst_idx.toNat (src.getD i 0) else cur

/-- Source: `TensorShapePermute(src_layout, src_shape, dst_layout, dst_shape)`: the cells of
`dst_shape` after the call.  A pointer argument is `none` when null and otherwise the cells it
points to.  After the two `CUCV_Assert`s come `std::fill_n(dst_shape, dst_layout.rank, 1)` and
the loop `for (int i = 0; i < src_layout.rank; ++i)`.  (The source function has no `return`
statement; its `Status` result is not part of this embedding.) -/
def TensorShapePermute (src_layout : TensorLayout_t) (src_shape : Option (List Int))
    (dst_layout : TensorLayout_t) (dst_shape : Option (List Int)) : Result (List Int) :=
  match src_shape, dst_shape with
  | none, _ => .error cucvAssertFailed
  | some _, none => .error cucvAssertFailed
  | some src, some dst =>
    .ok ((List.range src_layout.rank.toNat).foldl
      (TensorShapePermute.body src_layout src dst_layout)
      (fill_n dst dst_layout.rank.toNat 1))

/-- Source: `TensorShape Permute(const TensorShape &src, TensorLayout dstLayout)`.  The local
`dst(dstLayout.rank())` is constructed first; `&src[0]` and `&dst[0]` go through the bounds
assertion of `Shape::operator[]`. -/
def Permute (storage : List Int) (src : TensorShape) (dstLayout : TensorLayout_t) :
    Result TensorShape :=
  match Shape.sized storage (TensorLayoutGetNumDim dstLayout) with
  | .error e => .error e
  | .ok dst =>
    match src.get 0, dst.get 0 with
    | .error e, _ => .error e
    | .ok _, .error e => .error e
    | .ok _, .ok _ =>
      match TensorShapePermute src.layout (some src.shape_.data_) dstLayout (some dst.data_) with
      | .error e => .error e
      | .ok written => TensorShape.ofShape storage { dst with data_ := written } dstLayout

/-! ## `detail::Optional<T>` (`detail/optional.h`) -/

/-- The class `Optional<T>`: `bool has_value_;` and the aligned `storage_`, whose bytes exist
whether or not a value lives in them. -/
structure Optional (α : Type) where
  has_value_ : Bool
  storage_ : α
  deriving DecidableEq, Repr

namespace Optional

/-- Source: `Optional()`: `has_value_(false)`; `storage` is what the bytes happen to hold. -/
def none {α : Type} (storage : α) : Optional α := { has_value_ := false, storage_ := storage }

/-- Source: `hasValue()` and `explicit operator bool()`. -/
def hasValue {α : Type} (o : Optional α) : Bool := o.has_value_

/-- Source: `value()`: throws `std::runtime_error` when there is no value. -/
def value {α : Type} (o : Optional α) : Result α :=
  if !o.has_value_ then .error .badOptionalAccess else .ok o.storage_

/-- Source: `reset()`: destroys the value, if any, and clears the flag. -/
def reset {α : Type} (o : Optional α) : Optional α :=
  if o.has_value_ then { o with has_value_ := false } else o

/-- Source: `emplace(args...)`: constructs a `T` in the storage and, when there was no value, sets the
flag after the construction.  `construct` is the constructor call, given the bytes the storage
held; when it throws, the flag is as before. -/
def emplace {α : Type} (o : Optional α) (construct : α → Result α) : Result α × Optional α :=
  if o.has_value_ then
    match construct o.storage_ with
    | .ok v => (.ok v, { o with storage_ := v })
    | .error e => (.error e, o)
  else
    match construct o.storage_ with
    | .ok v => (.ok v, { has_value_ := true, storage_ := v })
    | .error e => (.error e, o)

end Optional

/-! ## Tensor data records and views (`tensor_data.h`, `itensor_data.hpp`) -/

/-- The record `TensorBufferStridedRec`: `int64_t strides[TENSOR_MAX_RANK]; uint8_t *base;`. -/
structure TensorBufferStrided_t where
  strides : List Int
  base : Nat
  deriving DecidableEq, Repr

/-- Source: `enum TensorBufferType`. -/
inductive TensorBufferType
  | TENSOR_BUFFER_NONE
  | TENSOR_BUFFER_STRIDED_CUDA
  deriving DecidableEq, Repr

/-- The record `TensorBufferRec`. -/
structure TensorBuffer_t where
  strided : TensorBufferStrided_t
  deriving DecidableEq, Repr

/-- The record `TensorDataRec`. -/
structure TensorData_t where
  dtype : Nat
  layout : TensorLayout_t
  rank : Int
  shape : List Int
  buffer_type : TensorBufferType
  buffer : TensorBuffer_t
  deriving DecidableEq, Repr

/-- The class `ITensorData`: `TensorData_t data_; mutable Optional<TensorShape> cache_shape_;`. -/
structure ITensorData where
  data_ : TensorData_t
  cache_shape_ : Optional TensorShape

namespace ITensorData

/-- Source: `ITensorData(const TensorData_t &data)`: `data_(data)`, the cache starts empty.
`cacheStorage` is what the bytes of the cache storage hold. -/
def ofData (data : TensorData_t) (cacheStorage : TensorShape) : ITensorData :=
  { data_ := data, cache_shape_ := Optional.none cacheStorage }

/-- Source: `const TensorData_t &cdata() const`. -/
def cdataConst (self : ITensorData) : TensorData_t := self.data_

/-- Source: `TensorData_t &cdata()`: resets the cache and hands out the record.  The result is the
object after the call; the reference is to its `data_`. -/
def cdata (self : ITensorData) : ITensorData :=
  { self with cache_shape_ := self.cache_shape_.reset }

/-- A change of the record made by a holder of mutable access: `cdata()` is called and the
record behind the returned reference is replaced by `f` of it. -/
def mutate (self : ITensorData) (f : TensorData_t → TensorData_t) : ITensorData :=
  let afterAccess := self.cdata
  { afterAccess with data_ := f afterAccess.data_ }

/-- Source: `const TensorShape &shape() const`: the value returned (or the failure thrown) and the
object after the call. -/
def shape (self : ITensorData) : Result TensorShape × ITensorData :=
  if !self.cache_shape_.hasValue then
    let data := self.cdataConst
    match self.cache_shape_.emplace
        (fun old => TensorShape.ofData old.shape_.data_ (some data.shape) data.rank data.layout) with
    | (.error e, cache) => (.error e, { self with cache_shape_ := cache })
    | (.ok _, cache) => (cache.value, { self with cache_shape_ := cache })
  else (self.cache_shape_.value, self)

/-- One access to a view: a call of `shape()`, or a change of the record through `cdata()`. -/
inductive Access
  | readShape
  | change (f : TensorData_t → TensorData_t)

/-- The object after one access. -/
def step (self : ITensorData) : Access → ITensorData
  | .readShape => self.shape.2
  | .change f => self.mutate f

/-- The object after a sequence of accesses. -/
def run (self : ITensorData) (accesses : List Access) : ITensorData :=
  accesses.foldl step self

/-- Coherence of the cache: a cached shape is a `TensorShape` constructed from the current
record (`shape`, `rank`, `layout`), over some previous contents of the storage. -/
def Coherent (self : ITensorData) : Prop :=
  self.cache_shape_.has_value_ = true →
    ∃ storage, TensorShape.ofData storage (some self.data_.shape) self.data_.rank self.data_.layout
      = .ok self.cache_shape_.storage_

end ITensorData

/-! ## Comparison operators (`tensor_layout.h`, `shape.hpp`, `tensor_shape.hpp`) -/

/-- Source: `bool operator==(const TensorLayout_t &lhs, const TensorLayout_t &rhs)`:
`TensorLayoutCompare(lhs, rhs) == 0`.  The operators of the class `TensorLayout` forward to
this one and to `operator<`. -/
def TensorLayout_t.eq (lhs rhs : TensorLayout_t) : Bool := TensorLayoutCompare lhs rhs == 0

/-- Source: `bool operator<(const TensorLayout_t &lhs, const TensorLayout_t &rhs)`:
`TensorLayoutCompare(lhs, rhs) < 0`. -/
def TensorLayout_t.lt (lhs rhs : TensorLayout_t) : Bool := decide (TensorLayoutCompare lhs rhs < 0)

/-- The algorithm `std::lexicographical_compare(first1, last1, first2, last2)` on the elements
of the two ranges: at the first position where the elements differ the smaller one decides; if
one range ends first, the result is whether the second range still has elements. -/
def lexicographical_compare : List Int → List Int → Bool
  | [], [] => false
  | [], _ :: _ => true
  | _ :: _, [] => false
  | a :: as, b :: bs =>
    if a < b then true else if b < a then false else lexicographical_compare as bs

/-- A `Shape` whose array has its 15 cells and whose size is within `0..15`. -/
def Shape.Valid (s : Shape) : Prop :=
  s.data_.length = TENSOR_MAX_RANK ∧ 0 ≤ s.size_ ∧ s.size_ ≤ TENSOR_MAX_RANK

instance (s : Shape) : Decidable s.Valid := by
  unfold Shape.Valid; infer_instance

/-- Source: `Shape::operator<`:
`std::lexicographical_compare(begin(), end(), that.begin(), that.end())`. -/
def Shape.lt (s that : Shape) : Bool := lexicographical_compare s.elems that.elems

/-- Source: `TensorShape::operator==`:
`std::tie(shape_, layout_) == std::tie(that.shape_, that.layout_)`, the member-wise `==`. -/
def TensorShape.eq (ts that : TensorShape) : Bool :=
  ts.shape_.eq that.shape_ && ts.layout_.eq that.layout_

/-- Source: `TensorShape::operator<`:
`std::tie(shape_, layout_) < std::tie(that.shape_, that.layout_)`.  The `<` of tuples is
`get<0>(t) < get<0>(u) || (!(get<0>(u) < get<0>(t)) && get<1>(t) < get<1>(u))`. -/
def TensorShape.lt (ts that : TensorShape) : Bool :=
  ts.shape_.lt that.shape_ || (!(that.shape_.lt ts.shape_) && ts.layout_.lt that.layout_)

/-- A `TensorShape` whose sizes and layout are valid records. -/
def TensorShape.Valid (ts : TensorShape) : Prop := ts.shape_.Valid ∧ ts.layout_.Valid

instance (ts : TensorShape) : Decidable ts.Valid := by
  unfold TensorShape.Valid; infer_instance

/-- Source: `const TensorShape::DimType &ITensorData::shape(int d) const`: the value returned (or
the failure thrown) and the object after the call.  In a `const` member `this->cdata()` is the
`const` overload. -/
def ITensorData.shapeAt (self : ITensorData) (d : Int) : Result Int × ITensorData :=
  let data := self.cdataConst
  if d < 0 ∨ d ≥ data.rank then (.error invalidArgument, self)
  else (.ok (data.shape.getD d.toNat 0), self)

/-! ## Accessors of the view classes (`itensor_data.hpp`, `tensor_data.hpp`) -/

/-- Source: `int ITensorData::rank() const`: `this->cdata().rank`. -/
def ITensorData.rank (self : ITensorData) : Int := self.cdataConst.rank

/-- Source: `const TensorLayout &ITensorData::layout() const`: `this->shape().layout()`; the value
returned (or the failure thrown) and the object after the call. -/
def ITensorData.layout (self : ITensorData) : Result TensorLayout_t × ITensorData :=
  match self.shape with
  | (.ok ts, after) => (.ok ts.layout, after)
  | (.error e, after) => (.error e, after)

/-- Source: `DataType ITensorData::dtype() const`: `DataType{data.dtype}`. -/
def ITensorData.dtype (self : ITensorData) : Nat := self.cdataConst.dtype

/-- Source: `Byte *ITensorDataStrided::base() const`: the `base` of `cdata().buffer.strided`.  The
class `ITensorDataStrided` adds no data member to `ITensorData`. -/
def ITensorDataStrided.base (self : ITensorData) : Nat := self.cdataConst.buffer.strided.base

/-- Source: `const int64_t &ITensorDataStrided::stride(int d) const`: the value returned (or the
failure thrown) and the object after the call. -/
def ITensorDataStrided.stride (self : ITensorData) (d : Int) : Result Int × ITensorData :=
  let data := self.cdataConst
  if d < 0 ∨ d ≥ data.rank then (.error invalidArgument, self)
  else (.ok (data.buffer.strided.strides.getD d.toNat 0), self)

/-- Source: `TensorDataStridedCuda(const TensorShape &tshape, const DataType &dtype, const Buffer
&buffer)`: the base is default-constructed (`uninit` is what the record holds, the cache is
empty), `this->cdata()` is the mutable overload, and the fields are assigned in turn. -/
def TensorDataStridedCuda.ofShape (uninit : TensorData_t) (cacheStorage : TensorShape)
    (tshape : TensorShape) (dtype : Nat) (buffer : TensorBufferStrided_t) : ITensorData :=
  let start : ITensorData := { data_ := uninit, cache_shape_ := Optional.none cacheStorage }
  let self := start.cdata
  let data := self.data_
  { self with
    data_ :=
      { dtype := dtype,
        layout := tshape.layout,
        rank := tshape.rank,
        shape := memcpy data.shape (fun i => tshape.shape.data_.getD i 0) tshape.shape.size_.toNat,
        buffer_type := .TENSOR_BUFFER_STRIDED_CUDA,
        buffer := { strided := buffer } } }

/-! ## The C entry points for layouts (`tensor_layout.cpp`, `tensor_layout.hpp`) -/

/-- Source: `Status TensorLayoutMake(const char *descr, TensorLayout_t *layout)`: the record behind
`layout` after the call.  The body is the null check of `layout` followed by the statement
`CreateLayout(descr);`, whose value is dropped.  `layout` is `none` for a null pointer and
otherwise the record it points to; `out` is the uninitialised local of `CreateLayout`.  (There
is no `return` statement; the `Status` result is not part of this embedding.) -/
def TensorLayoutMake (mem : Mem) (descr : CharPtr) (layout : Option TensorLayout_t)
    (out : TensorLayout_t) : Result TensorLayout_t :=
  match layout with
  | none => .error invalidArgument
  | some pointee =>
    match CreateLayout mem descr out with
    | .error e => .error e
    | .ok _ => .ok pointee

/-- Source: `Status TensorLayoutMakeRange(const char *begin, const char *end, TensorLayout_t
*layout)`: the record behind `layout` after the call; the body is the null check followed by
the statement `CreateLayout(begin, end);`. -/
def TensorLayoutMakeRange (mem : Mem) (pbegin pend : CharPtr) (layout : Option TensorLayout_t)
    (out : TensorLayout_t) : Result TensorLayout_t :=
  match layout with
  | none => .error invalidArgument
  | some pointee =>
    match CreateLayoutRange mem pbegin pend out with
    | .error e => .error e
    | .ok _ => .ok pointee

/-- Source: `explicit TensorLayout(const char *descr)`: `TensorLayoutMake(descr, &layout_);` on the
member `layout_`, which holds `uninit` before the call. -/
def TensorLayout.ofDescr (mem : Mem) (descr : CharPtr) (uninit out : TensorLayout_t) :
    Result TensorLayout_t :=
  TensorLayoutMake mem descr (some uninit) out

/-- Source: `const char *TensorLayoutGetName(const TensorLayout_t *layout)`:
`layout == NULL ? "" : layout->data`, read as a C string: the bytes of `data` up to the first
NUL.  (When `data` holds no NUL the C string runs on past the array; the list ends with the
array.) -/
def TensorLayoutGetName (layout : Option TensorLayout_t) : List Nat :=
  match layout with
  | none => []
  | some l => l.data.takeWhile (fun c => c != 0)

/-- The positions of `layout.data` that the expression of `TensorLayoutGetLabel` evaluates:
`layout.data[layout.rank + idx]` in the first branch, `layout.data[idx]` in the second, each
only under its guard. -/
def TensorLayoutGetLabel.reads (layout : TensorLayout_t) (idx : Int) : List Int :=
  if idx < 0 then
    (if 0 ≤ layout.rank + idx ∧ layout.rank + idx < layout.rank then [layout.rank + idx] else [])
  else (if 0 ≤ idx ∧ idx < layout.rank then [idx] else [])

/-! ## Memory requirements (`alloc/requirements.h`, `tensor.h`) -/

/-- Source: `#define MAX_MEM_REQUIREMENTS_LOG2_BLOCK_SIZE (32)`. -/
def MAX_MEM_REQUIREMENTS_LOG2_BLOCK_SIZE : Nat := 32

/-- Source: `#define MAX_MEM_REQUIREMENTS_BLOCK_SIZE (((int64_t)1) << MAX_MEM_REQUIREMENTS_LOG2_BLOCK_SIZE)`. -/
def MAX_MEM_REQUIREMENTS_BLOCK_SIZE : Int := 1 * 2 ^ MAX_MEM_REQUIREMENTS_LOG2_BLOCK_SIZE

/-- The record `MemRequirementsRec`: `int64_t num_blocks[MAX_MEM_REQUIREMENTS_LOG2_BLOCK_SIZE];`,
whose index is `log2(size)`. -/
structure MemRequirements_t where
  num_blocks : List Int
  deriving DecidableEq, Repr

/-- The number of cells of `num_blocks`, as declared. -/
def MemRequirements_t.numBlocksLength : Nat := MAX_MEM_REQUIREMENTS_LOG2_BLOCK_SIZE

/-- A valid index of `num_blocks`. -/
def MemRequirements_t.ValidIndex (k : Int) : Prop :=
  0 ≤ k ∧ k < MemRequirements_t.numBlocksLength

instance (k : Int) : Decidable (MemRequirements_t.ValidIndex k) := by
  unfold MemRequirements_t.ValidIndex; infer_instance

/-- A record whose array has the declared number of cells. -/
def MemRequirements_t.Valid (m : MemRequirements_t) : Prop :=
  m.num_blocks.length = MemRequirements_t.numBlocksLength

/-- The record `RequirementsRec`. -/
structure Requirements_t where
  cudaMem : MemRequirements_t
  hostMem : MemRequirements_t
  hostPinnedMem : MemRequirements_t
  deriving DecidableEq, Repr

/-- The record `TensorRequirementsRec`. -/
structure TensorRequirements_t where
  dtype : Nat
  layout : TensorLayout_t
  rank : Int
  shape : List Int
  strides : List Int
  alignBytes : Int
  mem : Requirements_t
  deriving DecidableEq, Repr

/-! ## Requirements planning, from the specification -/

/-- Modelled from the spec: the failure `Overflow` of the planner; the function `classify` and
the body of `Tensor::CalcRequirements` are not among the sources. -/
abbrev overflow : Failure := .raised .CUCV_ERROR_OVERFLOW

/-- Modelled from the spec: `classify(nbytes)` of section 4.4, which no source function
computes: the smallest `k` in `[0, 32]` with `2^k >= nbytes` is selected and `num_blocks[k]` is
incremented by 1; when there is no such `k` the call fails with `Overflow`.  Returns the
selected `k` and the counters after the call. -/
def classify (counters : List Int) (nbytes : Nat) : Result (Nat × List Int) :=
  match (List.range (MAX_MEM_REQUIREMENTS_LOG2_BLOCK_SIZE + 1)).find?
      (fun k => decide (nbytes ≤ 2 ^ k)) with
  | some k => .ok (k, counters.set k (counters.getD k 0 + 1))
  | none => .error overflow

/-- Modelled from the spec: the per-memory-space record of section 3, "an array of 33 counters
indexed by log2(block size)", all zero. -/
def specZeroCounters : List Int := List.replicate (MAX_MEM_REQUIREMENTS_LOG2_BLOCK_SIZE + 1) 0

/-- Modelled from the spec: rounding `x` up to a multiple of `alignment` (step 1 of
`calcTensorRequirements`). -/
def specRoundUp (x alignment : Nat) : Nat := (x + alignment - 1) / alignment * alignment

/-- Modelled from the spec: the alignment is a power of two, `2^k` for some `k` (which is then
at most `alignment`). -/
def specIsPowerOfTwo (alignment : Nat) : Bool :=
  (List.range (alignment + 1)).any (fun k => 2 ^ k == alignment)

/-- Modelled from the spec: the row-major byte strides of step 1 of `calcTensorRequirements`:
the innermost (last) dimension has the stride `innermost`, and every other dimension the
stride of the next one times the size of the next one. -/
def specStrides (innermost : Int) : List Int → List Int
  | [] => []
  | _ :: rest => (innermost * rest.prod) :: specStrides innermost rest

/-- Modelled from the spec: `calcTensorRequirements(shape, dtype, alignment)` of section 4.4,
the behaviour of `Tensor::CalcRequirements`, whose body is not among the sources.  `elemSize`
is the byte size of an element of `dtype`.  The innermost stride is `elemSize` rounded up to
`alignment`; the total byte size is the outermost size times its stride; it is classified into
the device-memory counters; `InvalidArgument` for a non-positive size or an alignment that is
not a power of two, `Overflow` from the classification. -/
def calcTensorRequirements (shape : TensorShape) (dtype elemSize alignment : Nat) :
    Result TensorRequirements_t :=
  let sizes := shape.shape.elems
  if sizes.any (fun d => decide (d ≤ 0)) then .error invalidArgument
  else if !specIsPowerOfTwo alignment then .error invalidArgument
  else
    let strides := specStrides (specRoundUp elemSize alignment) sizes
    let total := sizes.headD 0 * strides.headD 0
    match classify specZeroCounters total.toNat with
    | .error e => .error e
    | .ok (_, counters) =>
      .ok { dtype := dtype, layout := shape.layout, rank := shape.rank,
            shape := sizes, strides := strides, alignBytes := alignment,
            mem := { cudaMem := ⟨counters⟩, hostMem := ⟨specZeroCounters⟩,
                     hostPinnedMem := ⟨specZeroCounters⟩ } }

/-! ## Error strings (`status.hpp`, `status.cpp`) -/

/-- Source: the values of `enum Status`: `CUCV_SUCCESS = 0`, every further enumerator one more
than the one before. -/
def Status.toInt : Status → Int
  | .CUCV_SUCCESS => 0
  | .CUCV_ERROR_NOT_IMPLEMENTED => 1
  | .CUCV_ERROR_INVALID_ARGUMENT => 2
  | .CUCV_ERROR_INVALID_IMAGE_FORMAT => 3
  | .CUCV_ERROR_INVALID_OPERATION => 4
  | .CUCV_ERROR_DEVICE => 5
  | .CUCV_ERROR_NOT_READY => 6
  | .CUCV_ERROR_OUT_OF_MEMORY => 7
  | .CUCV_ERROR_INTERNAL => 8
  | .CUCV_ERROR_NOT_COMPATIBLE => 9
  | .CUCV_ERROR_OVERFLOW => 10
  | .CUCV_ERROR_UNDERFLOW => 11
  | .CUCV_ERROR_ASSERT_FAILED => 12

/-- The spelling of an enumerator, which is what `#ERR` expands to in the macro `CASE`. -/
def Status.name : Status → String
  | .CUCV_SUCCESS => "CUCV_SUCCESS"
  | .CUCV_ERROR_NOT_IMPLEMENTED => "CUCV_ERROR_NOT_IMPLEMENTED"
  | .CUCV_ERROR_INVALID_ARGUMENT => "CUCV_ERROR_INVALID_ARGUMENT"
  | .CUCV_ERROR_INVALID_IMAGE_FORMAT => "CUCV_ERROR_INVALID_IMAGE_FORMAT"
  | .CUCV_ERROR_INVALID_OPERATION => "CUCV_ERROR_INVALID_OPERATION"
  | .CUCV_ERROR_DEVICE => "CUCV_ERROR_DEVICE"
  | .CUCV_ERROR_NOT_READY => "CUCV_ERROR_NOT_READY"
  | .CUCV_ERROR_OUT_OF_MEMORY => "CUCV_ERROR_OUT_OF_MEMORY"
  | .CUCV_ERROR_INTERNAL => "CUCV_ERROR_INTERNAL"
  | .CUCV_ERROR_NOT_COMPATIBLE => "CUCV_ERROR_NOT_COMPATIBLE"
  | .CUCV_ERROR_OVERFLOW => "CUCV_ERROR_OVERFLOW"
  | .CUCV_ERROR_UNDERFLOW => "CUCV_ERROR_UNDERFLOW"
  | .CUCV_ERROR_ASSERT_FAILED => "CUCV_ERROR_ASSERT_FAILED"

/-- Source: `const std::unordered_map<int, std::string> kErrorStr`, entry by entry. -/
def kErrorStr : List (Int × String) :=
  [(Status.CUCV_SUCCESS.toInt, "操作成功."),
   (Status.CUCV_ERROR_NOT_IMPLEMENTED.toInt, "操作没有实现."),
   (Status.CUCV_ERROR_INVALID_ARGUMENT.toInt, "无效的参数, 错误的范围或者不接受的值."),
   (Status.CUCV_ERROR_INVALID_IMAGE_FORMAT.toInt, "不接受的图像类型."),
   (Status.CUCV_ERROR_INVALID_OPERATION.toInt, "在当前情况下, 操作是无效的."),
   (Status.CUCV_ERROR_DEVICE.toInt, "设备后端错误."),
   (Status.CUCV_ERROR_NOT_READY.toInt, "操作尚未完成, 稍后再试."),
   (Status.CUCV_ERROR_OUT_OF_MEMORY.toInt, "没有足够的可用内存来分配对象."),
   (Status.CUCV_ERROR_INTERNAL.toInt, "内部错误, 坏的状态."),
   (Status.CUCV_ERROR_NOT_COMPATIBLE.toInt, "实现的版本不兼容."),
   (Status.CUCV_ERROR_OVERFLOW.toInt, "结果大于可接受的最大值."),
   (Status.CUCV_ERROR_UNDERFLOW.toInt, "结果小于可接受的最小值."),
   (Status.CUCV_ERROR_ASSERT_FAILED.toInt, "断言失败.")]

/-- The member `kErrorStr.at(key)`: the mapped string; `none` stands for the
`std::out_of_range` it throws when the key is absent. -/
def kErrorStrAt (key : Int) : Option String :=
  (kErrorStr.find? (fun entry => entry.1 == key)).map Prod.snd

/-- The macro `CASE(ERR)` of `getErrorStr`, the value returned under the label `case ERR:`:
`std::string(#ERR) + ": " + kErrorStr.at(ERR)`. -/
def getErrorStr.CASE (err : Status) : Option String :=
  (kErrorStrAt err.toInt).map (fun descr => err.name ++ ": " ++ descr)

/-- Source: `std::string getErrorStr(int status)`: the `switch` with its twelve `CASE` lines, in
order, and the `return` after it; `none` stands for an exception out of `kErrorStr.at`. -/
def getErrorStr (status : Int) : Option String :=
  if status = Status.CUCV_SUCCESS.toInt then getErrorStr.CASE .CUCV_SUCCESS
  else if status = Status.CUCV_ERROR_NOT_IMPLEMENTED.toInt then
    getErrorStr.CASE .CUCV_ERROR_NOT_IMPLEMENTED
  else if status = Status.CUCV_ERROR_INVALID_ARGUMENT.toInt then
    getErrorStr.CASE .CUCV_ERROR_INVALID_ARGUMENT
  else if status = Status.CUCV_ERROR_INVALID_IMAGE_FORMAT.toInt then
    getErrorStr.CASE .CUCV_ERROR_INVALID_IMAGE_FORMAT
  else if status = Status.CUCV_ERROR_INVALID_OPERATION.toInt then
    getErrorStr.CASE .CUCV_ERROR_INVALID_OPERATION
  else if status = Status.CUCV_ERROR_DEVICE.toInt then getErrorStr.CASE .CUCV_ERROR_DEVICE
  else if status = Status.CUCV_ERROR_NOT_READY.toInt then getErrorStr.CASE .CUCV_ERROR_NOT_READY
  else if status = Status.CUCV_ERROR_OUT_OF_MEMORY.toInt then
    getErrorStr.CASE .CUCV_ERROR_OUT_OF_MEMORY
  else if status = Status.CUCV_ERROR_INTERNAL.toInt then getErrorStr.CASE .CUCV_ERROR_INTERNAL
  else if status = Status.CUCV_ERROR_NOT_COMPATIBLE.toInt then
    getErrorStr.CASE .CUCV_ERROR_NOT_COMPATIBLE
  else if status = Status.CUCV_ERROR_OVERFLOW.toInt then getErrorStr.CASE .CUCV_ERROR_OVERFLOW
  else if status = Status.CUCV_ERROR_UNDERFLOW.toInt then getErrorStr.CASE .CUCV_ERROR_UNDERFLOW
  else some (toString status ++ ": 未定义错误.")

/-! ## Assignment of `detail::Optional<T>` (`detail/optional.h`) -/

/-- Source: `Optional &operator=(const Optional &that)`: the object after the assignment.  The
copy assignment and the copy construction of `T` both leave the value of `that` in the
storage; the flag is written where the source writes it. -/
def Optional.assign {α : Type} (self that : Optional α) : Optional α :=
  if that.has_value_ then
    if self.has_value_ then { self with storage_ := that.storage_ }
    else { self with storage_ := that.storage_ }
  else
    if self.has_value_ then { self with has_value_ := false }
    else self

/-- Source: `Optional &operator=(Optional &&that)`: the object after the assignment; the same
statements with `std::move(that.value())`, which for a value type leaves the same value in the
storage. -/
def Optional.assignMove {α : Type} (self that : Optional α) : Optional α :=
  if that.has_value_ then
    if self.has_value_ then { self with storage_ := that.storage_ }
    else { self with storage_ := that.storage_ }
  else
    if self.has_value_ then { self with has_value_ := false }
    else self

/-! ## Iterators of `Shape` (`shape.hpp`) -/

/-- Source: `Shape::begin()`: `data_.begin()`.  An iterator into `data_` is held as its distance
from `data_.begin()`. -/
def Shape.begin (_ : Shape) : Int := 0

/-- Source: `Shape::end()`: `data_.begin() + size_`. -/
def Shape.end_ (s : Shape) : Int := 0 + s.size_

/-- Source: `Shape::cbegin()`: `data_.cbegin()`. -/
def Shape.cbegin (_ : Shape) : Int := 0

/-- Source: `Shape::cend()`: `data_.cend() + size_`, where `data_.cend()` is `N` past
`data_.cbegin()`. -/
def Shape.cend (s : Shape) : Int := Shape.MAX_RANK + s.size_

/-! ## Indices touched by `TensorShapePermute` -/

/-- The source shape `{2, 3, 4, 5}` with layout `NCHW`. -/
def shapeNCHW2345 : TensorShape :=
  ⟨⟨[2, 3, 4, 5, 0, 0, 0, 0, 0, 0, 0, 0, 0, 0, 0], 4⟩, layoutNCHW⟩

/-- The source shape `{4, 5}` with layout `HW`. -/
def shapeHW45 : TensorShape :=
  ⟨⟨[4, 5, 0, 0, 0, 0, 0, 0, 0, 0, 0, 0, 0, 0, 0], 2⟩, layoutHW⟩

/-- A record of rank 2 with sizes `{4, 5}` and layout `HW`. -/
def recordHW45 : TensorData_t :=
  { dtype := 0, layout := layoutHW, rank := 2,
    shape := [4, 5, 0, 0, 0, 0, 0, 0, 0, 0, 0, 0, 0, 0, 0],
    buffer_type := .TENSOR_BUFFER_STRIDED_CUDA,
    buffer := ⟨⟨[20, 4, 0, 0, 0, 0, 0, 0, 0, 0, 0, 0, 0, 0, 0], 0⟩⟩ }

/-- A change of a record: rank 4, sizes `{2, 3, 4, 5}`, layout `NCHW`. -/
def setNCHW2345 (d : TensorData_t) : TensorData_t :=
  { d with layout := layoutNCHW, rank := 4,
           shape := [2, 3, 4, 5, 0, 0, 0, 0, 0, 0, 0, 0, 0, 0, 0] }

/-- A layout record holding the byte `'X'` (88) in every cell and the rank 7: a stand-in for
the contents of uninitialised storage. -/
def layoutOfX : TensorLayout_t := { data := List.replicate (TENSOR_MAX_RANK + 1) 88, rank := 7 }

/-- Memory holding the C string `"NCHW"` at address 0. -/
def memNCHW : Mem := memOf [TLABEL_BATCH, TLABEL_CHANNEL, TLABEL_HEIGHT, TLABEL_WIDTH]

/-- The layout `NN`, with a repeated label. -/
def layoutNN : TensorLayout_t := TENSOR_LAYOUT_MAKE [TLABEL_BATCH, TLABEL_BATCH]

/-- The shape `{1, 3, 224, 224}` with layout `NCHW`. -/
def shapeNCHW_1_3_224_224 : TensorShape :=
  ⟨⟨[1, 3, 224, 224, 0, 0, 0, 0, 0, 0, 0, 0, 0, 0, 0], 4⟩, layoutNCHW⟩

/-- The shape `{65536, 65536, 2}` without layout. -/
def shapeBig : TensorShape :=
  ⟨⟨[65536, 65536, 2, 0, 0, 0, 0, 0, 0, 0, 0, 0, 0, 0, 0], 3⟩, TENSOR_NONE⟩

/-- A strided buffer with the strides `{20, 4}` and the base address 4096. -/
def bufferHW : TensorBufferStrided_t :=
  ⟨[20, 4, 0, 0, 0, 0, 0, 0, 0, 0, 0, 0, 0, 0, 0], 4096⟩

/-- A record with the rank `-1`, the empty layout and the cells of `recordHW45`. -/
def recordRankNeg : TensorData_t := { recordHW45 with rank := -1, layout := TENSOR_NONE }

/-! # Theorems -/

/-! ## Arrays: `memcpy`, `memchr`, `memcmp` -/

theorem memcpy_length {α : Type} (dst : List α) (src : Nat → α) (n : Nat) (h : n ≤ dst.length) :
    (memcpy dst src n).length = dst.length := by
  simp [memcpy]; omega

theorem memcpy_getElem?_lt {α : Type} (dst : List α) (src : Nat → α) (n i : Nat) (h : i < n) :
    (memcpy dst src n)[i]? = some (src i) := by
  unfold memcpy
  rw [List.getElem?_append_left (by simpa using h)]
  simp [List.getElem?_range h]

theorem memcpy_getElem?_ge {α : Type} (dst : List α) (src : Nat → α) (n i : Nat) (h : n ≤ i) :
    (memcpy dst src n)[i]? = dst[i]? := by
  unfold memcpy
  rw [List.getElem?_append_right (by simpa using h)]
  simp only [List.length_map, List.length_range, List.getElem?_drop]
  congr 1; omega

theorem memcpy_take {α : Type} (dst : List α) (src : Nat → α) (n : Nat) :
    (memcpy dst src n).take n = (List.range n).map src := by
  unfold memcpy
  rw [List.take_left' (by simp)]

theorem map_cells_range (arr : List Nat) (off n : Nat) (h : off + n ≤ arr.length) :
    (List.range n).map (cells arr off) = (arr.drop off).take n := by
  apply List.ext_getElem?
  intro i
  by_cases hi : i < n
  · have h1 : off + i < arr.length := by omega
    simp [List.getElem?_range hi, cells, List.getElem?_take_of_lt hi, List.getElem?_drop,
      List.getElem?_eq_getElem h1]
  · have h1 : ((List.range n).map (cells arr off)).length ≤ i := by simp; omega
    have h2 : ((arr.drop off).take n).length ≤ i := by simp; omega
    rw [List.getElem?_eq_none h1, List.getElem?_eq_none h2]

theorem toSizeT_of_nonneg (x : Int) (h0 : 0 ≤ x) (h1 : x < 2 ^ 64) : toSizeT x = x.toNat := by
  unfold toSizeT
  rw [Int.emod_eq_of_lt h0 h1]

theorem toSizeT_natCast (n : Nat) (h : n < 2 ^ 64) : toSizeT (n : Int) = n := by
  rw [toSizeT_of_nonneg _ (by omega) (by exact_mod_cast h)]
  simp

theorem wrapInt32_of_range (x : Int) (h0 : INT_MIN ≤ x) (h1 : x ≤ INT_MAX) : wrapInt32 x = x := by
  unfold wrapInt32
  unfold INT_MIN at h0
  unfold INT_MAX at h1
  rw [Int.emod_eq_of_lt (by omega) (by omega)]
  omega

/-! ## `CreateLayout` -/

theorem CreateLayout.copyLoop_spec (mem : Mem) (p len : Nat) (hs : IsCStr mem p len) :
    ∀ (k i : Nat) (data : List Nat), i ≤ len →
      (CreateLayout.copyLoop mem p k i data).1 = min len (i + k) ∧
      (CreateLayout.copyLoop mem p k i data).2.length = data.length ∧
      ∀ j, (CreateLayout.copyLoop mem p k i data).2[j]? =
        if i ≤ j ∧ j < min len (i + k) ∧ j < data.length then some (mem (p + j)) else data[j]? := by
  intro k
  induction k with
  | zero =>
    intro i data hi
    refine ⟨by simp [CreateLayout.copyLoop]; omega, by simp [CreateLayout.copyLoop], ?_⟩
    intro j
    have : ¬ (i ≤ j ∧ j < min len (i + 0) ∧ j < data.length) := by omega
    rw [if_neg this]
    simp [CreateLayout.copyLoop]
  | succ k ih =>
    intro i data hi
    by_cases hz : mem (p + i) = 0
    · have hil : i = len := by
        rcases Nat.lt_or_ge i len with h | h
        · exact absurd hz (hs.1 i h)
        · omega
      refine ⟨by simp [CreateLayout.copyLoop, hz]; omega, by simp [CreateLayout.copyLoop, hz], ?_⟩
      intro j
      have : ¬ (i ≤ j ∧ j < min len (i + (k + 1)) ∧ j < data.length) := by omega
      rw [if_neg this]
      simp [CreateLayout.copyLoop, hz]
    · have hil : i < len := by
        rcases Nat.lt_or_ge i len with h | h
        · exact h
        · have : i = len := by omega
          exact absurd (this ▸ hs.2) hz
      obtain ⟨h1, h2, h3⟩ := ih (i + 1) (data.set i (mem (p + i))) hil
      simp only [CreateLayout.copyLoop, ne_eq, hz, not_false_eq_true, if_true]
      refine ⟨by rw [h1]; congr 1; omega, by rw [h2]; simp, ?_⟩
      intro j
      rw [h3 j, List.length_set, List.getElem?_set]
      by_cases hj : i = j
      · subst hj
        have c1 : ¬ (i + 1 ≤ i ∧ i < min len (i + 1 + k) ∧ i < data.length) := by omega
        rw [if_neg c1, if_pos rfl]
        by_cases hd : i < data.length
        · have c2 : i ≤ i ∧ i < min len (i + (k + 1)) ∧ i < data.length := by omega
          rw [if_pos c2, if_pos hd]
        · have c2 : ¬ (i ≤ i ∧ i < min len (i + (k + 1)) ∧ i < data.length) := by omega
          rw [if_neg c2, if_neg hd, List.getElem?_eq_none (by omega)]
      · rw [if_neg hj]
        by_cases c : i + 1 ≤ j ∧ j < min len (i + 1 + k) ∧ j < data.length
        · have c2 : i ≤ j ∧ j < min len (i + (k + 1)) ∧ j < data.length := by omega
          rw [if_pos c, if_pos c2]
        · have c2 : ¬ (i ≤ j ∧ j < min len (i + (k + 1)) ∧ j < data.length) := by omega
          rw [if_neg c, if_neg c2]

/-- C4.  For a C string of `len` labels at a non-null `descr`, `CreateLayout(descr)` raises
`InvalidArgument` exactly when `len` exceeds `TENSOR_MAX_RANK`; otherwise it returns a layout
whose rank is `len`. -/
theorem CreateLayout_invalidArgument_iff (mem : Mem) (p len : Nat) (out : TensorLayout_t)
    (hs : IsCStr mem p len) :
    (CreateLayout mem (some p) out = .error invalidArgument ↔ TENSOR_MAX_RANK < len) ∧
    (¬ TENSOR_MAX_RANK < len →
      ∃ l, CreateLayout mem (some p) out = .ok l ∧ TensorLayoutGetNumDim l = len) := by
  obtain ⟨h1, -, -⟩ := CreateLayout.copyLoop_spec mem p len hs TENSOR_MAX_RANK 0 out.data (by omega)
  have hfst : (CreateLayout.copyLoop mem p TENSOR_MAX_RANK 0 out.data).1 = min len TENSOR_MAX_RANK := by
    rw [h1]; simp
  by_cases hlen : TENSOR_MAX_RANK < len
  · have hm : min len TENSOR_MAX_RANK = TENSOR_MAX_RANK := by omega
    have hne : mem (p + TENSOR_MAX_RANK) ≠ 0 := hs.1 _ hlen
    have herr : CreateLayout mem (some p) out = .error invalidArgument := by
      simp only [CreateLayout, hfst, hm, ne_eq, hne, not_false_eq_true, if_true]
    exact ⟨⟨fun _ => hlen, fun _ => herr⟩, fun h => absurd hlen h⟩
  · have hm : min len TENSOR_MAX_RANK = len := by omega
    have hz : mem (p + len) = 0 := hs.2
    have hlen15 : len ≤ 15 := by unfold TENSOR_MAX_RANK at hlen; omega
    have hsz : toSizeT (len : Int) < TENSOR_MAX_RANK + 1 := by
      rw [toSizeT_natCast len (by omega)]; unfold TENSOR_MAX_RANK; omega
    have hok : CreateLayout mem (some p) out =
        .ok { data := (CreateLayout.copyLoop mem p TENSOR_MAX_RANK 0 out.data).2.set len 0,
              rank := len } := by
      simp only [CreateLayout, hfst, hm, ne_eq, hz, not_true_eq_false, if_false]
      rw [if_pos ⟨by omega, hsz⟩]
      simp
    refine ⟨⟨fun h => ?_, fun h => absurd h hlen⟩, fun _ => ⟨_, hok, rfl⟩⟩
    rw [hok] at h
    cases h

theorem CreateLayout_invalidArgument_iff_witness :
    IsCStr (memOf [78, 67, 72, 87]) 0 4 ∧
    (CreateLayout (memOf [78, 67, 72, 87]) (some 0) TENSOR_NONE = .error invalidArgument
      ↔ TENSOR_MAX_RANK < 4) ∧
    (¬ TENSOR_MAX_RANK < 4 →
      ∃ l, CreateLayout (memOf [78, 67, 72, 87]) (some 0) TENSOR_NONE = .ok l ∧
        TensorLayoutGetNumDim l = (4 : Nat)) :=
  ⟨by decide, CreateLayout_invalidArgument_iff (memOf [78, 67, 72, 87]) 0 4 TENSOR_NONE (by decide)⟩

/-- C5.  Round trip: for a C string of `len ≤ 15` labels, the layout built by `CreateLayout`
has rank `len`, and `TensorLayoutGetLabel` at every index `i < len` gives back label `i` of
the string. -/
theorem CreateLayout_roundtrip (mem : Mem) (p len : Nat) (out : TensorLayout_t)
    (hs : IsCStr mem p len) (hlen : len ≤ TENSOR_MAX_RANK)
    (hout : out.data.length = TENSOR_MAX_RANK + 1) :
    ∃ l, CreateLayout mem (some p) out = .ok l ∧ TensorLayoutGetNumDim l = len ∧
      ∀ i : Nat, i < len → TensorLayoutGetLabel l i = mem (p + i) := by
  obtain ⟨h1, h2, h3⟩ :=
    CreateLayout.copyLoop_spec mem p len hs TENSOR_MAX_RANK 0 out.data (by omega)
  have hfst : (CreateLayout.copyLoop mem p TENSOR_MAX_RANK 0 out.data).1 = len := by
    rw [h1]; omega
  have hz : mem (p + len) = 0 := hs.2
  have hlen15 : len ≤ 15 := hlen
  have hsz : toSizeT (len : Int) < TENSOR_MAX_RANK + 1 := by
    rw [toSizeT_natCast len (by omega)]; unfold TENSOR_MAX_RANK; omega
  have hok : CreateLayout mem (some p) out =
      .ok { data := (CreateLayout.copyLoop mem p TENSOR_MAX_RANK 0 out.data).2.set len 0,
            rank := len } := by
    simp only [CreateLayout, hfst, ne_eq, hz, not_true_eq_false, if_false]
    rw [if_pos ⟨by omega, hsz⟩]
    simp
  refine ⟨_, hok, rfl, ?_⟩
  intro i hi
  have hi0 : ¬ ((i : Int) < 0) := by omega
  have hi1 : (0 : Int) ≤ i ∧ (i : Int) < len := by omega
  simp only [TensorLayoutGetLabel, if_neg hi0, if_pos hi1, Int.toNat_ofNat,
    List.getD_eq_getElem?_getD]
  rw [List.getElem?_set_ne (by omega), h3 i, if_pos ⟨by omega, by omega, by rw [hout]; omega⟩]
  rfl

theorem CreateLayout_roundtrip_witness :
    IsCStr (memOf [78, 67, 72, 87]) 0 4 ∧
    ∃ l, CreateLayout (memOf [78, 67, 72, 87]) (some 0) TENSOR_NONE = .ok l ∧
      TensorLayoutGetNumDim l = (4 : Nat) ∧
      ∀ i : Nat, i < 4 → TensorLayoutGetLabel l i = memOf [78, 67, 72, 87] (0 + i) :=
  ⟨by decide,
   CreateLayout_roundtrip (memOf [78, 67, 72, 87]) 0 4 TENSOR_NONE (by decide) (by decide) (by decide)⟩

/-- C6.  `CreateLayout(begin, end)` raises `InvalidArgument` exactly when `begin` is null,
`end` is null, `end - begin < 0` or `end - begin > 15`; otherwise it returns a layout of rank
`end - begin` whose labels are the bytes of the range, in order. -/
theorem CreateLayoutRange_spec (mem : Mem) (pbegin pend : CharPtr) (out : TensorLayout_t) :
    (CreateLayoutRange mem pbegin pend out = .error invalidArgument ↔
      pbegin = none ∨ pend = none ∨
        ∃ b e, pbegin = some b ∧ pend = some e ∧ ((e : Int) - b < 0 ∨ (e : Int) - b > 15)) ∧
    (∀ b e, pbegin = some b → pend = some e → ¬ ((e : Int) - b < 0) → ¬ ((e : Int) - b > 15) →
      ∃ l, CreateLayoutRange mem pbegin pend out = .ok l ∧
        TensorLayoutGetNumDim l = (e : Int) - b ∧
        l.labels = (List.range (e - b)).map (fun i => mem (b + i))) := by
  cases pbegin with
  | none => exact ⟨⟨fun _ => Or.inl rfl, fun _ => by cases pend <;> rfl⟩, fun b e h => by cases h⟩
  | some b =>
    cases pend with
    | none => exact ⟨⟨fun _ => Or.inr (Or.inl rfl), fun _ => rfl⟩, fun b e _ h => by cases h⟩
    | some e =>
      by_cases hneg : (e : Int) - b < 0
      · have herr : CreateLayoutRange mem (some b) (some e) out = .error invalidArgument := by
          simp only [CreateLayoutRange, if_pos hneg]
        refine ⟨⟨fun _ => Or.inr (Or.inr ⟨b, e, rfl, rfl, Or.inl hneg⟩), fun _ => herr⟩, ?_⟩
        intro b1 e1 hb he h1 _
        cases hb; cases he
        exact absurd hneg h1
      · by_cases hbig : (e : Int) - b > 15
        · have herr : CreateLayoutRange mem (some b) (some e) out = .error invalidArgument := by
            simp only [CreateLayoutRange, if_neg hneg, TENSOR_MAX_RANK, Nat.cast_ofNat, if_pos hbig]
          refine ⟨⟨fun _ => Or.inr (Or.inr ⟨b, e, rfl, rfl, Or.inr hbig⟩), fun _ => herr⟩, ?_⟩
          intro b1 e1 hb he _ h2
          cases hb; cases he
          exact absurd hbig h2
        · have hsz : toSizeT ((e : Int) - b) = e - b := by
            rw [toSizeT_of_nonneg _ (by omega) (by omega)]; omega
          have hok : CreateLayoutRange mem (some b) (some e) out =
              .ok { data := memcpy out.data (fun i => mem (b + i)) (e - b), rank := (e : Int) - b } := by
            simp only [CreateLayoutRange, if_neg hneg, TENSOR_MAX_RANK, Nat.cast_ofNat, if_neg hbig,
              hsz]
          refine ⟨⟨fun h => ?_, fun h => ?_⟩, ?_⟩
          · rw [hok] at h; cases h
          · rcases h with h | h | ⟨b1, e1, hb, he, h⟩
            · cases h
            · cases h
            · cases hb; cases he
              rcases h with h | h
              · exact absurd h hneg
              · exact absurd h hbig
          · intro b1 e1 hb he _ _
            cases hb; cases he
            refine ⟨_, hok, rfl, ?_⟩
            have ht : ((e : Int) - b).toNat = e - b := by omega
            simp only [TensorLayout_t.labels, ht, memcpy_take]

theorem CreateLayoutRange_spec_witness :
    ∃ l, CreateLayoutRange (memOf [78, 67, 72, 87]) (some 1) (some 3) TENSOR_NONE = .ok l ∧
      TensorLayoutGetNumDim l = ((3 : Nat) : Int) - (1 : Nat) ∧
      l.labels = (List.range (3 - 1)).map (fun i => memOf [78, 67, 72, 87] (1 + i)) :=
  (CreateLayoutRange_spec (memOf [78, 67, 72, 87]) (some 1) (some 3) TENSOR_NONE).2 1 3 rfl rfl
    (by decide) (by decide)

/-! ## `CreateFirst`, `CreateLast`, `CreateSubRange` -/

theorem CreateFirst_of_nonneg (fuel : Nat) (out L : TensorLayout_t) (n : Int) (hn : 0 ≤ n) :
    CreateFirst (fuel + 1) out L n =
      some { data := memcpy out.data (cells L.data 0) (toSizeT (min n L.rank)),
             rank := min n L.rank } := by
  rw [CreateFirst]; simp only [ge_iff_le, hn, if_true]

theorem CreateLast_of_nonneg (fuel : Nat) (out L : TensorLayout_t) (n : Int) (hn : 0 ≤ n) :
    CreateLast (fuel + 1) out L n =
      some { data := memcpy out.data (cells L.data (L.rank - min n L.rank).toNat)
                       (toSizeT (min n L.rank)),
             rank := min n L.rank } := by
  rw [CreateLast]; simp only [ge_iff_le, hn, if_true]

theorem CreateFirst_of_neg (fuel : Nat) (out L : TensorLayout_t) (n : Int) (hn : n < 0) :
    CreateFirst (fuel + 1) out L n = CreateLast fuel out L (wrapInt32 (-n)) := by
  rw [CreateFirst]; simp only [ge_iff_le, not_le.mpr hn, if_false]

theorem CreateLast_of_neg (fuel : Nat) (out L : TensorLayout_t) (n : Int) (hn : n < 0) :
    CreateLast (fuel + 1) out L n = CreateFirst fuel out L (wrapInt32 (-n)) := by
  rw [CreateLast]; simp only [ge_iff_le, not_le.mpr hn, if_false]

/-- The labels of a slice built by `memcpy` from cell `off` of a valid layout. -/
theorem labels_of_memcpy (out L : TensorLayout_t) (off m : Nat) (hL : L.Valid)
    (hm : off + m ≤ L.rank.toNat) :
    TensorLayout_t.labels { data := memcpy out.data (cells L.data off) m, rank := (m : Int) }
      = (L.labels.drop off).take m := by
  obtain ⟨hlen, h0, h1⟩ := hL
  have hr : L.rank.toNat ≤ 15 := by unfold TENSOR_MAX_RANK at h1; omega
  have hlen16 : L.data.length = 16 := hlen
  simp only [TensorLayout_t.labels, Int.toNat_ofNat, memcpy_take]
  rw [map_cells_range _ _ _ (by omega), List.take_drop, List.take_drop, List.take_take]
  congr 2
  omega

/-- C7.  For a valid layout `L` of rank `r` and `n ≥ 0`, `CreateFirst(L, n)` has rank
`min(n, r)` and the first `min(n, r)` labels of `L`, and `CreateLast(L, n)` has rank
`min(n, r)` and the last `min(n, r)` labels of `L` in order; for `INT_MIN < n < 0`,
`CreateFirst(L, n)` returns what `CreateLast(L, -n)` returns and `CreateLast(L, n)` what
`CreateFirst(L, -n)` returns.  (Call depth 2 suffices for every call.) -/
theorem CreateFirst_CreateLast_spec (fuel : Nat) (out L : TensorLayout_t) (n : Int)
    (hfuel : 2 ≤ fuel) (hL : L.Valid) :
    (0 ≤ n →
      ∃ first last, CreateFirst fuel out L n = some first ∧ CreateLast fuel out L n = some last ∧
        first.rank = min n L.rank ∧ first.labels = L.labels.take (min n L.rank).toNat ∧
        last.rank = min n L.rank ∧
        last.labels = L.labels.drop (L.rank - min n L.rank).toNat) ∧
    (n < 0 → INT_MIN < n →
      (CreateFirst fuel out L n).isSome ∧ CreateFirst fuel out L n = CreateLast fuel out L (-n) ∧
      (CreateLast fuel out L n).isSome ∧ CreateLast fuel out L n = CreateFirst fuel out L (-n)) := by
  obtain ⟨k, rfl⟩ := Nat.exists_eq_add_of_le hfuel
  have hfk : 2 + k = (k + 1) + 1 := by omega
  rw [hfk]
  obtain ⟨hlen, h0, h1⟩ := id hL
  have h15 : L.rank ≤ 15 := h1
  constructor
  · intro hn
    have hm0 : 0 ≤ min n L.rank := by omega
    have hsz : toSizeT (min n L.rank) = (min n L.rank).toNat :=
      toSizeT_of_nonneg _ hm0 (by omega)
    have hcast : min n L.rank = (((min n L.rank).toNat : Nat) : Int) := by omega
    refine ⟨_, _, CreateFirst_of_nonneg _ out L n hn, CreateLast_of_nonneg _ out L n hn,
      rfl, ?_, rfl, ?_⟩
    · rw [hsz]
      have := labels_of_memcpy out L 0 (min n L.rank).toNat hL (by omega)
      rw [← hcast] at this
      rw [this]; simp
    · rw [hsz]
      have := labels_of_memcpy out L (L.rank - min n L.rank).toNat (min n L.rank).toNat hL (by omega)
      rw [← hcast] at this
      rw [this]
      apply List.take_of_length_le
      simp [TensorLayout_t.labels]
      omega
  · intro hn hmin
    have hw : wrapInt32 (-n) = -n := by
      unfold INT_MIN at hmin
      apply wrapInt32_of_range
      · unfold INT_MIN; omega
      · unfold INT_MAX; omega
    have hpos : 0 ≤ -n := by omega
    rw [CreateFirst_of_neg _ out L n hn, CreateLast_of_neg _ out L n hn, hw,
      CreateLast_of_nonneg k out L (-n) hpos, CreateFirst_of_nonneg k out L (-n) hpos,
      CreateLast_of_nonneg (k + 1) out L (-n) hpos, CreateFirst_of_nonneg (k + 1) out L (-n) hpos]
    simp

theorem CreateFirst_CreateLast_spec_witness :
    (2 ≤ 2 ∧ layoutNCHW.Valid) ∧
    ((0 : Int) ≤ 3 →
      ∃ first last, CreateFirst 2 TENSOR_NONE layoutNCHW 3 = some first ∧
        CreateLast 2 TENSOR_NONE layoutNCHW 3 = some last ∧
        first.rank = min 3 layoutNCHW.rank ∧
        first.labels = layoutNCHW.labels.take (min 3 layoutNCHW.rank).toNat ∧
        last.rank = min 3 layoutNCHW.rank ∧
        last.labels = layoutNCHW.labels.drop (layoutNCHW.rank - min 3 layoutNCHW.rank).toNat) :=
  ⟨by decide,
   (CreateFirst_CreateLast_spec 2 TENSOR_NONE layoutNCHW 3 (by decide) (by decide)).1⟩

/-- C8.  For a valid layout `L` of rank `r` and integers `begin`, `end`, with
`b = max(0, r + begin)` if `begin < 0` else `min(begin, r)` and `e` likewise from `end`:
`CreateSubRange(L, begin, end)` has rank `max(0, e - b)` and labels `L[b .. e)`; when `e ≤ b`
it is the empty layout.  The function is total: no error is raised. -/
theorem CreateSubRange_spec (out L : TensorLayout_t) (begin_idx end_idx : Int) (hL : L.Valid) :
    let b := if begin_idx < 0 then max 0 (L.rank + begin_idx) else min begin_idx L.rank
    let e := if end_idx < 0 then max 0 (L.rank + end_idx) else min end_idx L.rank
    TensorLayoutGetNumDim (CreateSubRange out L begin_idx end_idx) = max 0 (e - b) ∧
    (CreateSubRange out L begin_idx end_idx).labels = (L.labels.drop b.toNat).take (e - b).toNat ∧
    (e ≤ b → TensorLayoutGetNumDim (CreateSubRange out L begin_idx end_idx) = 0 ∧
      (CreateSubRange out L begin_idx end_idx).labels = []) := by
  intro b e
  obtain ⟨hlen, h0, h1⟩ := id hL
  have h15 : L.rank ≤ 15 := h1
  have hb : CreateSubRange.clamp L begin_idx = b := rfl
  have he : CreateSubRange.clamp L end_idx = e := rfl
  have hb0 : 0 ≤ b ∧ b ≤ L.rank := by
    show 0 ≤ (if begin_idx < 0 then max 0 (L.rank + begin_idx) else min begin_idx L.rank) ∧
      (if begin_idx < 0 then max 0 (L.rank + begin_idx) else min begin_idx L.rank) ≤ L.rank
    split <;> omega
  have he0 : 0 ≤ e ∧ e ≤ L.rank := by
    show 0 ≤ (if end_idx < 0 then max 0 (L.rank + end_idx) else min end_idx L.rank) ∧
      (if end_idx < 0 then max 0 (L.rank + end_idx) else min end_idx L.rank) ≤ L.rank
    split <;> omega
  by_cases hpos : e - b > 0
  · have hsz : toSizeT (e - b) = (e - b).toNat := toSizeT_of_nonneg _ (by omega) (by omega)
    have hcast : e - b = (((e - b).toNat : Nat) : Int) := by omega
    have hval : CreateSubRange out L begin_idx end_idx =
        { data := memcpy out.data (cells L.data b.toNat) (e - b).toNat, rank := e - b } := by
      simp only [CreateSubRange, hb, he, if_pos hpos, hsz]
    have hlab := labels_of_memcpy out L b.toNat (e - b).toNat hL (by omega)
    rw [← hcast] at hlab
    rw [hval]
    refine ⟨?_, hlab, fun hle => absurd hle (by omega)⟩
    show e - b = max 0 (e - b)
    omega
  · have hval : CreateSubRange out L begin_idx end_idx = { data := out.data, rank := 0 } := by
      simp only [CreateSubRange, hb, he, if_neg hpos]
    have ht : (e - b).toNat = 0 := by omega
    rw [hval]
    refine ⟨?_, ?_, fun _ => ⟨rfl, ?_⟩⟩
    · show (0 : Int) = max 0 (e - b)
      omega
    · simp [TensorLayout_t.labels, ht]
    · simp [TensorLayout_t.labels]

theorem CreateSubRange_spec_witness :
    layoutNCHW.Valid ∧
    TensorLayoutGetNumDim (CreateSubRange TENSOR_NONE layoutNCHW (-3) 3) = 2 ∧
    (CreateSubRange TENSOR_NONE layoutNCHW (-3) 3).labels = [TLABEL_CHANNEL, TLABEL_HEIGHT] ∧
    TensorLayoutGetNumDim (CreateSubRange TENSOR_NONE layoutNCHW 3 1) = 0 :=
  ⟨by decide,
   (CreateSubRange_spec TENSOR_NONE layoutNCHW (-3) 3 (by decide)).1,
   (CreateSubRange_spec TENSOR_NONE layoutNCHW (-3) 3 (by decide)).2.1,
   ((CreateSubRange_spec TENSOR_NONE layoutNCHW 3 1 (by decide)).2.2 (by decide)).1⟩

/-! ## Label search -/

theorem memchr_eq_none_iff (read : Int → Nat) (c : Nat) :
    ∀ (n : Nat) (start : Int),
      memchr read start c n = none ↔ ∀ k : Nat, k < n → read (start + k) ≠ c := by
  intro n
  induction n with
  | zero => intro start; simp [memchr]
  | succ n ih =>
    intro start
    by_cases h : read start = c
    · simp only [memchr, h, if_true]
      constructor
      · intro hc; cases hc
      · intro hc
        exact absurd (by simpa using h) (hc 0 (by omega))
    · simp only [memchr, h, if_false, ih]
      constructor
      · intro hc k hk
        cases k with
        | zero => simpa using h
        | succ k =>
          have := hc k (by omega)
          have e : start + 1 + (k : Int) = start + ((k + 1 : Nat) : Int) := by push_cast; ring
          rwa [e] at this
      · intro hc k hk
        have := hc (k + 1) (by omega)
        have e : start + 1 + (k : Int) = start + ((k + 1 : Nat) : Int) := by push_cast; ring
        rwa [e]

theorem memchr_eq_some (read : Int → Nat) (c : Nat) :
    ∀ (n : Nat) (start p : Int), memchr read start c n = some p →
      ∃ k : Nat, k < n ∧ p = start + k ∧ read p = c ∧ ∀ j : Nat, j < k → read (start + j) ≠ c := by
  intro n
  induction n with
  | zero => intro start p h; simp [memchr] at h
  | succ n ih =>
    intro start p h
    by_cases hc : read start = c
    · simp only [memchr, hc, if_true, Option.some.injEq] at h
      subst h
      exact ⟨0, by omega, by simp, hc, fun j hj => absurd hj (by omega)⟩
    · simp only [memchr, hc, if_false] at h
      obtain ⟨k, hk, hp, hr, hmin⟩ := ih (start + 1) p h
      refine ⟨k + 1, by omega, by rw [hp]; push_cast; ring, hr, ?_⟩
      intro j hj
      cases j with
      | zero => simpa using hc
      | succ j =>
        have := hmin j (by omega)
        have e : start + 1 + (j : Int) = start + ((j + 1 : Nat) : Int) := by push_cast; ring
        rwa [e] at this

/-- Source: `TensorLayoutFindDimIndex` when the start index lies within `[-rank, INT_MAX]`: with `st`
the start counted from the front, the result is `-1` exactly when no index `i` with
`st ≤ i < rank` carries the label, and otherwise it is the smallest such index.  The memory in
front of the array is not read. -/
theorem TensorLayoutFindDimIndex_of_start_ge (before : Nat → Nat) (L : TensorLayout_t) (c : Nat)
    (s : Int) (hL : L.Valid) (hs : -L.rank ≤ s) (hs1 : s ≤ INT_MAX) :
    let st := if s < 0 then L.rank + s else s
    (TensorLayoutFindDimIndex before L c s = -1 ↔
      ∀ i : Nat, st ≤ i → (i : Int) < L.rank → L.data.getD i 0 ≠ c) ∧
    (TensorLayoutFindDimIndex before L c s ≠ -1 →
      ∃ i : Nat, TensorLayoutFindDimIndex before L c s = i ∧ st ≤ i ∧ (i : Int) < L.rank ∧
        L.data.getD i 0 = c ∧ ∀ j : Nat, st ≤ j → j < i → L.data.getD j 0 ≠ c) := by
  intro st
  obtain ⟨hlen, h0, h1⟩ := id hL
  have h15 : L.rank ≤ 15 := h1
  have hst0 : 0 ≤ st := by
    show 0 ≤ (if s < 0 then L.rank + s else s)
    split <;> omega
  have hstI : st ≤ INT_MAX := by
    show (if s < 0 then L.rank + s else s) ≤ INT_MAX
    unfold INT_MAX at *
    split <;> omega
  have hread : ∀ k : Nat, L.readAround before (st + k) = L.data.getD (st.toNat + k) 0 := by
    intro k
    have hk : ¬ (st + (k : Int) < 0) := by omega
    have e : (st + (k : Int)).toNat = st.toNat + k := by omega
    simp only [TensorLayout_t.readAround, if_neg hk, e]
  have hw : wrapInt32 (L.rank - st) = L.rank - st := by
    apply wrapInt32_of_range
    · unfold INT_MIN; unfold INT_MAX at hstI; omega
    · unfold INT_MAX; omega
  have hdef : TensorLayoutFindDimIndex before L c s =
      if L.rank - st > 0 then
        (match memchr (L.readAround before) st c (toSizeT (L.rank - st)) with
          | some p => p
          | none => -1)
      else -1 := by
    simp only [TensorLayoutFindDimIndex, hw]
  by_cases hn : L.rank - st > 0
  · have hsz : toSizeT (L.rank - st) = (L.rank - st).toNat :=
      toSizeT_of_nonneg _ (by omega) (by omega)
    rw [hdef, if_pos hn, hsz]
    cases hm : memchr (L.readAround before) st c (L.rank - st).toNat with
    | none =>
      rw [memchr_eq_none_iff] at hm
      refine ⟨⟨fun _ i hi hir => ?_, fun _ => rfl⟩, fun h => absurd rfl h⟩
      have := hm (i - st.toNat) (by omega)
      rw [hread] at this
      have e : st.toNat + (i - st.toNat) = i := by omega
      rwa [e] at this
    | some p =>
      obtain ⟨k, hk, hp, hr, hmin⟩ := memchr_eq_some _ _ _ _ _ hm
      have hpi : p = ((st.toNat + k : Nat) : Int) := by rw [hp]; push_cast; omega
      rw [hp, hread] at hr
      have hne : p ≠ -1 := by omega
      refine ⟨⟨fun h => absurd h hne, fun h => ?_⟩, fun _ => ⟨st.toNat + k, hpi, ?_, ?_, hr, ?_⟩⟩
      · exact absurd hr (h (st.toNat + k) (by push_cast; omega) (by push_cast; omega))
      · push_cast; omega
      · push_cast; omega
      · intro j hj hjk
        have := hmin (j - st.toNat) (by omega)
        rw [hread] at this
        have e : st.toNat + (j - st.toNat) = j := by omega
        rwa [e] at this
  · rw [hdef, if_neg hn]
    refine ⟨⟨fun _ i hi hir => absurd hir (by omega), fun _ => rfl⟩, fun h => absurd rfl h⟩

theorem TensorLayoutFindDimIndex_of_start_ge_witness :
    (layoutNCHW.Valid ∧ -layoutNCHW.rank ≤ -3 ∧ (-3 : Int) ≤ INT_MAX) ∧
    (TensorLayoutFindDimIndex (fun _ => 0) layoutNCHW TLABEL_BATCH (-3) = -1 ↔
      ∀ i : Nat, (if (-3 : Int) < 0 then layoutNCHW.rank + (-3) else (-3)) ≤ i →
        (i : Int) < layoutNCHW.rank → layoutNCHW.data.getD i 0 ≠ TLABEL_BATCH) :=
  ⟨by decide,
   (TensorLayoutFindDimIndex_of_start_ge (fun _ => 0) layoutNCHW TLABEL_BATCH (-3)
      (by decide) (by decide) (by decide)).1⟩

/-- C9, start index below `-rank`.  `TensorLayoutFindDimIndex` with a start index below `-rank`: on the layout
`NCHW`, the label `'X'` (88), which is not a label of the layout, and the start `-10`, the
`memchr` begins six bytes in front of `layout.data`.  When the third byte in front of the array
holds 88 the call returns `-3`, which is neither `-1` nor an index of the layout. -/
theorem TensorLayoutFindDimIndex_start_below_rank :
    TensorLayoutFindDimIndex (fun k => if k = 2 then 88 else 0) layoutNCHW 88 (-10) = -3 ∧
    (∀ i : Nat, i < 4 → layoutNCHW.data.getD i 0 ≠ 88) ∧
    layoutNCHW.Valid := by
  decide

/-! ## Prefix and suffix tests -/

theorem memcmp_eq_zero_iff : ∀ (n : Nat) (a b : Nat → Nat),
    memcmp a b n = 0 ↔ ∀ i, i < n → a i = b i := by
  intro n
  induction n with
  | zero => intro a b; simp [memcmp]
  | succ n ih =>
    intro a b
    by_cases h : a 0 = b 0
    · simp only [memcmp, h, if_true, ih]
      constructor
      · intro hc i hi
        cases i with
        | zero => exact h
        | succ i => exact hc i (by omega)
      · intro hc i hi
        exact hc (i + 1) (by omega)
    · simp only [memcmp, h, if_false]
      constructor
      · intro hc; omega
      · intro hc; exact absurd (hc 0 (by omega)) h

theorem memcmp_cells_eq_zero_iff (t l : List Nat) (off n : Nat) (ht : n ≤ t.length)
    (hl : off + n ≤ l.length) :
    memcmp (cells t 0) (cells l off) n = 0 ↔ (l.drop off).take n = t.take n := by
  rw [memcmp_eq_zero_iff, ← map_cells_range l off n hl]
  have ht0 : t.take n = (t.drop 0).take n := by simp
  rw [ht0, ← map_cells_range t 0 n (by omega)]
  constructor
  · intro h
    apply List.map_congr_left
    intro i hi
    exact (h i (List.mem_range.mp hi)).symm
  · intro h i hi
    have := congrArg (fun x => x[i]?) h
    simp only [List.getElem?_map, List.getElem?_range hi, Option.map_some'] at this
    exact (Option.some.inj this).symm

/-- C10.  For valid layouts `L` and `T`: `TensorLayoutStartsWith(L, T)` is non-zero iff
`rank(T) ≤ rank(L)` and the first `rank(T)` labels of `L` are the labels of `T`;
`TensorLayoutEndsWith(L, T)` is non-zero iff `rank(T) ≤ rank(L)` and the last `rank(T)` labels
of `L` are the labels of `T`.  An empty `T` always matches and a `T` longer than `L` never
does. -/
theorem TensorLayoutStartsWith_EndsWith_spec (L T : TensorLayout_t) (hL : L.Valid)
    (hT : T.Valid) :
    (TensorLayoutStartsWith L T ≠ 0 ↔
      T.rank ≤ L.rank ∧ L.labels.take T.rank.toNat = T.labels) ∧
    (TensorLayoutEndsWith L T ≠ 0 ↔
      T.rank ≤ L.rank ∧ L.labels.drop (L.rank - T.rank).toNat = T.labels) ∧
    (T.rank = 0 → TensorLayoutStartsWith L T ≠ 0 ∧ TensorLayoutEndsWith L T ≠ 0) ∧
    (L.rank < T.rank → TensorLayoutStartsWith L T = 0 ∧ TensorLayoutEndsWith L T = 0) := by
  obtain ⟨hlenL, hL0, hL1⟩ := id hL
  obtain ⟨hlenT, hT0, hT1⟩ := id hT
  have hL15 : L.rank ≤ 15 := hL1
  have hT15 : T.rank ≤ 15 := hT1
  have hlenL16 : L.data.length = 16 := hlenL
  have hlenT16 : T.data.length = 16 := hlenT
  have hsz : toSizeT T.rank = T.rank.toNat := toSizeT_of_nonneg _ hT0 (by omega)
  have hstart : TensorLayoutStartsWith L T ≠ 0 ↔
      T.rank ≤ L.rank ∧ L.labels.take T.rank.toNat = T.labels := by
    by_cases hle : T.rank ≤ L.rank
    · have hm := memcmp_cells_eq_zero_iff T.data L.data 0 T.rank.toNat (by omega) (by omega)
      have hlab : L.labels.take T.rank.toNat = (L.data.drop 0).take T.rank.toNat := by
        simp only [TensorLayout_t.labels, List.take_take, List.drop_zero]
        congr 1; omega
      unfold TensorLayoutStartsWith
      rw [if_pos hle, hsz, hlab]
      show _ ↔ _ ∧ _ = T.data.take T.rank.toNat
      rw [← hm]
      by_cases hz : memcmp (cells T.data 0) (cells L.data 0) T.rank.toNat = 0
      · simp [hz, hle]
      · simp [hz]
    · simp [TensorLayoutStartsWith, hle]
  have hend : TensorLayoutEndsWith L T ≠ 0 ↔
      T.rank ≤ L.rank ∧ L.labels.drop (L.rank - T.rank).toNat = T.labels := by
    by_cases hle : T.rank ≤ L.rank
    · have hm := memcmp_cells_eq_zero_iff T.data L.data (L.rank - T.rank).toNat T.rank.toNat
        (by omega) (by omega)
      have hlab : L.labels.drop (L.rank - T.rank).toNat =
          (L.data.drop (L.rank - T.rank).toNat).take T.rank.toNat := by
        simp only [TensorLayout_t.labels]
        rw [List.take_drop]
        congr 2; omega
      unfold TensorLayoutEndsWith
      rw [if_pos hle, hsz, hlab]
      show _ ↔ _ ∧ _ = T.data.take T.rank.toNat
      rw [← hm]
      by_cases hz :
          memcmp (cells T.data 0) (cells L.data (L.rank - T.rank).toNat) T.rank.toNat = 0
      · simp [hz, hle]
      · simp [hz]
    · simp [TensorLayoutEndsWith, hle]
  refine ⟨hstart, hend, fun h0 => ?_, fun hlt => ?_⟩
  · rw [hstart, hend]
    simp [TensorLayout_t.labels, h0, hL0]
  · simp [TensorLayoutStartsWith, TensorLayoutEndsWith, not_le.mpr hlt]

theorem TensorLayoutStartsWith_EndsWith_spec_witness :
    (layoutNCHW.Valid ∧ layoutHW.Valid) ∧
    (TensorLayoutEndsWith layoutNCHW layoutHW ≠ 0 ↔
      layoutHW.rank ≤ layoutNCHW.rank ∧
        layoutNCHW.labels.drop (layoutNCHW.rank - layoutHW.rank).toNat = layoutHW.labels) :=
  ⟨by decide,
   (TensorLayoutStartsWith_EndsWith_spec layoutNCHW layoutHW (by decide) (by decide)).2.1⟩

/-! ## Permutation of shapes -/

theorem FindDimIndex_spec (D : TensorLayout_t) (c : Nat) (hD : D.Valid) :
    (FindDimIndex D c = -1 ↔ ∀ i : Nat, i < D.rank.toNat → D.data.getD i 0 ≠ c) ∧
    (FindDimIndex D c ≠ -1 →
      ∃ i : Nat, FindDimIndex D c = i ∧ i < D.rank.toNat ∧ D.data.getD i 0 = c ∧
        ∀ j : Nat, j < i → D.data.getD j 0 ≠ c) := by
  obtain ⟨hlen, h0, h1⟩ := id hD
  have h15 : D.rank ≤ 15 := h1
  have hsz : toSizeT D.rank = D.rank.toNat := toSizeT_of_nonneg _ h0 (by omega)
  have hread : ∀ k : Nat, D.read (0 + (k : Int)) = D.data.getD k 0 := by
    intro k
    simp [TensorLayout_t.read]
  unfold FindDimIndex
  rw [hsz]
  cases hm : memchr D.read 0 c D.rank.toNat with
  | none =>
    rw [memchr_eq_none_iff] at hm
    refine ⟨⟨fun _ i hi => ?_, fun _ => rfl⟩, fun h => absurd rfl h⟩
    have := hm i hi
    rwa [hread] at this
  | some p =>
    obtain ⟨k, hk, hp, hr, hmin⟩ := memchr_eq_some _ _ _ _ _ hm
    have hpk : p = (k : Int) := by rw [hp]; simp
    rw [hp, hread] at hr
    have hne : p ≠ -1 := by omega
    refine ⟨⟨fun h => absurd h hne, fun h => absurd hr (h k hk)⟩,
      fun _ => ⟨k, hpk, hk, hr, fun j hj => ?_⟩⟩
    have := hmin j hj
    rwa [hread] at this

theorem labels_getElem? (L : TensorLayout_t) (hL : L.Valid) (i : Nat) (hi : i < L.rank.toNat) :
    L.labels[i]? = some (L.data.getD i 0) := by
  obtain ⟨hlen, h0, h1⟩ := hL
  have h16 : L.data.length = 16 := hlen
  have h15 : L.rank ≤ 15 := h1
  have hil : i < L.data.length := by omega
  simp [TensorLayout_t.labels, List.getElem?_take_of_lt hi, List.getElem?_eq_getElem hil]

theorem labels_length (L : TensorLayout_t) (hL : L.Valid) : L.labels.length = L.rank.toNat := by
  obtain ⟨hlen, h0, h1⟩ := hL
  have h16 : L.data.length = 16 := hlen
  have h15 : L.rank ≤ 15 := h1
  simp [TensorLayout_t.labels]
  omega

/-- In a valid layout with pairwise distinct labels, a label determines its index. -/
theorem labels_inj (L : TensorLayout_t) (hL : L.Valid) (hnd : L.labels.Nodup) (i j : Nat)
    (hi : i < L.rank.toNat) (hj : j < L.rank.toNat) (h : L.data.getD i 0 = L.data.getD j 0) :
    i = j := by
  have hne := List.nodup_iff_getElem?_ne_getElem?.mp hnd
  have hlen := labels_length L hL
  rcases Nat.lt_trichotomy i j with hlt | heq | hgt
  · have := hne i j hlt (by omega)
    rw [labels_getElem? L hL i hi, labels_getElem? L hL j hj, h] at this
    exact absurd rfl this
  · exact heq
  · have := hne j i hgt (by omega)
    rw [labels_getElem? L hL i hi, labels_getElem? L hL j hj, h] at this
    exact absurd rfl this

/-- With pairwise distinct labels, `FindDimIndex` returns the index that carries the label. -/
theorem FindDimIndex_of_label (D : TensorLayout_t) (hD : D.Valid) (hnd : D.labels.Nodup)
    (j : Nat) (hj : j < D.rank.toNat) : FindDimIndex D (D.data.getD j 0) = j := by
  obtain ⟨hnone, hsome⟩ := FindDimIndex_spec D (D.data.getD j 0) hD
  have hne : FindDimIndex D (D.data.getD j 0) ≠ -1 := by
    intro h
    exact absurd rfl (hnone.mp h j hj)
  obtain ⟨i, hi, hir, hic, -⟩ := hsome hne
  rw [hi, labels_inj D hD hnd i j hir hj hic]

theorem fill_n_getElem?_lt {α : Type} (dst : List α) (n : Nat) (v : α) (i : Nat) (h : i < n) :
    (fill_n dst n v)[i]? = some v := memcpy_getElem?_lt dst _ n i h

theorem fill_n_getElem?_ge {α : Type} (dst : List α) (n : Nat) (v : α) (i : Nat) (h : n ≤ i) :
    (fill_n dst n v)[i]? = dst[i]? := memcpy_getElem?_ge dst _ n i h

theorem fill_n_length {α : Type} (dst : List α) (n : Nat) (v : α) (h : n ≤ dst.length) :
    (fill_n dst n v).length = dst.length := memcpy_length dst _ n h

/-- The destination cells after the first `k` iterations of the loop of
`TensorShapePermute`. -/
theorem TensorShapePermute.loop_spec (S D : TensorLayout_t) (src dst : List Int)
    (hS : S.Valid) (hD : D.Valid) (hSn : S.labels.Nodup) (hDn : D.labels.Nodup)
    (hdst : D.rank.toNat ≤ dst.length) :
    ∀ k, k ≤ S.rank.toNat →
      ((List.range k).foldl (TensorShapePermute.body S src D)
          (fill_n dst D.rank.toNat 1)).length = dst.length ∧
      (∀ j, D.rank.toNat ≤ j →
        ((List.range k).foldl (TensorShapePermute.body S src D)
          (fill_n dst D.rank.toNat 1))[j]? = dst[j]?) ∧
      (∀ j, j < D.rank.toNat →
        (∀ i, i < k → S.data.getD i 0 = D.data.getD j 0 →
          ((List.range k).foldl (TensorShapePermute.body S src D)
            (fill_n dst D.rank.toNat 1))[j]? = some (src.getD i 0)) ∧
        ((∀ i, i < k → S.data.getD i 0 ≠ D.data.getD j 0) →
          ((List.range k).foldl (TensorShapePermute.body S src D)
            (fill_n dst D.rank.toNat 1))[j]? = some 1)) := by
  intro k
  induction k with
  | zero =>
    intro _
    refine ⟨fill_n_length _ _ _ hdst, fun j hj => fill_n_getElem?_ge _ _ _ _ hj, fun j hj => ?_⟩
    exact ⟨fun i hi => absurd hi (by omega), fun _ => fill_n_getElem?_lt _ _ _ _ hj⟩
  | succ k ih =>
    intro hk
    obtain ⟨ihlen, ihge, ihlt⟩ := ih (by omega)
    rw [List.range_succ, List.foldl_append, List.foldl_cons, List.foldl_nil]
    generalize (List.range k).foldl (TensorShapePermute.body S src D) (fill_n dst D.rank.toNat 1)
      = cur at ihlen ihge ihlt
    obtain ⟨hnone, hsome⟩ := FindDimIndex_spec D (S.data.getD k 0) hD
    by_cases hidx : FindDimIndex D (S.data.getD k 0) = -1
    · have hbody : TensorShapePermute.body S src D cur k = cur := by
        show (if FindDimIndex D (S.data.getD k 0) ≥ 0 then
          cur.set (FindDimIndex D (S.data.getD k 0)).toNat (src.getD k 0) else cur) = cur
        rw [hidx, if_neg (by omega)]
      rw [hbody]
      refine ⟨ihlen, ihge, fun j hj => ⟨fun i hi hij => ?_, fun hall => ?_⟩⟩
      · rcases Nat.lt_or_ge i k with hlt | hge
        · exact (ihlt j hj).1 i hlt hij
        · have : i = k := by omega
          subst this
          exact absurd hij.symm (hnone.mp hidx j hj)
      · exact (ihlt j hj).2 (fun i hi => hall i (by omega))
    · obtain ⟨j0, hj0, hj0r, hj0c, -⟩ := hsome hidx
      have hbody : TensorShapePermute.body S src D cur k = cur.set j0 (src.getD k 0) := by
        show (if FindDimIndex D (S.data.getD k 0) ≥ 0 then
          cur.set (FindDimIndex D (S.data.getD k 0)).toNat (src.getD k 0) else cur) = _
        rw [hj0, if_pos (by omega), Int.toNat_ofNat]
      rw [hbody]
      refine ⟨by rw [List.length_set]; exact ihlen, fun j hj => ?_, fun j hj => ?_⟩
      · rw [List.getElem?_set_ne (by omega)]
        exact ihge j hj
      · by_cases hjj : j0 = j
        · subst hjj
          refine ⟨fun i hi hij => ?_, fun hall => ?_⟩
          · have hik : i = k :=
              labels_inj S hS hSn i k (by omega) (by omega) (by rw [hij, hj0c])
            rw [hik, List.getElem?_set_self (by omega)]
          · exact absurd hj0c.symm (hall k (by omega))
        · rw [List.getElem?_set_ne hjj]
          refine ⟨fun i hi hij => ?_, fun hall => ?_⟩
          · rcases Nat.lt_or_ge i k with hlt | hge
            · exact (ihlt j hj).1 i hlt hij
            · have : i = k := by omega
              subst this
              exact absurd (labels_inj D hD hDn j0 j hj0r hj (by rw [hj0c, hij])) hjj
          · exact (ihlt j hj).2 (fun i hi => hall i (by omega))

/-- Source: `TensorShapePermute` on layouts with pairwise distinct labels: it returns, the destination
keeps its length and its cells from `rank(D)` on, and for `j < rank(D)` cell `j` is the source
size at the index `i` with `S[i] = D[j]` when there is one and `1` otherwise. -/
theorem TensorShapePermute_spec (S D : TensorLayout_t) (src dst : List Int)
    (hS : S.Valid) (hD : D.Valid) (hSn : S.labels.Nodup) (hDn : D.labels.Nodup)
    (hdst : D.rank.toNat ≤ dst.length) :
    ∃ written, TensorShapePermute S (some src) D (some dst) = .ok written ∧
      written.length = dst.length ∧
      (∀ j, D.rank.toNat ≤ j → written[j]? = dst[j]?) ∧
      (∀ j, j < D.rank.toNat →
        (∀ i, i < S.rank.toNat → S.data.getD i 0 = D.data.getD j 0 →
          written[j]? = some (src.getD i 0)) ∧
        ((∀ i, i < S.rank.toNat → S.data.getD i 0 ≠ D.data.getD j 0) → written[j]? = some 1)) :=
  ⟨_, rfl, TensorShapePermute.loop_spec S D src dst hS hD hSn hDn hdst S.rank.toNat (le_refl _)⟩

theorem TensorLayoutCompare_none_eq_zero_iff (layout : TensorLayout_t) :
    TensorLayoutCompare layout TENSOR_NONE = 0 ↔ layout.rank = 0 := by
  have hnone : TENSOR_NONE.rank = 0 := rfl
  by_cases h : layout.rank = 0
  · have hz : toSizeT 0 = 0 := rfl
    simp [TensorLayoutCompare, hnone, h, hz, memcmp]
  · simp [TensorLayoutCompare, hnone, h]

theorem Shape.copy_getD (storage : List Int) (that : Shape) (i : Nat) (hi : i < that.size_.toNat) :
    (Shape.copy storage that).data_.getD i 0 = that.data_.getD i 0 := by
  simp only [Shape.copy, List.getD_eq_getElem?_getD, memcpy_getElem?_lt _ _ _ _ hi,
    Option.getD_some]

theorem Shape.copy_get (storage : List Int) (that : Shape) (i : Int) :
    (Shape.copy storage that).get i = that.get i := by
  by_cases h : 0 ≤ i ∧ i < that.size_
  · have h2 : 0 ≤ i ∧ i < (Shape.copy storage that).size_ := h
    rw [Shape.get, Shape.get, if_pos h, if_pos h2, Shape.copy_getD _ _ _ (by omega)]
  · have h2 : ¬ (0 ≤ i ∧ i < (Shape.copy storage that).size_) := h
    rw [Shape.get, Shape.get, if_neg h, if_neg h2]

theorem Shape.sized_of_range (storage : List Int) (size : Int) (h0 : 0 ≤ size) (h1 : size ≤ 15) :
    Shape.sized storage size = .ok { data_ := fill_n storage size.toNat 0, size_ := size } := by
  have h15 : ((TENSOR_MAX_RANK : Nat) : Int) = 15 := rfl
  unfold Shape.sized
  rw [if_neg (by omega), if_pos (by rw [h15]; exact h1)]

theorem Shape.sized_of_neg (storage : List Int) (size : Int) (h : size < 0) :
    Shape.sized storage size = .error .neverReturns := by
  unfold Shape.sized
  rw [if_pos h]

theorem Shape.sized_of_large (storage : List Int) (size : Int) (h : 15 < size) :
    Shape.sized storage size = .ok { data_ := fill_n storage TENSOR_MAX_RANK 0, size_ := 0 } := by
  have h15 : ((TENSOR_MAX_RANK : Nat) : Int) = 15 := rfl
  unfold Shape.sized
  rw [if_neg (by omega), if_neg (by rw [h15]; omega)]

/-- The part of the permutation claim that holds, `Permute` taken at ranks of at least 1.  For a source shape of rank `r` whose layout `S` has rank `r` and pairwise
distinct labels, and a destination layout `D` with pairwise distinct labels:
`TensorShapePermute` returns and leaves, at every index `j < rank(D)` of the destination, the
source size at the index `i` with `S[i] = D[j]` when there is one and `1` otherwise (labels of
`S` absent from `D` are dropped, no error is raised); and when `r ≥ 1` and `rank(D) ≥ 1`,
`Permute` returns a shape of rank `rank(D)` with layout `D` and these entries. -/
theorem Permute_spec (storage : List Int) (src : TensorShape) (D : TensorLayout_t)
    (hS : src.layout.Valid) (hD : D.Valid)
    (hSn : src.layout.labels.Nodup) (hDn : D.labels.Nodup)
    (hrank : src.rank = TensorLayoutGetNumDim src.layout)
    (hstorage : storage.length = TENSOR_MAX_RANK) :
    (∀ dst : List Int, D.rank.toNat ≤ dst.length →
      ∃ written,
        TensorShapePermute src.layout (some src.shape.data_) D (some dst) = .ok written ∧
        ∀ j, j < D.rank.toNat →
          (∀ i, i < src.layout.rank.toNat → src.layout.data.getD i 0 = D.data.getD j 0 →
            written[j]? = some (src.shape.data_.getD i 0)) ∧
          ((∀ i, i < src.layout.rank.toNat → src.layout.data.getD i 0 ≠ D.data.getD j 0) →
            written[j]? = some 1)) ∧
    (1 ≤ src.rank → 1 ≤ TensorLayoutGetNumDim D →
      ∃ ts, Permute storage src D = .ok ts ∧ ts.rank = TensorLayoutGetNumDim D ∧ ts.layout = D ∧
        ∀ j : Nat, j < D.rank.toNat →
          (∀ i : Nat, i < src.layout.rank.toNat →
            src.layout.data.getD i 0 = D.data.getD j 0 → ts.get j = src.get i) ∧
          ((∀ i, i < src.layout.rank.toNat → src.layout.data.getD i 0 ≠ D.data.getD j 0) →
            ts.get j = .ok 1)) := by
  constructor
  · intro dst hdst
    obtain ⟨written, hw, -, -, hcells⟩ :=
      TensorShapePermute_spec src.layout D src.shape.data_ dst hS hD hSn hDn hdst
    exact ⟨written, hw, hcells⟩
  · intro hr hd
    obtain ⟨hDlen, hD0, hD1⟩ := id hD
    have hD15 : D.rank ≤ 15 := hD1
    have hst : storage.length = 15 := hstorage
    have hfill : D.rank.toNat ≤ (fill_n storage D.rank.toNat (0 : Int)).length := by
      rw [fill_n_length _ _ _ (by omega)]; omega
    obtain ⟨written, hw, -, -, hcells⟩ :=
      TensorShapePermute_spec src.layout D src.shape.data_
        (fill_n storage D.rank.toNat 0) hS hD hSn hDn hfill
    have hsrc0 : src.get 0 = .ok (src.shape_.data_.getD 0 0) := by
      have : (0 : Int) ≤ 0 ∧ (0 : Int) < src.shape_.size_ := ⟨le_refl _, by
        have : src.rank = src.shape_.size_ := rfl
        omega⟩
      simp only [TensorShape.get, Shape.get, if_pos this]
      rfl
    have hsized : Shape.sized storage (TensorLayoutGetNumDim D) =
        .ok { data_ := fill_n storage D.rank.toNat 0, size_ := D.rank } :=
      Shape.sized_of_range storage D.rank hD0 hD15
    have hdst0 : Shape.get { data_ := fill_n storage D.rank.toNat 0, size_ := D.rank } 0 =
        .ok ((fill_n storage D.rank.toNat 0).getD 0 0) := by
      have : (0 : Int) ≤ 0 ∧ (0 : Int) < D.rank :=
        ⟨le_refl _, by
          have : TensorLayoutGetNumDim D = D.rank := rfl
          omega⟩
      simp only [Shape.get, if_pos this]
      rfl
    have hcmp : ¬ (¬ (TensorLayoutCompare D TENSOR_NONE = 0) ∧
        (Shape.copy storage { data_ := written, size_ := D.rank }).rank ≠
          TensorLayoutGetNumDim D) := by
      intro h
      exact h.2 rfl
    have hperm : Permute storage src D =
        .ok { shape_ := Shape.copy storage { data_ := written, size_ := D.rank }, layout_ := D } := by
      have hw2 : TensorShapePermute src.layout (some src.shape_.data_) D
          (some (fill_n storage D.rank.toNat 0)) = .ok written := hw
      simp only [Permute, hsized, hsrc0, hdst0, hw2, TensorShape.ofShape]
      exact if_neg hcmp
    refine ⟨_, hperm, rfl, rfl, ?_⟩
    intro j hj
    have hjr : (0 : Int) ≤ j ∧ (j : Int) < D.rank := by omega
    have hget : ∀ v : Int, written[j]? = some v →
        TensorShape.get
          { shape_ := Shape.copy storage { data_ := written, size_ := D.rank }, layout_ := D } j
          = .ok v := by
      intro v hv
      simp only [TensorShape.get, Shape.copy_get]
      simp only [Shape.get, if_pos hjr, Int.toNat_ofNat, List.getD_eq_getElem?_getD, hv,
        Option.getD_some]
    refine ⟨fun i hi hij => ?_, fun hall => hget 1 ((hcells j hj).2 hall)⟩
    rw [hget _ ((hcells j hj).1 i hi hij)]
    have hir : (0 : Int) ≤ i ∧ (i : Int) < src.shape_.size_ := by
      have h1 : src.rank = src.shape_.size_ := rfl
      have h2 : TensorLayoutGetNumDim src.layout = src.layout.rank := rfl
      omega
    simp only [TensorShape.get, Shape.get, if_pos hir, Int.toNat_ofNat]
    rfl

theorem Permute_spec_witness :
    (shapeNCHW2345.layout.Valid ∧ layoutNHWC.Valid ∧ shapeNCHW2345.layout.labels.Nodup ∧
      layoutNHWC.labels.Nodup ∧ shapeNCHW2345.rank = TensorLayoutGetNumDim shapeNCHW2345.layout ∧
      zeroStorage.length = TENSOR_MAX_RANK ∧ 1 ≤ shapeNCHW2345.rank ∧
      1 ≤ TensorLayoutGetNumDim layoutNHWC) ∧
    (∃ ts, Permute zeroStorage shapeNCHW2345 layoutNHWC = .ok ts ∧
      ts.rank = TensorLayoutGetNumDim layoutNHWC ∧ ts.layout = layoutNHWC ∧
      ∀ j : Nat, j < layoutNHWC.rank.toNat →
        (∀ i : Nat, i < shapeNCHW2345.layout.rank.toNat →
          shapeNCHW2345.layout.data.getD i 0 = layoutNHWC.data.getD j 0 →
            ts.get j = shapeNCHW2345.get i) ∧
        ((∀ i, i < shapeNCHW2345.layout.rank.toNat →
          shapeNCHW2345.layout.data.getD i 0 ≠ layoutNHWC.data.getD j 0) → ts.get j = .ok 1)) ∧
    (Permute zeroStorage shapeNCHW2345 layoutNHWC).map (fun ts => ts.shape.elems)
      = .ok [2, 4, 5, 3] ∧
    (Permute zeroStorage shapeNCHW2345 layoutHW).map (fun ts => ts.shape.elems) = .ok [4, 5] ∧
    (Permute zeroStorage shapeHW45 layoutNCHW).map (fun ts => ts.shape.elems)
      = .ok [1, 1, 4, 5] :=
  ⟨by decide,
   (Permute_spec zeroStorage shapeNCHW2345 layoutNHWC (by decide) (by decide) (by decide)
      (by decide) (by decide) (by decide)).2 (by decide) (by decide),
   by decide, by decide, by decide⟩

/-- C1, failing for `Permute` at rank 0: with the empty source shape and the empty layouts
(all hypotheses of the claim hold), and also with the source `NCHW {2, 3, 4, 5}` and the
empty destination layout, `Permute` fails the bounds assertion of `Shape::operator[]`
instead of producing a shape of rank 0. -/
theorem Permute_rank_zero_counterexample :
    (TENSOR_NONE.Valid ∧ TENSOR_NONE.labels.Nodup ∧
      (TensorShape.mk (Shape.default zeroStorage) TENSOR_NONE).rank
        = TensorLayoutGetNumDim TENSOR_NONE) ∧
    Permute zeroStorage (TensorShape.mk (Shape.default zeroStorage) TENSOR_NONE) TENSOR_NONE
      = .error .assertFailed ∧
    Permute zeroStorage shapeNCHW2345 TENSOR_NONE = .error .assertFailed := by
  decide

/-! ## Construction of `TensorShape` -/

theorem Shape.copy_eq (storage : List Int) (that : Shape) :
    (Shape.copy storage that).eq that = true := by
  have hsz : (Shape.copy storage that).size_ = that.size_ := rfl
  simp only [Shape.eq, hsz, if_true, List.all_eq_true, List.mem_range, beq_iff_eq]
  intro i hi
  exact Shape.copy_getD storage that i hi

/-- C2.  Constructing a `TensorShape` from sizes and a layout raises `InvalidArgument` exactly
when the layout is non-empty and its rank differs from the rank of the sizes; otherwise the
construction succeeds and `layout()` is the given layout and `shape()` the given sizes: same
rank, same element at every index, equal under `operator==`. -/
theorem TensorShape_ofShape_spec (storage : List Int) (shape : Shape) (layout : TensorLayout_t) :
    (TensorShape.ofShape storage shape layout = .error invalidArgument ↔
      TensorLayoutGetNumDim layout ≠ 0 ∧ shape.rank ≠ TensorLayoutGetNumDim layout) ∧
    (¬ (TensorLayoutGetNumDim layout ≠ 0 ∧ shape.rank ≠ TensorLayoutGetNumDim layout) →
      ∃ ts, TensorShape.ofShape storage shape layout = .ok ts ∧
        ts.layout = layout ∧ ts.shape.rank = shape.rank ∧
        (∀ i : Int, ts.shape.get i = shape.get i) ∧ ts.shape.eq shape = true) := by
  have hcond : (¬ (TensorLayoutCompare layout TENSOR_NONE = 0) ∧
      (Shape.copy storage shape).rank ≠ TensorLayoutGetNumDim layout) ↔
      (TensorLayoutGetNumDim layout ≠ 0 ∧ shape.rank ≠ TensorLayoutGetNumDim layout) := by
    rw [TensorLayoutCompare_none_eq_zero_iff]
    exact Iff.rfl
  by_cases h : TensorLayoutGetNumDim layout ≠ 0 ∧ shape.rank ≠ TensorLayoutGetNumDim layout
  · have herr : TensorShape.ofShape storage shape layout = .error invalidArgument := by
      simp only [TensorShape.ofShape]
      exact if_pos (hcond.mpr h)
    exact ⟨⟨fun _ => h, fun _ => herr⟩, fun hn => absurd h hn⟩
  · have hok : TensorShape.ofShape storage shape layout =
        .ok { shape_ := Shape.copy storage shape, layout_ := layout } := by
      simp only [TensorShape.ofShape]
      exact if_neg (fun hc => h (hcond.mp hc))
    refine ⟨⟨fun he => ?_, fun hc => absurd hc h⟩, fun _ => ⟨_, hok, rfl, rfl, ?_, ?_⟩⟩
    · rw [hok] at he; cases he
    · exact fun i => Shape.copy_get storage shape i
    · exact Shape.copy_eq storage shape

theorem TensorShape_ofShape_spec_witness :
    TensorShape.ofShape zeroStorage ⟨[2, 3, 0, 0, 0, 0, 0, 0, 0, 0, 0, 0, 0, 0, 0], 2⟩ layoutNCHW
      = .error invalidArgument :=
  (TensorShape_ofShape_spec zeroStorage ⟨[2, 3, 0, 0, 0, 0, 0, 0, 0, 0, 0, 0, 0, 0, 0], 2⟩
    layoutNCHW).1.mpr (by decide)

/-! ## The shape cache of `ITensorData` -/

theorem toSizeT_le_iff (x : Int) (h0 : INT_MIN ≤ x) (h1 : x ≤ INT_MAX) (n : Nat) (hn : n ≤ 15) :
    toSizeT x ≤ n ↔ 0 ≤ x ∧ x ≤ n := by
  unfold INT_MIN at h0
  unfold INT_MAX at h1
  unfold toSizeT
  omega

/-- What a successful `TensorShape(data, size, layout)` holds, for a 32-bit `size`. -/
theorem TensorShape.ofData_ok (storage cellsOfData : List Int) (size : Int)
    (layout : TensorLayout_t) (ts : TensorShape)
    (h : TensorShape.ofData storage (some cellsOfData) size layout = .ok ts)
    (h0 : INT_MIN ≤ size) (h1 : size ≤ INT_MAX) :
    0 ≤ size ∧ size ≤ 15 ∧ ts.rank = size ∧ ts.layout = layout ∧
      ∀ i : Nat, (i : Int) < size → ts.get i = .ok (cellsOfData.getD i 0) := by
  by_cases hbig : toSizeT size > TENSOR_MAX_RANK
  · simp [TensorShape.ofData, Shape.ofData, hbig] at h
  · have hle : toSizeT size ≤ 15 := by unfold TENSOR_MAX_RANK at hbig; omega
    obtain ⟨hs0, hs15⟩ := (toSizeT_le_iff size h0 h1 15 (le_refl _)).mp hle
    have hsz : toSizeT size = size.toNat := toSizeT_of_nonneg _ hs0 (by omega)
    have hcast : ((size.toNat : Nat) : Int) = size := by omega
    have hbig2 : ¬ (size.toNat > TENSOR_MAX_RANK) := by rw [← hsz]; exact hbig
    have hshape : Shape.ofData storage (some cellsOfData) (toSizeT size) =
        .ok ⟨memcpy storage (fun i => cellsOfData.getD i 0) size.toNat, size⟩ := by
      simp only [Shape.ofData, hsz, if_neg hbig2, hcast]
    simp only [TensorShape.ofData, hshape] at h
    have hts : ts = ⟨Shape.copy storage
        ⟨memcpy storage (fun i => cellsOfData.getD i 0) size.toNat, size⟩, layout⟩ := by
      by_cases hc : ¬ (TensorLayoutCompare layout TENSOR_NONE = 0) ∧
          (Shape.copy storage
            ⟨memcpy storage (fun i => cellsOfData.getD i 0) size.toNat, size⟩).rank ≠
              TensorLayoutGetNumDim layout
      · simp only [TensorShape.ofShape, if_pos hc] at h
        cases h
      · simp only [TensorShape.ofShape, if_neg hc] at h
        exact (Except.ok.inj h).symm
    subst hts
    refine ⟨hs0, by omega, rfl, rfl, fun i hi => ?_⟩
    have hir : (0 : Int) ≤ i ∧ (i : Int) < size := by omega
    simp only [TensorShape.get, Shape.copy_get]
    simp only [Shape.get, if_pos hir, Int.toNat_ofNat, List.getD_eq_getElem?_getD,
      memcpy_getElem?_lt _ _ _ _ (by omega : i < size.toNat), Option.getD_some]

theorem ITensorData.coherent_ofData (data : TensorData_t) (cacheStorage : TensorShape) :
    (ITensorData.ofData data cacheStorage).Coherent := by
  intro h
  simp [ITensorData.ofData, Optional.none] at h

theorem ITensorData.coherent_mutate (self : ITensorData) (f : TensorData_t → TensorData_t) :
    (self.mutate f).Coherent := by
  intro h
  by_cases hv : self.cache_shape_.has_value_ = true
  · simp [ITensorData.mutate, ITensorData.cdata, Optional.reset, hv] at h
  · simp [ITensorData.mutate, ITensorData.cdata, Optional.reset, hv] at h

/-- What `shape()` returns and leaves behind, case by case. -/
theorem ITensorData.shape_cases (self : ITensorData) :
    (self.cache_shape_.has_value_ = true ∧
      self.shape = (.ok self.cache_shape_.storage_, self)) ∨
    (self.cache_shape_.has_value_ = false ∧
      ((∃ ts, TensorShape.ofData self.cache_shape_.storage_.shape_.data_ (some self.data_.shape)
            self.data_.rank self.data_.layout = .ok ts ∧
          self.shape = (.ok ts, { self with cache_shape_ := ⟨true, ts⟩ })) ∨
       (∃ e, TensorShape.ofData self.cache_shape_.storage_.shape_.data_ (some self.data_.shape)
            self.data_.rank self.data_.layout = .error e ∧
          self.shape = (.error e, self)))) := by
  by_cases hv : self.cache_shape_.has_value_ = true
  · left
    refine ⟨hv, ?_⟩
    simp [ITensorData.shape, Optional.hasValue, Optional.value, hv]
  · right
    have hf : self.cache_shape_.has_value_ = false := by simpa using hv
    refine ⟨hf, ?_⟩
    cases hc : TensorShape.ofData self.cache_shape_.storage_.shape_.data_ (some self.data_.shape)
        self.data_.rank self.data_.layout with
    | ok ts =>
      left
      refine ⟨ts, rfl, ?_⟩
      simp [ITensorData.shape, Optional.hasValue, Optional.value, Optional.emplace, hf,
        ITensorData.cdataConst, hc]
    | error e =>
      right
      refine ⟨e, rfl, ?_⟩
      simp [ITensorData.shape, Optional.hasValue, Optional.emplace, hf,
        ITensorData.cdataConst, hc]

theorem ITensorData.coherent_shape (self : ITensorData) (h : self.Coherent) :
    self.shape.2.Coherent ∧ self.shape.2.data_ = self.data_ := by
  rcases ITensorData.shape_cases self with ⟨_, hs⟩ | ⟨_, ⟨ts, hts, hs⟩ | ⟨e, _, hs⟩⟩
  · rw [hs]; exact ⟨h, rfl⟩
  · rw [hs]
    exact ⟨fun _ => ⟨_, hts⟩, rfl⟩
  · rw [hs]; exact ⟨h, rfl⟩

theorem ITensorData.coherent_run (accesses : List ITensorData.Access) :
    ∀ self : ITensorData, self.Coherent → (self.run accesses).Coherent := by
  induction accesses with
  | nil => intro self h; exact h
  | cons a rest ih =>
    intro self h
    have hstep : (self.step a).Coherent := by
      cases a with
      | readShape => exact (ITensorData.coherent_shape self h).1
      | change f => exact ITensorData.coherent_mutate self f
    exact ih _ hstep

/-- On a coherent view `shape()` returns what constructing a `TensorShape` from the current
record returns. -/
theorem ITensorData.shape_of_coherent (self : ITensorData) (h : self.Coherent) :
    ∃ storage, self.shape.1 =
      TensorShape.ofData storage (some self.data_.shape) self.data_.rank self.data_.layout := by
  rcases ITensorData.shape_cases self with ⟨hv, hs⟩ | ⟨_, ⟨ts, hts, hs⟩ | ⟨e, he, hs⟩⟩
  · obtain ⟨storage, hst⟩ := h hv
    exact ⟨storage, by rw [hs, hst]⟩
  · exact ⟨_, by rw [hs, hts]⟩
  · exact ⟨_, by rw [hs, he]⟩

theorem ITensorData.shape_after_mutate (self : ITensorData) (f : TensorData_t → TensorData_t) :
    (self.mutate f).shape.1 =
      TensorShape.ofData self.cache_shape_.storage_.shape_.data_ (some (f self.data_).shape)
        (f self.data_).rank (f self.data_).layout := by
  have hv : (self.mutate f).cache_shape_.has_value_ = false := by
    by_cases h : self.cache_shape_.has_value_ = true
    · simp [ITensorData.mutate, ITensorData.cdata, Optional.reset, h]
    · simp [ITensorData.mutate, ITensorData.cdata, Optional.reset, h]
  have hst : (self.mutate f).cache_shape_.storage_ = self.cache_shape_.storage_ := by
    by_cases h : self.cache_shape_.has_value_ = true
    · simp [ITensorData.mutate, ITensorData.cdata, Optional.reset, h]
    · simp [ITensorData.mutate, ITensorData.cdata, Optional.reset, h]
  have hd : (self.mutate f).data_ = f self.data_ := rfl
  rcases ITensorData.shape_cases (self.mutate f) with ⟨hv2, _⟩ | ⟨_, ⟨ts, hts, hs⟩ | ⟨e, he, hs⟩⟩
  · rw [hv] at hv2; cases hv2
  · rw [hs, ← hts, hst, hd]
  · rw [hs, ← he, hst, hd]

/-- C3.  Cache coherence of `ITensorData`.  In every state reached from construction by calls
of `shape()` and changes of the record through the mutable `cdata()`: the cached shape is
absent or is a `TensorShape` constructed from the current record; `shape()` returns what
constructing a `TensorShape` from the current record returns; right after a change of the
record, `shape()` constructs its result from the changed record; and a shape it returns has
the rank, the layout and the sizes of the current record (whose rank is a 32-bit value). -/
theorem ITensorData_cache_coherence (data : TensorData_t) (cacheStorage : TensorShape)
    (accesses : List ITensorData.Access) :
    let view := (ITensorData.ofData data cacheStorage).run accesses
    view.Coherent ∧
    (∃ storage, view.shape.1 =
      TensorShape.ofData storage (some view.data_.shape) view.data_.rank view.data_.layout) ∧
    (∀ f : TensorData_t → TensorData_t, (view.mutate f).shape.1 =
      TensorShape.ofData view.cache_shape_.storage_.shape_.data_ (some (f view.data_).shape)
        (f view.data_).rank (f view.data_).layout) ∧
    (INT_MIN ≤ view.data_.rank → view.data_.rank ≤ INT_MAX →
      ∀ ts, view.shape.1 = .ok ts →
        ts.rank = view.data_.rank ∧ ts.layout = view.data_.layout ∧
        ∀ i : Nat, (i : Int) < view.data_.rank → ts.get i = .ok (view.data_.shape.getD i 0)) := by
  intro view
  have hco : view.Coherent :=
    ITensorData.coherent_run accesses _ (ITensorData.coherent_ofData data cacheStorage)
  refine ⟨hco, ITensorData.shape_of_coherent view hco,
    fun f => ITensorData.shape_after_mutate view f, fun h0 h1 ts hts => ?_⟩
  obtain ⟨storage, hst⟩ := ITensorData.shape_of_coherent view hco
  rw [hst] at hts
  obtain ⟨-, -, hr, hl, hg⟩ := TensorShape.ofData_ok storage _ _ _ ts hts h0 h1
  exact ⟨hr, hl, hg⟩

theorem ITensorData_cache_coherence_witness :
    (((ITensorData.ofData recordHW45 ⟨Shape.default zeroStorage, TENSOR_NONE⟩).run
        [.readShape, .change setNCHW2345]).shape.1.map (fun ts => (ts.shape.elems, ts.layout))
      = .ok ([2, 3, 4, 5], layoutNCHW)) ∧
    (INT_MIN ≤ ((ITensorData.ofData recordHW45 ⟨Shape.default zeroStorage, TENSOR_NONE⟩).run
        [.readShape, .change setNCHW2345]).data_.rank →
      ((ITensorData.ofData recordHW45 ⟨Shape.default zeroStorage, TENSOR_NONE⟩).run
        [.readShape, .change setNCHW2345]).data_.rank ≤ INT_MAX →
      ∀ ts, ((ITensorData.ofData recordHW45 ⟨Shape.default zeroStorage, TENSOR_NONE⟩).run
          [.readShape, .change setNCHW2345]).shape.1 = .ok ts →
        ts.rank = ((ITensorData.ofData recordHW45 ⟨Shape.default zeroStorage, TENSOR_NONE⟩).run
          [.readShape, .change setNCHW2345]).data_.rank ∧
        ts.layout = ((ITensorData.ofData recordHW45 ⟨Shape.default zeroStorage, TENSOR_NONE⟩).run
          [.readShape, .change setNCHW2345]).data_.layout ∧
        ∀ i : Nat,
          (i : Int) < ((ITensorData.ofData recordHW45 ⟨Shape.default zeroStorage, TENSOR_NONE⟩).run
            [.readShape, .change setNCHW2345]).data_.rank →
          ts.get i = .ok (((ITensorData.ofData recordHW45
            ⟨Shape.default zeroStorage, TENSOR_NONE⟩).run
              [.readShape, .change setNCHW2345]).data_.shape.getD i 0)) :=
  ⟨by decide,
   (ITensorData_cache_coherence recordHW45 ⟨Shape.default zeroStorage, TENSOR_NONE⟩
      [.readShape, .change setNCHW2345]).2.2.2⟩

/-! ## `TensorLayoutCompare` -/

theorem memcmp_antisymm : ∀ (n : Nat) (a b : Nat → Nat), memcmp a b n = -(memcmp b a n) := by
  intro n
  induction n with
  | zero => intro a b; simp [memcmp]
  | succ n ih =>
    intro a b
    by_cases h : a 0 = b 0
    · have h2 : b 0 = a 0 := h.symm
      unfold memcmp
      rw [if_pos h, if_pos h2]
      exact ih _ _
    · have h2 : ¬ (b 0 = a 0) := fun e => h e.symm
      unfold memcmp
      rw [if_neg h, if_neg h2]
      omega

theorem memcmp_congr : ∀ (n : Nat) (a b a2 b2 : Nat → Nat),
    (∀ i, i < n → a2 i = a i) → (∀ i, i < n → b2 i = b i) → memcmp a2 b2 n = memcmp a b n := by
  intro n
  induction n with
  | zero => intro a b a2 b2 _ _; rfl
  | succ n ih =>
    intro a b a2 b2 ha hb
    have ha0 := ha 0 (by omega)
    have hb0 := hb 0 (by omega)
    unfold memcmp
    rw [ha0, hb0, ih (fun i => a (i + 1)) (fun i => b (i + 1)) (fun i => a2 (i + 1)) (fun i => b2 (i + 1))
      (fun i hi => ha (i + 1) (by omega)) (fun i hi => hb (i + 1) (by omega))]

/-- The value of `memcmp` is decided by the first pair of differing bytes. -/
theorem memcmp_first_diff : ∀ (n : Nat) (a b : Nat → Nat) (i : Nat), i < n →
    (∀ j, j < i → a j = b j) → a i ≠ b i → memcmp a b n = (a i : Int) - (b i : Int) := by
  intro n
  induction n with
  | zero => intro a b i hi; omega
  | succ n ih =>
    intro a b i hi hpre hne
    cases i with
    | zero => simp only [memcmp, hne, if_false]
    | succ i =>
      have h0 : a 0 = b 0 := hpre 0 (by omega)
      simp only [memcmp, h0, if_true]
      exact ih (fun k => a (k + 1)) (fun k => b (k + 1)) i (by omega)
        (fun j hj => hpre (j + 1) (by omega)) hne

theorem labels_eq_iff_cells (a b : TensorLayout_t) (ha : a.Valid) (hb : b.Valid)
    (hr : a.rank = b.rank) :
    a.labels = b.labels ↔ ∀ i, i < a.rank.toNat → cells a.data 0 i = cells b.data 0 i := by
  obtain ⟨hla, ha0, ha1⟩ := id ha
  obtain ⟨hlb, hb0, hb1⟩ := id hb
  have ha15 : a.rank ≤ 15 := ha1
  have hla16 : a.data.length = 16 := hla
  have hlb16 : b.data.length = 16 := hlb
  have e1 : a.labels = (List.range a.rank.toNat).map (cells a.data 0) := by
    rw [map_cells_range _ _ _ (by omega)]; simp [TensorLayout_t.labels]
  have e2 : b.labels = (List.range a.rank.toNat).map (cells b.data 0) := by
    rw [map_cells_range _ _ _ (by omega)]; simp [TensorLayout_t.labels, hr]
  rw [e1, e2]
  constructor
  · intro h i hi
    have := congrArg (fun x => x[i]?) h
    simp only [List.getElem?_map, List.getElem?_range hi, Option.map_some'] at this
    exact Option.some.inj this
  · intro h
    apply List.map_congr_left
    intro i hi
    exact h i (List.mem_range.mp hi)

/-- C11.  For valid layouts `a`, `b`: when the ranks differ, `TensorLayoutCompare(a, b)` is
`rank(a) - rank(b)`; when they are equal it is `0` iff the labels are equal, and otherwise its
sign is that of the first differing pair of labels compared as bytes; the result depends only
on the ranks and the labels, not on the bytes stored past the rank. -/
theorem TensorLayoutCompare_spec (a b : TensorLayout_t) (ha : a.Valid) (hb : b.Valid) :
    (a.rank ≠ b.rank → TensorLayoutCompare a b = a.rank - b.rank) ∧
    (a.rank = b.rank →
      (TensorLayoutCompare a b = 0 ↔ a.labels = b.labels) ∧
      (∀ i : Nat, (i : Int) < a.rank →
        (∀ j, j < i → a.data.getD j 0 = b.data.getD j 0) → a.data.getD i 0 ≠ b.data.getD i 0 →
          (TensorLayoutCompare a b < 0 ↔ a.data.getD i 0 < b.data.getD i 0) ∧
          (0 < TensorLayoutCompare a b ↔ b.data.getD i 0 < a.data.getD i 0))) ∧
    (∀ a2 b2 : TensorLayout_t, a2.Valid → b2.Valid → a2.rank = a.rank → b2.rank = b.rank →
      a2.labels = a.labels → b2.labels = b.labels →
        TensorLayoutCompare a2 b2 = TensorLayoutCompare a b) := by
  obtain ⟨hla, ha0, ha1⟩ := id ha
  have ha15 : a.rank ≤ 15 := ha1
  have hsz : toSizeT a.rank = a.rank.toNat := toSizeT_of_nonneg _ ha0 (by omega)
  refine ⟨fun hne => by simp only [TensorLayoutCompare, if_neg hne], fun hr => ⟨?_, ?_⟩, ?_⟩
  · simp only [TensorLayoutCompare, if_pos hr, hsz]
    rw [memcmp_eq_zero_iff, labels_eq_iff_cells a b ha hb hr]
  · intro i hi hpre hne
    have hval : TensorLayoutCompare a b = (a.data.getD i 0 : Int) - (b.data.getD i 0 : Int) := by
      simp only [TensorLayoutCompare, if_pos hr, hsz]
      have := memcmp_first_diff a.rank.toNat (cells a.data 0) (cells b.data 0) i (by omega)
        (fun j hj => by simpa [cells] using hpre j hj) (by simpa [cells] using hne)
      simpa [cells] using this
    rw [hval]
    omega
  · intro a2 b2 ha2 hb2 hra hrb hlab hlbb
    by_cases hr : a.rank = b.rank
    · simp only [TensorLayoutCompare, hra, hrb, if_pos hr]
      apply memcmp_congr
      · intro i hi
        rw [hsz] at hi
        exact (labels_eq_iff_cells a2 a ha2 ha hra).mp hlab i (by rw [hra]; exact hi)
      · intro i hi
        rw [hsz] at hi
        exact (labels_eq_iff_cells b2 b hb2 hb hrb).mp hlbb i (by rw [hrb, ← hr]; exact hi)
    · simp only [TensorLayoutCompare, hra, hrb, if_neg hr]

theorem TensorLayoutCompare_spec_witness :
    (layoutNCHW.Valid ∧ layoutNHWC.Valid) ∧
    (layoutNCHW.rank = layoutNHWC.rank →
      (TensorLayoutCompare layoutNCHW layoutNHWC = 0 ↔ layoutNCHW.labels = layoutNHWC.labels) ∧
      (∀ i : Nat, (i : Int) < layoutNCHW.rank →
        (∀ j, j < i → layoutNCHW.data.getD j 0 = layoutNHWC.data.getD j 0) →
        layoutNCHW.data.getD i 0 ≠ layoutNHWC.data.getD i 0 →
          (TensorLayoutCompare layoutNCHW layoutNHWC < 0 ↔
            layoutNCHW.data.getD i 0 < layoutNHWC.data.getD i 0) ∧
          (0 < TensorLayoutCompare layoutNCHW layoutNHWC ↔
            layoutNHWC.data.getD i 0 < layoutNCHW.data.getD i 0))) ∧
    TensorLayoutCompare layoutNCHW layoutNHWC < 0 ∧
    TensorLayoutCompare layoutHW layoutNCHW = -2 :=
  ⟨by decide,
   (TensorLayoutCompare_spec layoutNCHW layoutNHWC (by decide) (by decide)).2.1,
   by decide, by decide⟩

theorem TensorLayoutCompare_swap (A B : TensorLayout_t) :
    TensorLayoutCompare A B = -(TensorLayoutCompare B A) := by
  by_cases hr : A.rank = B.rank
  · have hr2 : B.rank = A.rank := hr.symm
    simp only [TensorLayoutCompare, if_pos hr, if_pos hr2, hr]
    exact memcmp_antisymm _ _ _
  · have hr2 : ¬ (B.rank = A.rank) := fun e => hr e.symm
    simp only [TensorLayoutCompare, if_neg hr, if_neg hr2]
    omega

theorem TensorLayoutCompare_self (A : TensorLayout_t) : TensorLayoutCompare A A = 0 := by
  simp only [TensorLayoutCompare, if_true]
  rw [memcmp_eq_zero_iff]
  intro i _
  rfl

/-- C12.  For valid layouts `A`, `B`: `compare(A, B) = -compare(B, A)` and
`compare(A, A) = 0`. -/
theorem TensorLayoutCompare_antisymm (A B : TensorLayout_t) (_ : A.Valid) (_ : B.Valid) :
    TensorLayoutCompare A B = -(TensorLayoutCompare B A) ∧ TensorLayoutCompare A A = 0 :=
  ⟨TensorLayoutCompare_swap A B, TensorLayoutCompare_self A⟩

theorem TensorLayoutCompare_antisymm_witness :
    (layoutNCHW.Valid ∧ layoutHW.Valid) ∧
    TensorLayoutCompare layoutNCHW layoutHW = -(TensorLayoutCompare layoutHW layoutNCHW) ∧
    TensorLayoutCompare layoutNCHW layoutNCHW = 0 :=
  ⟨by decide, TensorLayoutCompare_antisymm layoutNCHW layoutHW (by decide) (by decide)⟩

/-- C13.  For a valid layout `L`, `IsChannelLast(L)` is true iff `L.rank = 0` or the label at
index `-1`, `TensorLayoutGetLabel(L, -1)`, is `'C'`. -/
theorem IsChannelLast_iff (L : TensorLayout_t) (hL : L.Valid) :
    IsChannelLast L = true ↔
      TensorLayoutGetNumDim L = 0 ∨ TensorLayoutGetLabel L (-1) = TLABEL_CHANNEL := by
  obtain ⟨-, h0, -⟩ := hL
  have hneg : ((-1 : Int) < 0) := by omega
  by_cases hr : L.rank = 0
  · simp [IsChannelLast, TensorLayoutGetNumDim, hr]
  · have hc : 0 ≤ L.rank + -1 ∧ L.rank + -1 < L.rank := by omega
    have e : L.rank + -1 = L.rank - 1 := by omega
    unfold TensorLayoutGetLabel
    rw [if_pos hneg, if_pos hc, e]
    simp only [IsChannelLast, TensorLayoutGetNumDim, Bool.or_eq_true, beq_iff_eq, hr, false_or]

theorem IsChannelLast_iff_witness :
    layoutNHWC.Valid ∧
    (IsChannelLast layoutNHWC = true ↔
      TensorLayoutGetNumDim layoutNHWC = 0 ∨
        TensorLayoutGetLabel layoutNHWC (-1) = TLABEL_CHANNEL) ∧
    IsChannelLast layoutNHWC = true ∧ IsChannelLast layoutNCHW = false ∧
    IsChannelLast TENSOR_NONE = true :=
  ⟨by decide, IsChannelLast_iff layoutNHWC (by decide), by decide, by decide, by decide⟩

/-! ## Slices that rebuild the layout -/

/-- C14.  For a valid layout `L` of rank `r` and `0 ≤ n ≤ r`: the labels of `CreateFirst(L, n)`
followed by the labels of `CreateLast(L, r - n)` are the labels of `L`, and the two ranks sum
to `r`.  (Both calls return at call depth 1.) -/
theorem CreateFirst_append_CreateLast (fuel : Nat) (out1 out2 L : TensorLayout_t) (n : Int)
    (hfuel : 1 ≤ fuel) (hL : L.Valid) (hn0 : 0 ≤ n) (hn : n ≤ TensorLayoutGetNumDim L) :
    ∃ first last, CreateFirst fuel out1 L n = some first ∧
      CreateLast fuel out2 L (TensorLayoutGetNumDim L - n) = some last ∧
      first.labels ++ last.labels = L.labels ∧
      TensorLayoutGetNumDim first + TensorLayoutGetNumDim last = TensorLayoutGetNumDim L := by
  obtain ⟨k, rfl⟩ := Nat.exists_eq_add_of_le hfuel
  have hfk : 1 + k = k + 1 := by omega
  rw [hfk]
  obtain ⟨hlen, h0, h1⟩ := id hL
  have h15 : L.rank ≤ 15 := h1
  have hnr : n ≤ L.rank := hn
  have hm1 : min n L.rank = n := by omega
  have hm2 : min (L.rank - n) L.rank = L.rank - n := by omega
  have hs1 : toSizeT n = n.toNat := toSizeT_of_nonneg _ hn0 (by omega)
  have hs2 : toSizeT (L.rank - n) = (L.rank - n).toNat :=
    toSizeT_of_nonneg _ (by omega) (by omega)
  have hc1 : n = ((n.toNat : Nat) : Int) := by omega
  have hc2 : L.rank - n = (((L.rank - n).toNat : Nat) : Int) := by omega
  have hoff : (L.rank - (L.rank - n)).toNat = n.toNat := by congr 1; omega
  have hf : CreateFirst (k + 1) out1 L n =
      some { data := memcpy out1.data (cells L.data 0) n.toNat, rank := n } := by
    rw [CreateFirst_of_nonneg _ out1 L n hn0, hm1, hs1]
  have hl : CreateLast (k + 1) out2 L (TensorLayoutGetNumDim L - n) =
      some { data := memcpy out2.data (cells L.data n.toNat) (L.rank - n).toNat,
             rank := L.rank - n } := by
    show CreateLast (k + 1) out2 L (L.rank - n) = _
    rw [CreateLast_of_nonneg _ out2 L (L.rank - n) (by omega), hm2, hs2, hoff]
  refine ⟨_, _, hf, hl, ?_, ?_⟩
  · have l1 := labels_of_memcpy out1 L 0 n.toNat hL (by omega)
    have l2 := labels_of_memcpy out2 L n.toNat (L.rank - n).toNat hL (by omega)
    rw [← hc1] at l1
    rw [← hc2] at l2
    have hlen2 := labels_length L hL
    have e2 : List.take (L.rank - n).toNat (List.drop n.toNat L.labels)
        = List.drop n.toNat L.labels :=
      List.take_of_length_le (by rw [List.length_drop, hlen2]; omega)
    rw [l1, l2, List.drop_zero, e2]
    exact List.take_append_drop _ _
  · show n + (L.rank - n) = L.rank
    omega

theorem CreateFirst_append_CreateLast_witness :
    (1 ≤ 1 ∧ layoutNCHW.Valid ∧ (0 : Int) ≤ 1 ∧ (1 : Int) ≤ TensorLayoutGetNumDim layoutNCHW) ∧
    ∃ first last, CreateFirst 1 TENSOR_NONE layoutNCHW 1 = some first ∧
      CreateLast 1 layoutHW layoutNCHW (TensorLayoutGetNumDim layoutNCHW - 1) = some last ∧
      first.labels ++ last.labels = layoutNCHW.labels ∧
      TensorLayoutGetNumDim first + TensorLayoutGetNumDim last
        = TensorLayoutGetNumDim layoutNCHW :=
  ⟨by decide,
   CreateFirst_append_CreateLast 1 TENSOR_NONE layoutHW layoutNCHW 1 (by decide) (by decide)
     (by decide) (by decide)⟩

/-- C15.  For a valid layout `L`, `CreateSubRange(L, 0, L.rank)` equals `L`: same rank, same
labels, `TensorLayoutCompare` gives `0` and `operator==` holds. -/
theorem CreateSubRange_full (out L : TensorLayout_t) (hL : L.Valid) :
    TensorLayoutGetNumDim (CreateSubRange out L 0 (TensorLayoutGetNumDim L))
      = TensorLayoutGetNumDim L ∧
    (CreateSubRange out L 0 (TensorLayoutGetNumDim L)).labels = L.labels ∧
    TensorLayoutCompare (CreateSubRange out L 0 (TensorLayoutGetNumDim L)) L = 0 ∧
    (CreateSubRange out L 0 (TensorLayoutGetNumDim L)).eq L = true := by
  obtain ⟨hlen, h0, h1⟩ := id hL
  have h15 : L.rank ≤ 15 := h1
  have hb : CreateSubRange.clamp L 0 = 0 := by
    simp only [CreateSubRange.clamp]; omega
  have he : CreateSubRange.clamp L L.rank = L.rank := by
    simp only [CreateSubRange.clamp, if_neg (not_lt.mpr h0)]; omega
  have hsz : toSizeT L.rank = L.rank.toNat := toSizeT_of_nonneg _ h0 (by omega)
  have hcast : L.rank = ((L.rank.toNat : Nat) : Int) := by omega
  by_cases hpos : L.rank > 0
  · have hval : CreateSubRange out L 0 (TensorLayoutGetNumDim L) =
        { data := memcpy out.data (cells L.data 0) L.rank.toNat, rank := L.rank } := by
      have hpos2 : L.rank - 0 > 0 := by omega
      simp only [CreateSubRange, TensorLayoutGetNumDim, hb, he, if_pos hpos2]
      simp [hsz]
    have hlab := labels_of_memcpy out L 0 L.rank.toNat hL (by omega)
    rw [← hcast] at hlab
    have hcmp : TensorLayoutCompare
        { data := memcpy out.data (cells L.data 0) L.rank.toNat, rank := L.rank } L = 0 := by
      simp only [TensorLayoutCompare, if_true, hsz]
      rw [memcmp_eq_zero_iff]
      intro i hi
      simp only [cells, Nat.zero_add, List.getD_eq_getElem?_getD,
        memcpy_getElem?_lt _ _ _ _ hi, Option.getD_some]
    rw [hval]
    refine ⟨rfl, ?_, hcmp, ?_⟩
    · rw [hlab, List.drop_zero]
      apply List.take_of_length_le
      rw [labels_length L hL]
    · simp only [TensorLayout_t.eq, hcmp, beq_self_eq_true]
  · have hz : L.rank = 0 := by omega
    have hval : CreateSubRange out L 0 (TensorLayoutGetNumDim L) =
        { data := out.data, rank := 0 } := by
      have hpos2 : ¬ (L.rank - 0 > 0) := by omega
      simp only [CreateSubRange, TensorLayoutGetNumDim, hb, he, if_neg hpos2]
    have hcmp : TensorLayoutCompare { data := out.data, rank := 0 } L = 0 := by
      have hz0 : toSizeT 0 = 0 := rfl
      simp only [TensorLayoutCompare, hz, if_true, hz0, memcmp]
    rw [hval]
    refine ⟨by show (0 : Int) = L.rank; omega, ?_, hcmp, ?_⟩
    · simp [TensorLayout_t.labels, hz]
    · simp only [TensorLayout_t.eq, hcmp, beq_self_eq_true]

theorem CreateSubRange_full_witness :
    layoutNCHW.Valid ∧
    TensorLayoutGetNumDim (CreateSubRange layoutHW layoutNCHW 0 (TensorLayoutGetNumDim layoutNCHW))
      = TensorLayoutGetNumDim layoutNCHW ∧
    (CreateSubRange layoutHW layoutNCHW 0 (TensorLayoutGetNumDim layoutNCHW)).labels
      = layoutNCHW.labels ∧
    TensorLayoutCompare (CreateSubRange layoutHW layoutNCHW 0 (TensorLayoutGetNumDim layoutNCHW))
      layoutNCHW = 0 ∧
    (CreateSubRange layoutHW layoutNCHW 0 (TensorLayoutGetNumDim layoutNCHW)).eq layoutNCHW
      = true :=
  ⟨by decide, CreateSubRange_full layoutHW layoutNCHW (by decide)⟩

/-! ## `Shape`: indexing and construction -/

/-- C17.  For every `Shape` `s` and integer `i`: the bounds check of `s[i]` passes iff
`0 ≤ i < s.rank()`, the logical rank; when it passes, `s[i]` is cell `i` of the stored sizes,
and otherwise the assertion fails. -/
theorem Shape_get_spec (s : Shape) (i : Int) :
    ((∃ v, s.get i = .ok v) ↔ 0 ≤ i ∧ i < s.rank) ∧
    (0 ≤ i ∧ i < s.rank → s.get i = .ok (s.data_.getD i.toNat 0)) ∧
    (¬ (0 ≤ i ∧ i < s.rank) → s.get i = .error .assertFailed) := by
  have hpass : 0 ≤ i ∧ i < s.rank → s.get i = .ok (s.data_.getD i.toNat 0) := by
    intro h
    have h2 : 0 ≤ i ∧ i < s.size_ := h
    simp only [Shape.get, if_pos h2]
  have hfail : ¬ (0 ≤ i ∧ i < s.rank) → s.get i = .error .assertFailed := by
    intro h
    have h2 : ¬ (0 ≤ i ∧ i < s.size_) := h
    simp only [Shape.get, if_neg h2]
  refine ⟨⟨fun ⟨v, hv⟩ => ?_, fun h => ⟨_, hpass h⟩⟩, hpass, hfail⟩
  by_contra hn
  rw [hfail hn] at hv
  cases hv

theorem Shape_get_spec_witness :
    shapeHW45.shape.get 1 = .ok 5 ∧ shapeHW45.shape.get 5 = .error .assertFailed ∧
    shapeHW45.shape.get (-1) = .error .assertFailed :=
  ⟨(Shape_get_spec shapeHW45.shape 1).2.1 (by decide),
   (Shape_get_spec shapeHW45.shape 5).2.2 (by decide),
   (Shape_get_spec shapeHW45.shape (-1)).2.2 (by decide)⟩

/-- The rank invariant on the constructors that check, or cannot break, it: the default
constructor gives rank `0`; the constructor from a buffer and a count gives a rank within
`0..15` when it succeeds; the sized constructor keeps a size within `0..15`; a copy has the
rank of its source. -/
theorem Shape_rank_invariant_checked (storage : List Int) :
    (Shape.default storage).rank = 0 ∧
    (∀ (data : Option (List Int)) (n : Nat) (s : Shape), Shape.ofData storage data n = .ok s →
      0 ≤ s.rank ∧ s.rank ≤ TENSOR_MAX_RANK) ∧
    (∀ size : Int, 0 ≤ size → size ≤ TENSOR_MAX_RANK →
      ∃ s, Shape.sized storage size = .ok s ∧ s.rank = size) ∧
    (∀ that : Shape, (Shape.copy storage that).rank = that.rank) := by
  refine ⟨rfl, ?_, fun size h0 h1 => ⟨_, Shape.sized_of_range storage size h0 h1, rfl⟩,
    fun _ => rfl⟩
  intro data n s h
  cases data with
  | none => simp [Shape.ofData] at h
  | some cellsOfData =>
    by_cases hn : n > TENSOR_MAX_RANK
    · simp [Shape.ofData, hn] at h
    · simp only [Shape.ofData, if_neg hn] at h
      have hs := Except.ok.inj h
      subst hs
      show (0 : Int) ≤ (n : Int) ∧ (n : Int) ≤ TENSOR_MAX_RANK
      omega

/-- C19.  `Shape(data, n)` raises `InvalidArgument` iff `data` is null or `n > 15`; otherwise
the shape has `rank() = n` and element `i` equal to `data[i]` for every `i < n`. -/
theorem Shape_ofData_spec (storage : List Int) (data : Option (List Int)) (n : Nat) :
    (Shape.ofData storage data n = .error invalidArgument ↔ data = none ∨ n > TENSOR_MAX_RANK) ∧
    (∀ cellsOfData, data = some cellsOfData → ¬ n > TENSOR_MAX_RANK →
      ∃ s, Shape.ofData storage data n = .ok s ∧ s.rank = n ∧
        ∀ i : Nat, i < n → s.get i = .ok (cellsOfData.getD i 0)) := by
  cases data with
  | none =>
    exact ⟨⟨fun _ => Or.inl rfl, fun _ => rfl⟩, fun c h => by cases h⟩
  | some cellsOfData =>
    by_cases hn : n > TENSOR_MAX_RANK
    · have herr : Shape.ofData storage (some cellsOfData) n = .error invalidArgument := by
        simp only [Shape.ofData, if_pos hn]
      exact ⟨⟨fun _ => Or.inr hn, fun _ => herr⟩, fun c _ h => absurd hn h⟩
    · have hok : Shape.ofData storage (some cellsOfData) n =
          .ok ⟨memcpy storage (fun i => cellsOfData.getD i 0) n, n⟩ := by
        simp only [Shape.ofData, if_neg hn]
      refine ⟨⟨fun h => ?_, fun h => ?_⟩, fun c hc _ => ⟨_, hok, rfl, fun i hi => ?_⟩⟩
      · rw [hok] at h; cases h
      · rcases h with h | h
        · cases h
        · exact absurd h hn
      · cases hc
        have hir : (0 : Int) ≤ i ∧ (i : Int) < ((n : Nat) : Int) := by omega
        simp only [Shape.get, if_pos hir, Int.toNat_ofNat, List.getD_eq_getElem?_getD,
          memcpy_getElem?_lt _ _ _ _ hi, Option.getD_some]

theorem Shape_ofData_spec_witness :
    (∃ s, Shape.ofData zeroStorage (some [2, 3, 4]) 3 = .ok s ∧ s.rank = (3 : Nat) ∧
      ∀ i : Nat, i < 3 → s.get i = .ok (([2, 3, 4] : List Int).getD i 0)) ∧
    Shape.ofData zeroStorage none 3 = .error invalidArgument ∧
    Shape.ofData zeroStorage (some [2, 3, 4]) 16 = .error invalidArgument :=
  ⟨(Shape_ofData_spec zeroStorage (some [2, 3, 4]) 3).2 [2, 3, 4] rfl (by decide),
   (Shape_ofData_spec zeroStorage none 3).1.mpr (Or.inl rfl),
   (Shape_ofData_spec zeroStorage (some [2, 3, 4]) 16).1.mpr (Or.inr (by decide))⟩

/-! ## `ITensorData::shape(int)` -/

/-- C20.  For a view with record rank `r` and an integer `d`: `shape(d)` raises
`InvalidArgument` iff `d < 0` or `d ≥ r`; otherwise it returns cell `d` of the record's shape
array; in both cases the object (record and shape cache) is as before the call. -/
theorem ITensorData_shapeAt_spec (self : ITensorData) (d : Int) :
    ((self.shapeAt d).1 = .error invalidArgument ↔ d < 0 ∨ d ≥ self.data_.rank) ∧
    (¬ (d < 0 ∨ d ≥ self.data_.rank) →
      (self.shapeAt d).1 = .ok (self.data_.shape.getD d.toNat 0)) ∧
    (self.shapeAt d).2 = self := by
  by_cases h : d < 0 ∨ d ≥ self.data_.rank
  · have hv : self.shapeAt d = (.error invalidArgument, self) := by
      simp only [ITensorData.shapeAt, ITensorData.cdataConst, if_pos h]
    rw [hv]
    exact ⟨⟨fun _ => h, fun _ => rfl⟩, fun hn => absurd h hn, rfl⟩
  · have hv : self.shapeAt d = (.ok (self.data_.shape.getD d.toNat 0), self) := by
      simp only [ITensorData.shapeAt, ITensorData.cdataConst, if_neg h]
    rw [hv]
    refine ⟨⟨fun he => ?_, fun hc => absurd hc h⟩, fun _ => rfl, rfl⟩
    cases he

theorem ITensorData_shapeAt_spec_witness :
    ((ITensorData.ofData recordHW45 ⟨Shape.default zeroStorage, TENSOR_NONE⟩).shapeAt 1).1
      = .ok 5 ∧
    ((ITensorData.ofData recordHW45 ⟨Shape.default zeroStorage, TENSOR_NONE⟩).shapeAt 2).1
      = .error invalidArgument :=
  ⟨(ITensorData_shapeAt_spec (ITensorData.ofData recordHW45 ⟨Shape.default zeroStorage, TENSOR_NONE⟩)
      1).2.1 (by decide),
   (ITensorData_shapeAt_spec (ITensorData.ofData recordHW45 ⟨Shape.default zeroStorage, TENSOR_NONE⟩)
      2).1.mpr (by decide)⟩

/-! ## The order of `TensorShape` -/

theorem lexicographical_compare_irrefl : ∀ l : List Int, lexicographical_compare l l = false
  | [] => rfl
  | a :: as => by
    have := lexicographical_compare_irrefl as
    simp [lexicographical_compare, this]

theorem lexicographical_compare_trans : ∀ a b c : List Int,
    lexicographical_compare a b = true → lexicographical_compare b c = true →
      lexicographical_compare a c = true
  | [], [], _, h1, _ => by simp [lexicographical_compare] at h1
  | [], _ :: _, [], _, h2 => by simp [lexicographical_compare] at h2
  | [], _ :: _, _ :: _, _, _ => by simp [lexicographical_compare]
  | _ :: _, [], _, h1, _ => by simp [lexicographical_compare] at h1
  | _ :: _, _ :: _, [], _, h2 => by simp [lexicographical_compare] at h2
  | x :: xs, y :: ys, z :: zs, h1, h2 => by
    have ih := lexicographical_compare_trans xs ys zs
    simp only [lexicographical_compare] at h1 h2 ⊢
    split_ifs at h1 h2 ⊢ <;> first | rfl | omega | exact ih h1 h2

theorem lexicographical_compare_total : ∀ a b : List Int,
    lexicographical_compare a b = false → lexicographical_compare b a = false → a = b
  | [], [], _, _ => rfl
  | [], _ :: _, h1, _ => by simp [lexicographical_compare] at h1
  | _ :: _, [], _, h2 => by simp [lexicographical_compare] at h2
  | x :: xs, y :: ys, h1, h2 => by
    have ih := lexicographical_compare_total xs ys
    simp only [lexicographical_compare] at h1 h2
    split_ifs at h1 h2
    have hxy : x = y := by omega
    rw [hxy, ih h1 h2]

theorem lexicographical_compare_asymm (a b : List Int)
    (h : lexicographical_compare a b = true) : lexicographical_compare b a = false := by
  cases hb : lexicographical_compare b a with
  | false => rfl
  | true =>
    have := lexicographical_compare_trans a b a h hb
    rw [lexicographical_compare_irrefl] at this
    cases this

theorem memcmp_lt_trans : ∀ (n : Nat) (a b c : Nat → Nat),
    memcmp a b n < 0 → memcmp b c n < 0 → memcmp a c n < 0 := by
  intro n
  induction n with
  | zero => intro a b c h; simp [memcmp] at h
  | succ n ih =>
    intro a b c h1 h2
    unfold memcmp at h1 h2 ⊢
    split_ifs at h1 h2 ⊢ <;> first | omega | exact ih _ _ _ h1 h2

theorem TensorLayoutCompare_lt_trans (a b c : TensorLayout_t)
    (h1 : TensorLayoutCompare a b < 0) (h2 : TensorLayoutCompare b c < 0) :
    TensorLayoutCompare a c < 0 := by
  by_cases hab : a.rank = b.rank
  · by_cases hbc : b.rank = c.rank
    · have hac : a.rank = c.rank := hab.trans hbc
      simp only [TensorLayoutCompare, if_pos hab] at h1
      simp only [TensorLayoutCompare, if_pos hbc] at h2
      rw [← hab] at h2
      simp only [TensorLayoutCompare, if_pos hac]
      exact memcmp_lt_trans _ _ _ _ h1 h2
    · have hac : ¬ (a.rank = c.rank) := by omega
      simp only [TensorLayoutCompare, if_neg hbc] at h2
      simp only [TensorLayoutCompare, if_neg hac]
      omega
  · simp only [TensorLayoutCompare, if_neg hab] at h1
    by_cases hbc : b.rank = c.rank
    · have hac : ¬ (a.rank = c.rank) := by omega
      simp only [TensorLayoutCompare, if_neg hac]
      omega
    · simp only [TensorLayoutCompare, if_neg hbc] at h2
      have hac : ¬ (a.rank = c.rank) := by omega
      simp only [TensorLayoutCompare, if_neg hac]
      omega

theorem Shape.elems_length (s : Shape) (hs : s.Valid) : s.elems.length = s.size_.toNat := by
  obtain ⟨hlen, h0, h1⟩ := hs
  have h15 : s.size_ ≤ 15 := h1
  have hl15 : s.data_.length = 15 := hlen
  simp [Shape.elems]
  omega

theorem Shape.elems_getElem? (s : Shape) (hs : s.Valid) (i : Nat) (hi : i < s.size_.toNat) :
    s.elems[i]? = some (s.data_.getD i 0) := by
  obtain ⟨hlen, h0, h1⟩ := hs
  have h15 : s.size_ ≤ 15 := h1
  have hl15 : s.data_.length = 15 := hlen
  have hil : i < s.data_.length := by omega
  simp [Shape.elems, List.getElem?_take_of_lt hi, List.getElem?_eq_getElem hil]

/-- On valid shapes `operator==` is equality of the element ranges. -/
theorem Shape.eq_iff_elems (s t : Shape) (hs : s.Valid) (ht : t.Valid) :
    s.eq t = true ↔ s.elems = t.elems := by
  have hls := Shape.elems_length s hs
  have hlt := Shape.elems_length t ht
  have hs0 : 0 ≤ s.size_ := hs.2.1
  have ht0 : 0 ≤ t.size_ := ht.2.1
  constructor
  · intro h
    by_cases hsz : s.size_ = t.size_
    · simp only [Shape.eq, if_pos hsz, List.all_eq_true, List.mem_range, beq_iff_eq] at h
      apply List.ext_getElem?
      intro i
      by_cases hi : i < s.size_.toNat
      · rw [Shape.elems_getElem? s hs i hi, Shape.elems_getElem? t ht i (by omega), h i hi]
      · rw [List.getElem?_eq_none (by omega), List.getElem?_eq_none (by omega)]
    · simp [Shape.eq, hsz] at h
  · intro h
    have hsz : s.size_ = t.size_ := by
      have := congrArg List.length h
      omega
    simp only [Shape.eq, if_pos hsz, List.all_eq_true, List.mem_range, beq_iff_eq]
    intro i hi
    have := congrArg (fun l => l[i]?) h
    simp only [Shape.elems_getElem? s hs i hi, Shape.elems_getElem? t ht i (by omega)] at this
    exact Option.some.inj this

theorem TensorShape.lt_iff (a b : TensorShape) :
    a.lt b = true ↔
      lexicographical_compare a.shape_.elems b.shape_.elems = true ∨
        (lexicographical_compare b.shape_.elems a.shape_.elems = false ∧
          TensorLayoutCompare a.layout_ b.layout_ < 0) := by
  simp [TensorShape.lt, Shape.lt, TensorLayout_t.lt]

theorem TensorShape.eq_iff (a b : TensorShape) (ha : a.Valid) (hb : b.Valid) :
    a.eq b = true ↔
      a.shape_.elems = b.shape_.elems ∧ TensorLayoutCompare a.layout_ b.layout_ = 0 := by
  simp [TensorShape.eq, TensorLayout_t.eq, Shape.eq_iff_elems _ _ ha.1 hb.1]

/-- C16.  On valid `TensorShape`s: `a < b` iff `sizes(a) < sizes(b)`, or the sizes are equal
and `layout(a) < layout(b)`; `<` is irreflexive and transitive; and exactly one of `a < b`,
`a == b`, `b < a` holds. -/
theorem TensorShape_lt_strict_total_order (a b c : TensorShape)
    (ha : a.Valid) (hb : b.Valid) (_ : c.Valid) :
    (a.lt b = true ↔
      a.shape.lt b.shape = true ∨ (a.shape.eq b.shape = true ∧ a.layout.lt b.layout = true)) ∧
    a.lt a = false ∧
    (a.lt b = true → b.lt c = true → a.lt c = true) ∧
    ((a.lt b = true ∧ a.eq b = false ∧ b.lt a = false) ∨
     (a.lt b = false ∧ a.eq b = true ∧ b.lt a = false) ∨
     (a.lt b = false ∧ a.eq b = false ∧ b.lt a = true)) := by
  have hswap := TensorLayoutCompare_swap a.layout_ b.layout_
  refine ⟨?_, ?_, ?_, ?_⟩
  · rw [TensorShape.lt_iff]
    show _ ↔ lexicographical_compare a.shape_.elems b.shape_.elems = true ∨
      (a.shape_.eq b.shape_ = true ∧ a.layout_.lt b.layout_ = true)
    rw [Shape.eq_iff_elems _ _ ha.1 hb.1]
    simp only [TensorLayout_t.lt, decide_eq_true_eq]
    constructor
    · rintro (h | ⟨h1, h2⟩)
      · exact Or.inl h
      · cases hab : lexicographical_compare a.shape_.elems b.shape_.elems with
        | true => exact Or.inl rfl
        | false => exact Or.inr ⟨lexicographical_compare_total _ _ hab h1, h2⟩
    · rintro (h | ⟨h1, h2⟩)
      · exact Or.inl h
      · exact Or.inr ⟨by rw [h1]; exact lexicographical_compare_irrefl _, h2⟩
  · cases h : a.lt a with
    | false => rfl
    | true =>
      rw [TensorShape.lt_iff, lexicographical_compare_irrefl, TensorLayoutCompare_self] at h
      rcases h with h | ⟨-, h⟩
      · cases h
      · omega
  · intro h1 h2
    rw [TensorShape.lt_iff] at h1 h2 ⊢
    rcases h1 with h1 | ⟨h1, l1⟩
    · rcases h2 with h2 | ⟨h2, -⟩
      · exact Or.inl (lexicographical_compare_trans _ _ _ h1 h2)
      · cases hbc : lexicographical_compare b.shape_.elems c.shape_.elems with
        | true => exact Or.inl (lexicographical_compare_trans _ _ _ h1 hbc)
        | false =>
          have e := lexicographical_compare_total _ _ hbc h2
          rw [← e]
          exact Or.inl h1
    · cases hab : lexicographical_compare a.shape_.elems b.shape_.elems with
      | true =>
        rcases h2 with h2 | ⟨h2, -⟩
        · exact Or.inl (lexicographical_compare_trans _ _ _ hab h2)
        · cases hbc : lexicographical_compare b.shape_.elems c.shape_.elems with
          | true => exact Or.inl (lexicographical_compare_trans _ _ _ hab hbc)
          | false =>
            have e := lexicographical_compare_total _ _ hbc h2
            rw [← e]
            exact Or.inl hab
      | false =>
        have e1 := lexicographical_compare_total _ _ hab h1
        rw [e1]
        rcases h2 with h2 | ⟨h2, l2⟩
        · exact Or.inl h2
        · exact Or.inr ⟨h2, TensorLayoutCompare_lt_trans _ _ _ l1 l2⟩
  · have hlt_ab := TensorShape.lt_iff a b
    have hlt_ba := TensorShape.lt_iff b a
    have heq := TensorShape.eq_iff a b ha hb
    have hf : ∀ x : Bool, x = false ↔ ¬ (x = true) := by intro x; cases x <;> simp
    rw [hf (a.lt b), hf (b.lt a), hf (a.eq b), hlt_ab, hlt_ba, heq]
    cases hab : lexicographical_compare a.shape_.elems b.shape_.elems with
    | true =>
      have hba := lexicographical_compare_asymm _ _ hab
      left
      refine ⟨Or.inl rfl, ?_, ?_⟩
      · rintro ⟨e, -⟩
        rw [e, lexicographical_compare_irrefl] at hab
        cases hab
      · rintro (h | ⟨h, -⟩)
        · rw [hba] at h; cases h
        · cases h
    | false =>
      cases hba : lexicographical_compare b.shape_.elems a.shape_.elems with
      | true =>
        right; right
        refine ⟨?_, ?_, Or.inl rfl⟩
        · rintro (h | ⟨h, -⟩)
          · cases h
          · cases h
        · rintro ⟨e, -⟩
          rw [e, lexicographical_compare_irrefl] at hba
          cases hba
      | false =>
        have e := lexicographical_compare_total _ _ hab hba
        rcases Int.lt_trichotomy (TensorLayoutCompare a.layout_ b.layout_) 0 with h | h | h
        · left
          refine ⟨Or.inr ⟨rfl, h⟩, ?_, ?_⟩
          · rintro ⟨-, h0⟩; omega
          · rintro (h' | ⟨-, h'⟩)
            · cases h'
            · omega
        · right; left
          refine ⟨?_, ⟨e, h⟩, ?_⟩
          · rintro (h' | ⟨-, h'⟩)
            · cases h'
            · omega
          · rintro (h' | ⟨-, h'⟩)
            · cases h'
            · omega
        · right; right
          refine ⟨?_, ?_, Or.inr ⟨rfl, by omega⟩⟩
          · rintro (h' | ⟨-, h'⟩)
            · cases h'
            · omega
          · rintro ⟨-, h0⟩; omega

theorem TensorShape_lt_strict_total_order_witness :
    (shapeHW45.Valid ∧ shapeNCHW2345.Valid) ∧
    shapeNCHW2345.lt shapeHW45 = true ∧
    shapeNCHW2345.lt shapeNCHW2345 = false ∧
    ((shapeNCHW2345.lt shapeHW45 = true ∧ shapeNCHW2345.eq shapeHW45 = false ∧
        shapeHW45.lt shapeNCHW2345 = false) ∨
     (shapeNCHW2345.lt shapeHW45 = false ∧ shapeNCHW2345.eq shapeHW45 = true ∧
        shapeHW45.lt shapeNCHW2345 = false) ∨
     (shapeNCHW2345.lt shapeHW45 = false ∧ shapeNCHW2345.eq shapeHW45 = false ∧
        shapeHW45.lt shapeNCHW2345 = true)) :=
  ⟨by decide, by decide,
   (TensorShape_lt_strict_total_order shapeNCHW2345 shapeHW45 shapeHW45
      (by decide) (by decide) (by decide)).2.1,
   (TensorShape_lt_strict_total_order shapeNCHW2345 shapeHW45 shapeHW45
      (by decide) (by decide) (by decide)).2.2.2⟩

/-! ## Strided views -/

/-- C21.  On a strided view whose record has rank `r`, for every integer `d`: `stride(d)`
raises `InvalidArgument` if and only if `d < 0` or `d >= r`; otherwise it returns entry `d` of
the stride array of the record; the view is unchanged; and `base()` is the base address of the
record. -/
theorem ITensorDataStrided_stride_base_spec (self : ITensorData) (d : Int) :
    ((ITensorDataStrided.stride self d).1 = .error invalidArgument ↔
      d < 0 ∨ d ≥ self.data_.rank) ∧
    (¬ (d < 0 ∨ d ≥ self.data_.rank) →
      (ITensorDataStrided.stride self d).1
        = .ok (self.data_.buffer.strided.strides.getD d.toNat 0)) ∧
    (ITensorDataStrided.stride self d).2 = self ∧
    ITensorDataStrided.base self = self.data_.buffer.strided.base := by
  by_cases h : d < 0 ∨ d ≥ self.data_.rank
  · have hv : ITensorDataStrided.stride self d = (.error invalidArgument, self) := by
      simp only [ITensorDataStrided.stride, ITensorData.cdataConst, if_pos h]
    rw [hv]
    exact ⟨⟨fun _ => h, fun _ => rfl⟩, fun hn => absurd h hn, rfl, rfl⟩
  · have hv : ITensorDataStrided.stride self d
        = (.ok (self.data_.buffer.strided.strides.getD d.toNat 0), self) := by
      simp only [ITensorDataStrided.stride, ITensorData.cdataConst, if_neg h]
    rw [hv]
    refine ⟨⟨fun he => ?_, fun hc => absurd hc h⟩, fun _ => rfl, rfl, rfl⟩
    cases he

theorem ITensorDataStrided_stride_base_spec_witness :
    (ITensorDataStrided.stride
        (ITensorData.ofData recordHW45 ⟨Shape.default zeroStorage, TENSOR_NONE⟩) 1).1 = .ok 4 ∧
    (ITensorDataStrided.stride
        (ITensorData.ofData recordHW45 ⟨Shape.default zeroStorage, TENSOR_NONE⟩) (-1)).1
      = .error invalidArgument :=
  ⟨(ITensorDataStrided_stride_base_spec
      (ITensorData.ofData recordHW45 ⟨Shape.default zeroStorage, TENSOR_NONE⟩) 1).2.1 (by decide),
   (ITensorDataStrided_stride_base_spec
      (ITensorData.ofData recordHW45 ⟨Shape.default zeroStorage, TENSOR_NONE⟩) (-1)).1.mpr
      (by decide)⟩

/-- Construction from cells succeeds when the size is within `0..15` and the layout is empty
or of that rank. -/
theorem TensorShape.ofData_isOk (storage cellsOfData : List Int) (size : Int)
    (layout : TensorLayout_t) (h0 : 0 ≤ size) (h1 : size ≤ 15)
    (hl : TensorLayoutCompare layout TENSOR_NONE = 0 ∨ size = TensorLayoutGetNumDim layout) :
    ∃ ts, TensorShape.ofData storage (some cellsOfData) size layout = .ok ts := by
  have hsz : toSizeT size = size.toNat := toSizeT_of_nonneg _ h0 (by omega)
  have hbig : ¬ (size.toNat > TENSOR_MAX_RANK) := by unfold TENSOR_MAX_RANK; omega
  have hcast : ((size.toNat : Nat) : Int) = size := by omega
  have hc : ¬ (¬ (TensorLayoutCompare layout TENSOR_NONE = 0) ∧
      (Shape.copy storage ⟨memcpy storage (fun i => cellsOfData.getD i 0) size.toNat,
        (size.toNat : Nat)⟩).rank ≠ TensorLayoutGetNumDim layout) := by
    rintro ⟨hne, hr⟩
    rcases hl with hl | hl
    · exact hne hl
    · apply hr
      show ((size.toNat : Nat) : Int) = _
      rw [hcast]; exact hl
  refine ⟨⟨Shape.copy storage ⟨memcpy storage (fun i => cellsOfData.getD i 0) size.toNat,
    (size.toNat : Nat)⟩, layout⟩, ?_⟩
  simp only [TensorShape.ofData, Shape.ofData, hsz, if_neg hbig, TensorShape.ofShape]
  exact if_neg hc

/-- The cells of the record written by the constructor of `TensorDataStridedCuda`. -/
theorem TensorDataStridedCuda.shape_getD (uninit : TensorData_t) (cacheStorage ts : TensorShape)
    (t : Nat) (b : TensorBufferStrided_t) (i : Nat) (hi : i < ts.shape_.size_.toNat) :
    (TensorDataStridedCuda.ofShape uninit cacheStorage ts t b).data_.shape.getD i 0
      = ts.shape_.data_.getD i 0 := by
  show (memcpy uninit.shape (fun i => ts.shape_.data_.getD i 0) ts.shape_.size_.toNat).getD i 0 = _
  rw [List.getD_eq_getElem?_getD, memcpy_getElem?_lt _ _ _ _ hi, Option.getD_some]

/-- The shape reported by a freshly constructed `TensorDataStridedCuda`. -/
theorem TensorDataStridedCuda.shape_spec (uninit : TensorData_t) (cacheStorage ts : TensorShape)
    (t : Nat) (b : TensorBufferStrided_t) (hts : ts.Valid)
    (hinv : TensorLayoutCompare ts.layout TENSOR_NONE = 0 ∨
      ts.rank = TensorLayoutGetNumDim ts.layout) :
    ∃ s, (TensorDataStridedCuda.ofShape uninit cacheStorage ts t b).shape
        = (.ok s, { TensorDataStridedCuda.ofShape uninit cacheStorage ts t b with
                      cache_shape_ := ⟨true, s⟩ }) ∧
      s.layout = ts.layout ∧ s.eq ts = true := by
  obtain ⟨⟨_, h0, h15⟩, _⟩ := hts
  have h15 : ts.shape_.size_ ≤ 15 := h15
  have hrank : (TensorDataStridedCuda.ofShape uninit cacheStorage ts t b).data_.rank
      = ts.shape_.size_ := rfl
  have hlay : (TensorDataStridedCuda.ofShape uninit cacheStorage ts t b).data_.layout
      = ts.layout_ := rfl
  rcases ITensorData.shape_cases (TensorDataStridedCuda.ofShape uninit cacheStorage ts t b) with
    ⟨hv, _⟩ | ⟨_, ⟨s, hs, hshape⟩ | ⟨e, he, _⟩⟩
  · cases hv
  · rw [hrank, hlay] at hs
    obtain ⟨_, _, hr, hl, hget⟩ := TensorShape.ofData_ok _ _ _ _ _ hs
      (by unfold INT_MIN; omega) (by unfold INT_MAX; omega)
    refine ⟨s, hshape, hl, ?_⟩
    have hsz : s.shape_.size_ = ts.shape_.size_ := hr
    have hl2 : s.layout_ = ts.layout_ := hl
    have hcells : ∀ i : Nat, i < s.shape_.size_.toNat →
        s.shape_.data_.getD i 0 = ts.shape_.data_.getD i 0 := by
      intro i hi
      have hi2 : (i : Int) < ts.shape_.size_ := by omega
      have hg := hget i hi2
      have hc : 0 ≤ (i : Int) ∧ (i : Int) < s.shape_.size_ := ⟨by omega, by omega⟩
      rw [TensorShape.get, Shape.get, if_pos hc] at hg
      have hg2 := Except.ok.inj hg
      rw [Int.toNat_ofNat] at hg2
      rw [hg2]
      exact TensorDataStridedCuda.shape_getD uninit cacheStorage ts t b i (by omega)
    have hseq : s.shape_.eq ts.shape_ = true := by
      simp only [Shape.eq, hsz, if_true, List.all_eq_true, List.mem_range, beq_iff_eq]
      intro i hi
      exact hcells i (by omega)
    have hleq : s.layout_.eq ts.layout_ = true := by
      rw [hl2]
      simp [TensorLayout_t.eq, TensorLayoutCompare_self]
    simp [TensorShape.eq, hseq, hleq]
  · rw [hrank, hlay] at he
    obtain ⟨s, hs⟩ := TensorShape.ofData_isOk cacheStorage.shape_.data_
      (TensorDataStridedCuda.ofShape uninit cacheStorage ts t b).data_.shape
      ts.shape_.size_ ts.layout_ h0 h15 hinv
    have hcs : (TensorDataStridedCuda.ofShape uninit cacheStorage ts t b).cache_shape_.storage_
        = cacheStorage := rfl
    rw [hcs, hs] at he
    cases he

/-- C22.  For a valid `TensorShape` `ts` whose layout is empty or of the rank of `ts`, a dtype
`t` and a strided buffer `b`, the view `TensorDataStridedCuda(ts, t, b)` reports
`rank() = ts.rank()`; `shape()` returns a shape equal to `ts` under `operator==`; `layout()`
returns the layout of `ts`; for every `0 <= d < rank`, `shape(d)` returns `ts[d]` and
`stride(d)` returns `b.strides[d]`; `dtype() = t`; and `base() = b.base`: whatever the
record and the cache storage held before the construction. -/
theorem TensorDataStridedCuda_roundtrip (uninit : TensorData_t) (cacheStorage ts : TensorShape)
    (t : Nat) (b : TensorBufferStrided_t) (hts : ts.Valid)
    (hinv : TensorLayoutCompare ts.layout TENSOR_NONE = 0 ∨
      ts.rank = TensorLayoutGetNumDim ts.layout) :
    (TensorDataStridedCuda.ofShape uninit cacheStorage ts t b).rank = ts.rank ∧
    (∃ s, (TensorDataStridedCuda.ofShape uninit cacheStorage ts t b).shape.1 = .ok s ∧
      s.eq ts = true) ∧
    (TensorDataStridedCuda.ofShape uninit cacheStorage ts t b).layout.1 = .ok ts.layout ∧
    (∀ d : Int, 0 ≤ d → d < ts.rank →
      ((TensorDataStridedCuda.ofShape uninit cacheStorage ts t b).shapeAt d).1 = ts.get d ∧
      ts.get d = .ok (ts.shape.data_.getD d.toNat 0) ∧
      (ITensorDataStrided.stride (TensorDataStridedCuda.ofShape uninit cacheStorage ts t b) d).1
        = .ok (b.strides.getD d.toNat 0)) ∧
    (TensorDataStridedCuda.ofShape uninit cacheStorage ts t b).dtype = t ∧
    ITensorDataStrided.base (TensorDataStridedCuda.ofShape uninit cacheStorage ts t b) = b.base := by
  obtain ⟨s, hshape, hl, heq⟩ :=
    TensorDataStridedCuda.shape_spec uninit cacheStorage ts t b hts hinv
  refine ⟨rfl, ⟨s, by rw [hshape], heq⟩, ?_, ?_, rfl, rfl⟩
  · simp only [ITensorData.layout, hshape, hl]
  · intro d hd0 hd1
    have hd1 : d < ts.shape_.size_ := hd1
    have hc : ¬ (d < 0 ∨ d ≥ (TensorDataStridedCuda.ofShape uninit cacheStorage ts t b).data_.rank) := by
      have hrank : (TensorDataStridedCuda.ofShape uninit cacheStorage ts t b).data_.rank
          = ts.shape_.size_ := rfl
      rw [hrank]; omega
    have hg : ts.get d = .ok (ts.shape.data_.getD d.toNat 0) := by
      rw [TensorShape.get, Shape.get, if_pos ⟨hd0, hd1⟩]; rfl
    refine ⟨?_, hg, ?_⟩
    · rw [hg]
      simp only [ITensorData.shapeAt, ITensorData.cdataConst, if_neg hc]
      rw [TensorDataStridedCuda.shape_getD uninit cacheStorage ts t b d.toNat (by omega)]
      rfl
    · simp only [ITensorDataStrided.stride, ITensorData.cdataConst, if_neg hc]
      rfl

theorem TensorDataStridedCuda_roundtrip_witness :
    (TensorDataStridedCuda.ofShape recordHW45 shapeNCHW2345 shapeHW45 7 bufferHW).rank = 2 ∧
    (∃ s, (TensorDataStridedCuda.ofShape recordHW45 shapeNCHW2345 shapeHW45 7 bufferHW).shape.1
        = .ok s ∧ s.eq shapeHW45 = true) ∧
    (TensorDataStridedCuda.ofShape recordHW45 shapeNCHW2345 shapeHW45 7 bufferHW).layout.1
      = .ok layoutHW ∧
    ((TensorDataStridedCuda.ofShape recordHW45 shapeNCHW2345 shapeHW45 7 bufferHW).shapeAt 1).1
      = .ok 5 ∧
    (ITensorDataStrided.stride
      (TensorDataStridedCuda.ofShape recordHW45 shapeNCHW2345 shapeHW45 7 bufferHW) 1).1
      = .ok 4 ∧
    (TensorDataStridedCuda.ofShape recordHW45 shapeNCHW2345 shapeHW45 7 bufferHW).dtype = 7 ∧
    ITensorDataStrided.base
      (TensorDataStridedCuda.ofShape recordHW45 shapeNCHW2345 shapeHW45 7 bufferHW) = 4096 :=
  have h := TensorDataStridedCuda_roundtrip recordHW45 shapeNCHW2345 shapeHW45 7 bufferHW
    (by decide) (Or.inr (by decide))
  ⟨h.1, h.2.1, h.2.2.1,
   (h.2.2.2.1 1 (by decide) (by decide)).1.trans (h.2.2.2.1 1 (by decide) (by decide)).2.1,
   (h.2.2.2.1 1 (by decide) (by decide)).2.2, h.2.2.2.2.1, h.2.2.2.2.2⟩

/-! ## The rank of constructed layouts -/

theorem CreateLayout.copyLoop_fst_le (mem : Mem) (p : Nat) :
    ∀ (k i : Nat) (data : List Nat), (CreateLayout.copyLoop mem p k i data).1 ≤ i + k := by
  intro k
  induction k with
  | zero => intro i data; simp [CreateLayout.copyLoop]
  | succ k ih =>
    intro i data
    by_cases h : mem (p + i) ≠ 0
    · rw [CreateLayout.copyLoop, if_pos h]
      have := ih (i + 1) (data.set i (mem (p + i)))
      omega
    · rw [CreateLayout.copyLoop, if_neg h]
      show i ≤ i + (k + 1)
      omega

theorem CreateLayout_rank_bounds (mem : Mem) (descr : CharPtr) (out l : TensorLayout_t)
    (h : CreateLayout mem descr out = .ok l) : 0 ≤ l.rank ∧ l.rank ≤ 15 := by
  cases descr with
  | none =>
    have := Except.ok.inj h
    subst this
    exact ⟨le_refl _, by decide⟩
  | some p =>
    have hle := CreateLayout.copyLoop_fst_le mem p TENSOR_MAX_RANK 0 out.data
    have hle15 : (CreateLayout.copyLoop mem p TENSOR_MAX_RANK 0 out.data).1 ≤ 15 := by
      have h15 : 0 + TENSOR_MAX_RANK = 15 := rfl
      rw [h15] at hle; exact hle
    simp only [CreateLayout] at h
    split_ifs at h
    have := Except.ok.inj h
    subst this
    show 0 ≤ ((CreateLayout.copyLoop mem p TENSOR_MAX_RANK 0 out.data).1 : Int) ∧
      ((CreateLayout.copyLoop mem p TENSOR_MAX_RANK 0 out.data).1 : Int) ≤ 15
    omega

theorem CreateLayoutRange_rank_bounds (mem : Mem) (pbegin pend : CharPtr)
    (out l : TensorLayout_t) (h : CreateLayoutRange mem pbegin pend out = .ok l) :
    0 ≤ l.rank ∧ l.rank ≤ 15 := by
  cases pbegin with
  | none => cases pend <;> cases h
  | some b =>
    cases pend with
    | none => cases h
    | some e =>
      simp only [CreateLayoutRange] at h
      split_ifs at h with h1 h2
      have := Except.ok.inj h
      subst this
      show 0 ≤ (e : Int) - b ∧ (e : Int) - b ≤ 15
      unfold TENSOR_MAX_RANK at h2
      push_cast at h2
      omega

theorem CreateFirst_CreateLast_rank_le (out L : TensorLayout_t) (h0 : 0 ≤ L.rank) :
    ∀ (fuel : Nat) (n : Int) (l : TensorLayout_t),
      (CreateFirst fuel out L n = some l → 0 ≤ l.rank ∧ l.rank ≤ L.rank) ∧
      (CreateLast fuel out L n = some l → 0 ≤ l.rank ∧ l.rank ≤ L.rank) := by
  intro fuel
  induction fuel with
  | zero =>
    intro n l
    constructor
    · intro h; rw [CreateFirst] at h; cases h
    · intro h; rw [CreateLast] at h; cases h
  | succ fuel ih =>
    intro n l
    by_cases hn : 0 ≤ n
    · constructor
      · intro h
        rw [CreateFirst_of_nonneg fuel out L n hn] at h
        have := Option.some.inj h
        subst this
        show 0 ≤ min n L.rank ∧ min n L.rank ≤ L.rank
        omega
      · intro h
        rw [CreateLast_of_nonneg fuel out L n hn] at h
        have := Option.some.inj h
        subst this
        show 0 ≤ min n L.rank ∧ min n L.rank ≤ L.rank
        omega
    · constructor
      · intro h
        rw [CreateFirst_of_neg fuel out L n (by omega)] at h
        exact (ih _ l).2 h
      · intro h
        rw [CreateLast_of_neg fuel out L n (by omega)] at h
        exact (ih _ l).1 h

theorem CreateSubRange.clamp_bounds (L : TensorLayout_t) (idx : Int) (h0 : 0 ≤ L.rank) :
    0 ≤ CreateSubRange.clamp L idx ∧ CreateSubRange.clamp L idx ≤ L.rank := by
  unfold CreateSubRange.clamp
  split <;> omega

theorem CreateSubRange_rank_le (out L : TensorLayout_t) (begin_idx end_idx : Int)
    (h0 : 0 ≤ L.rank) :
    0 ≤ (CreateSubRange out L begin_idx end_idx).rank ∧
      (CreateSubRange out L begin_idx end_idx).rank ≤ L.rank := by
  have hb := CreateSubRange.clamp_bounds L begin_idx h0
  have he := CreateSubRange.clamp_bounds L end_idx h0
  by_cases h : CreateSubRange.clamp L end_idx - CreateSubRange.clamp L begin_idx > 0
  · have hr : (CreateSubRange out L begin_idx end_idx).rank
        = CreateSubRange.clamp L end_idx - CreateSubRange.clamp L begin_idx := by
      simp only [CreateSubRange, if_pos h]
    rw [hr]; omega
  · have hr : (CreateSubRange out L begin_idx end_idx).rank = 0 := by
      simp only [CreateSubRange, if_neg h]
    rw [hr]; omega

theorem CreateFirst_CreateLast_isSome (out L : TensorLayout_t) (n : Int) (hn : INT_MIN < n) :
    (CreateFirst 2 out L n).isSome = true ∧ (CreateLast 2 out L n).isSome = true := by
  by_cases h : 0 ≤ n
  · rw [CreateFirst_of_nonneg 1 out L n h, CreateLast_of_nonneg 1 out L n h]
    exact ⟨rfl, rfl⟩
  · have hw : 0 ≤ wrapInt32 (-n) := by
      unfold INT_MIN at hn
      unfold wrapInt32
      omega
    rw [CreateFirst_of_neg 1 out L n (by omega), CreateLast_of_neg 1 out L n (by omega),
      CreateFirst_of_nonneg 0 out L _ hw, CreateLast_of_nonneg 0 out L _ hw]
    exact ⟨rfl, rfl⟩

/-- C23.  Every layout returned by `CreateLayout(descr)` or `CreateLayout(begin, end)` has
`0 <= rank <= 15`, whatever the arguments.  For an input layout `L` with `0 <= rank(L) <= 15`
and any integer arguments, every layout returned by `CreateFirst`, `CreateLast` or
`CreateSubRange` has `0 <= rank <= 15` and a rank no larger than `rank(L)`.  (`CreateSubRange`
always returns; `CreateFirst` and `CreateLast` return within a chain of two calls for every
`n > INT_MIN`.) -/
theorem layout_construction_rank_invariant (mem : Mem) (descr pbegin pend : CharPtr)
    (out L l : TensorLayout_t) (fuel : Nat) (n begin_idx end_idx : Int)
    (hL0 : 0 ≤ L.rank) (hL1 : L.rank ≤ TENSOR_MAX_RANK) :
    (CreateLayout mem descr out = .ok l → 0 ≤ l.rank ∧ l.rank ≤ TENSOR_MAX_RANK) ∧
    (CreateLayoutRange mem pbegin pend out = .ok l → 0 ≤ l.rank ∧ l.rank ≤ TENSOR_MAX_RANK) ∧
    (CreateFirst fuel out L n = some l →
      0 ≤ l.rank ∧ l.rank ≤ TENSOR_MAX_RANK ∧ l.rank ≤ L.rank) ∧
    (CreateLast fuel out L n = some l →
      0 ≤ l.rank ∧ l.rank ≤ TENSOR_MAX_RANK ∧ l.rank ≤ L.rank) ∧
    (0 ≤ (CreateSubRange out L begin_idx end_idx).rank ∧
      (CreateSubRange out L begin_idx end_idx).rank ≤ TENSOR_MAX_RANK ∧
      (CreateSubRange out L begin_idx end_idx).rank ≤ L.rank) ∧
    (INT_MIN < n →
      (CreateFirst 2 out L n).isSome = true ∧ (CreateLast 2 out L n).isSome = true) := by
  have h15 : ((TENSOR_MAX_RANK : Nat) : Int) = 15 := rfl
  rw [h15] at hL1 ⊢
  refine ⟨CreateLayout_rank_bounds mem descr out l,
    CreateLayoutRange_rank_bounds mem pbegin pend out l, ?_, ?_, ?_,
    CreateFirst_CreateLast_isSome out L n⟩
  · intro h
    have := (CreateFirst_CreateLast_rank_le out L hL0 fuel n l).1 h
    omega
  · intro h
    have := (CreateFirst_CreateLast_rank_le out L hL0 fuel n l).2 h
    omega
  · have := CreateSubRange_rank_le out L begin_idx end_idx hL0
    omega

theorem layout_construction_rank_invariant_witness :
    ((0 : Int) ≤ layoutNCHW.rank ∧ layoutNCHW.rank ≤ TENSOR_MAX_RANK) ∧
    (0 ≤ (CreateSubRange layoutOfX layoutNCHW (-3) 3).rank ∧
      (CreateSubRange layoutOfX layoutNCHW (-3) 3).rank ≤ TENSOR_MAX_RANK ∧
      (CreateSubRange layoutOfX layoutNCHW (-3) 3).rank ≤ layoutNCHW.rank) ∧
    ((CreateFirst 2 layoutOfX layoutNCHW (-3)).isSome = true ∧
      (CreateLast 2 layoutOfX layoutNCHW (-3)).isSome = true) :=
  ⟨by decide,
   (layout_construction_rank_invariant memNCHW (some 0) (some 0) (some 2) layoutOfX layoutNCHW
      TENSOR_NONE 2 (-3) (-3) 3 (by decide) (by decide)).2.2.2.2.1,
   (layout_construction_rank_invariant memNCHW (some 0) (some 0) (some 2) layoutOfX layoutNCHW
      TENSOR_NONE 2 (-3) (-3) 3 (by decide) (by decide)).2.2.2.2.2 (by decide)⟩

/-! ## Requirements records -/

/-- C24, as stated: index 32 is not a valid index of `num_blocks`, and the array does not have
33 cells. -/
theorem MemRequirements_index_32_counterexample :
    ¬ MemRequirements_t.ValidIndex MAX_MEM_REQUIREMENTS_LOG2_BLOCK_SIZE ∧
    MemRequirements_t.numBlocksLength ≠ 33 ∧
    MAX_MEM_REQUIREMENTS_BLOCK_SIZE = 2 ^ 32 := by
  decide

/-- C24, with the declared number of cells.  The array `num_blocks` of a `MemRequirements_t`
has `MAX_MEM_REQUIREMENTS_LOG2_BLOCK_SIZE = 32` cells; the valid indices are `0..31`, the
`log2` of the block sizes `2^0 .. 2^31`; and `MAX_MEM_REQUIREMENTS_BLOCK_SIZE` is `2^32`,
whose `log2` is the first index past the array. -/
theorem MemRequirements_num_blocks_spec (k : Int) :
    MemRequirements_t.numBlocksLength = 32 ∧
    (MemRequirements_t.ValidIndex k ↔ 0 ≤ k ∧ k ≤ 31) ∧
    (MemRequirements_t.ValidIndex k → 2 ^ 0 ≤ 2 ^ k.toNat ∧ 2 ^ k.toNat ≤ 2 ^ 31) ∧
    MAX_MEM_REQUIREMENTS_BLOCK_SIZE = 2 ^ MemRequirements_t.numBlocksLength ∧
    ((MAX_MEM_REQUIREMENTS_LOG2_BLOCK_SIZE : Int) = MemRequirements_t.numBlocksLength) := by
  have hlen : ((MemRequirements_t.numBlocksLength : Nat) : Int) = 32 := rfl
  refine ⟨rfl, ?_, ?_, by decide, rfl⟩
  · unfold MemRequirements_t.ValidIndex
    rw [hlen]; omega
  · intro h
    unfold MemRequirements_t.ValidIndex at h
    rw [hlen] at h
    have hk : k.toNat ≤ 31 := by omega
    exact ⟨Nat.one_le_two_pow, Nat.pow_le_pow_right (by decide) hk⟩

theorem MemRequirements_num_blocks_spec_witness :
    MemRequirements_t.ValidIndex 31 ∧ (2 : Nat) ^ 0 ≤ 2 ^ (31 : Int).toNat ∧
      (2 : Nat) ^ (31 : Int).toNat ≤ 2 ^ 31 :=
  ⟨by decide, (MemRequirements_num_blocks_spec 31).2.2.1 (by decide)⟩

/-! ## The C entry points `TensorLayoutMake` and `TensorLayoutMakeRange` -/

/-- C25, failing: on success `TensorLayoutMake` and `TensorLayoutMakeRange` leave the record
behind `layout` as it was, for all arguments; with `descr = "NCHW"` and a record holding rank 7
and the label `'X'`, the record still has rank 7 and label `'X'` after the call, although
`CreateLayout("NCHW")` is the layout `NCHW`; likewise the member of `TensorLayout("NCHW")`. -/
theorem TensorLayoutMake_leaves_output_unwritten :
    (∀ (mem : Mem) (descr : CharPtr) (pointee out l : TensorLayout_t),
      TensorLayoutMake mem descr (some pointee) out = .ok l → l = pointee) ∧
    (∀ (mem : Mem) (pbegin pend : CharPtr) (pointee out l : TensorLayout_t),
      TensorLayoutMakeRange mem pbegin pend (some pointee) out = .ok l → l = pointee) ∧
    IsCStr memNCHW 0 4 ∧
    CreateLayout memNCHW (some 0) TENSOR_NONE = .ok layoutNCHW ∧
    CreateLayoutRange memNCHW (some 0) (some 4) TENSOR_NONE = .ok layoutNCHW ∧
    TensorLayoutMake memNCHW (some 0) (some layoutOfX) TENSOR_NONE = .ok layoutOfX ∧
    TensorLayoutMakeRange memNCHW (some 0) (some 4) (some layoutOfX) TENSOR_NONE
      = .ok layoutOfX ∧
    TensorLayout.ofDescr memNCHW (some 0) layoutOfX TENSOR_NONE = .ok layoutOfX ∧
    TensorLayoutGetNumDim layoutOfX = 7 ∧ TensorLayoutGetLabel layoutOfX 0 = 88 := by
  refine ⟨?_, ?_, by decide, by decide, by decide, by decide, by decide, by decide,
    by decide, by decide⟩
  · intro mem descr pointee out l h
    unfold TensorLayoutMake at h
    cases hc : CreateLayout mem descr out with
    | error e => rw [hc] at h; cases h
    | ok v => rw [hc] at h; exact (Except.ok.inj h).symm
  · intro mem pbegin pend pointee out l h
    unfold TensorLayoutMakeRange at h
    cases hc : CreateLayoutRange mem pbegin pend out with
    | error e => rw [hc] at h; cases h
    | ok v => rw [hc] at h; exact (Except.ok.inj h).symm

/-! ## `TensorLayoutGetLabel` -/

/-- C26.  For a valid layout `L` of rank `r` and every integer `idx`:
`TensorLayoutGetLabel(L, idx)` is `L[idx]` when `0 <= idx < r`, `L[r + idx]` when
`-r <= idx < 0`, and NUL otherwise; every position of `L.data` it reads lies in `[0, r)`, and
the result is the byte read, or NUL when nothing is read. -/
theorem TensorLayoutGetLabel_spec (L : TensorLayout_t) (idx : Int) (hL : L.Valid) :
    (0 ≤ idx → idx < L.rank → TensorLayoutGetLabel L idx = L.data.getD idx.toNat 0) ∧
    (-L.rank ≤ idx → idx < 0 →
      TensorLayoutGetLabel L idx = L.data.getD (L.rank + idx).toNat 0) ∧
    (¬ (-L.rank ≤ idx ∧ idx < L.rank) → TensorLayoutGetLabel L idx = 0) ∧
    (∀ p ∈ TensorLayoutGetLabel.reads L idx, 0 ≤ p ∧ p < L.rank) ∧
    TensorLayoutGetLabel L idx = ((TensorLayoutGetLabel.reads L idx).map L.read).headD 0 := by
  obtain ⟨_, h0, _⟩ := hL
  refine ⟨?_, ?_, ?_, ?_, ?_⟩
  · intro h1 h2
    rw [TensorLayoutGetLabel, if_neg (by omega), if_pos ⟨h1, h2⟩]
  · intro h1 h2
    rw [TensorLayoutGetLabel, if_pos h2, if_pos ⟨by omega, by omega⟩]
  · intro h
    by_cases hneg : idx < 0
    · rw [TensorLayoutGetLabel, if_pos hneg, if_neg (by omega)]
    · rw [TensorLayoutGetLabel, if_neg hneg, if_neg (by omega)]
  · intro p hp
    unfold TensorLayoutGetLabel.reads at hp
    split_ifs at hp with h1 h2 h3
    · rw [List.mem_singleton] at hp; omega
    · cases hp
    · rw [List.mem_singleton] at hp; omega
    · cases hp
  · unfold TensorLayoutGetLabel TensorLayoutGetLabel.reads
    split_ifs <;> rfl

theorem TensorLayoutGetLabel_spec_witness :
    layoutNCHW.Valid ∧
    TensorLayoutGetLabel layoutNCHW 1 = TLABEL_CHANNEL ∧
    TensorLayoutGetLabel layoutNCHW (-1) = TLABEL_WIDTH ∧
    TensorLayoutGetLabel layoutNCHW 4 = 0 ∧
    TensorLayoutGetLabel layoutNCHW (-5) = 0 :=
  ⟨by decide,
   (TensorLayoutGetLabel_spec layoutNCHW 1 (by decide)).1 (by decide) (by decide),
   (TensorLayoutGetLabel_spec layoutNCHW (-1) (by decide)).2.1 (by decide) (by decide),
   (TensorLayoutGetLabel_spec layoutNCHW 4 (by decide)).2.2.1 (by decide),
   (TensorLayoutGetLabel_spec layoutNCHW (-5) (by decide)).2.2.1 (by decide)⟩

/-! ## Requirements planning -/

theorem classify_find (nbytes : Nat) :
    (nbytes ≤ 2 ^ 32 →
      ∃ k, (List.range (MAX_MEM_REQUIREMENTS_LOG2_BLOCK_SIZE + 1)).find?
          (fun k => decide (nbytes ≤ 2 ^ k)) = some k ∧
        k ≤ 32 ∧ nbytes ≤ 2 ^ k ∧ ∀ j, j < k → 2 ^ j < nbytes) ∧
    (2 ^ 32 < nbytes →
      (List.range (MAX_MEM_REQUIREMENTS_LOG2_BLOCK_SIZE + 1)).find?
          (fun k => decide (nbytes ≤ 2 ^ k)) = none) := by
  have h33 : MAX_MEM_REQUIREMENTS_LOG2_BLOCK_SIZE + 1 = 33 := rfl
  rw [h33]
  constructor
  · intro hle
    cases hf : (List.range 33).find? (fun k => decide (nbytes ≤ 2 ^ k)) with
    | none =>
      rw [List.find?_eq_none] at hf
      have := hf 32 (by simp)
      simp at this
      omega
    | some k =>
      rw [List.find?_range_eq_some] at hf
      obtain ⟨hp, hmem, hmin⟩ := hf
      refine ⟨k, rfl, ?_, by simpa using hp, ?_⟩
      · have := List.mem_range.mp hmem
        omega
      · intro j hj
        have := hmin j hj
        simpa using this
  · intro hgt
    rw [List.find?_eq_none]
    intro x hx
    have hx33 : x < 33 := List.mem_range.mp hx
    have hpow : 2 ^ x ≤ 2 ^ 32 := Nat.pow_le_pow_right (by decide) (by omega)
    simp only [decide_eq_true_eq]
    omega

theorem set_getD_self (l : List Int) (k : Nat) (v : Int) (h : k < l.length) :
    (l.set k v).getD k 0 = v := by
  simp [List.getD_eq_getElem?_getD, List.getElem?_set, h]

theorem set_getD_ne (l : List Int) (k j : Nat) (v : Int) (h : j ≠ k) :
    (l.set k v).getD j 0 = l.getD j 0 := by
  have h2 : ¬ k = j := fun e => h e.symm
  simp [List.getD_eq_getElem?_getD, List.getElem?_set, h2]

/-- C27.  `classify(nbytes)`, for `nbytes <= 2^32`, selects the smallest `k` in `[0, 32]` with
`2^k >= nbytes` and increments counter `k` by exactly 1, all other counters and the number of
counters unchanged; for `nbytes > 2^32` it fails with `Overflow`.  `classify(1)` selects
bucket 0, `classify(4096)` bucket 12, `classify(2^32)` bucket 32, and `classify(2^32 + 1)`
fails with `Overflow`. -/
theorem classify_spec (counters : List Int) (nbytes : Nat) :
    (nbytes ≤ 2 ^ 32 →
      ∃ k after, classify counters nbytes = .ok (k, after) ∧
        k ≤ 32 ∧ nbytes ≤ 2 ^ k ∧ (∀ j, j < k → 2 ^ j < nbytes) ∧
        after.length = counters.length ∧
        (k < counters.length → after.getD k 0 = counters.getD k 0 + 1) ∧
        (∀ j, j ≠ k → after.getD j 0 = counters.getD j 0)) ∧
    (2 ^ 32 < nbytes → classify counters nbytes = .error overflow) ∧
    (∃ after, classify specZeroCounters 1 = .ok (0, after)) ∧
    (∃ after, classify specZeroCounters 4096 = .ok (12, after)) ∧
    (∃ after, classify specZeroCounters (2 ^ 32) = .ok (32, after)) ∧
    classify specZeroCounters (2 ^ 32 + 1) = .error overflow := by
  refine ⟨?_, ?_, ⟨specZeroCounters.set 0 1, by decide⟩, ⟨specZeroCounters.set 12 1, by decide⟩,
    ⟨specZeroCounters.set 32 1, by decide⟩, by decide⟩
  · intro hle
    obtain ⟨k, hf, hk, hp, hmin⟩ := (classify_find nbytes).1 hle
    refine ⟨k, counters.set k (counters.getD k 0 + 1), ?_, hk, hp, hmin, List.length_set _ _ _,
      fun h => set_getD_self _ _ _ h, fun j hj => set_getD_ne _ _ _ _ hj⟩
    simp only [classify, hf]
  · intro hgt
    simp only [classify, (classify_find nbytes).2 hgt]

theorem classify_spec_witness :
    ((4096 : Nat) ≤ 2 ^ 32 ∧ (2 : Nat) ^ 32 < 2 ^ 32 + 1) ∧
    (∃ k after, classify specZeroCounters 4096 = .ok (k, after) ∧
        k ≤ 32 ∧ 4096 ≤ 2 ^ k ∧ (∀ j, j < k → 2 ^ j < 4096) ∧
        after.length = specZeroCounters.length ∧
        (k < specZeroCounters.length → after.getD k 0 = specZeroCounters.getD k 0 + 1) ∧
        (∀ j, j ≠ k → after.getD j 0 = specZeroCounters.getD j 0)) ∧
    classify specZeroCounters (2 ^ 32 + 1) = .error overflow :=
  ⟨by decide, (classify_spec specZeroCounters 4096).1 (by decide),
   (classify_spec specZeroCounters (2 ^ 32 + 1)).2.1 (by decide)⟩

theorem specIsPowerOfTwo_iff (a : Nat) : specIsPowerOfTwo a = true ↔ ∃ k, a = 2 ^ k := by
  simp only [specIsPowerOfTwo, List.any_eq_true, List.mem_range, beq_iff_eq]
  constructor
  · rintro ⟨k, _, hk⟩; exact ⟨k, hk.symm⟩
  · rintro ⟨k, hk⟩
    refine ⟨k, ?_, hk.symm⟩
    have := Nat.lt_two_pow k
    omega

theorem specRoundUp_ge (x a : Nat) (ha : 0 < a) : x ≤ specRoundUp x a := by
  unfold specRoundUp
  have h1 := Nat.div_add_mod (x + a - 1) a
  have h2 := Nat.mod_lt (x + a - 1) ha
  rw [Nat.mul_comm] at h1
  generalize (x + a - 1) / a * a = q at h1 ⊢
  omega

theorem specStrides_length (innermost : Int) :
    ∀ sizes : List Int, (specStrides innermost sizes).length = sizes.length
  | [] => rfl
  | _ :: rest => by simp [specStrides, specStrides_length innermost rest]

theorem specStrides_getLast? (innermost : Int) :
    ∀ sizes : List Int, sizes ≠ [] → (specStrides innermost sizes).getLast? = some innermost
  | [], h => absurd rfl h
  | [_], _ => by simp [specStrides]
  | _ :: d :: rest, _ => by
    have ih := specStrides_getLast? innermost (d :: rest) (by simp)
    rw [specStrides]
    rw [specStrides] at ih ⊢
    rw [List.getLast?_cons_cons]
    exact ih

theorem specZeroCounters_getD (j : Nat) : specZeroCounters.getD j 0 = 0 := by
  unfold specZeroCounters
  by_cases h : j < MAX_MEM_REQUIREMENTS_LOG2_BLOCK_SIZE + 1
  · simp [List.getD_eq_getElem?_getD, List.getElem?_replicate, h]
  · simp [List.getD_eq_getElem?_getD, List.getElem?_replicate, h]

/-- C28, as stated: the shape `{65536, 65536, 2}` has positive sizes and `1` is a power of two,
yet with 1-byte elements the total size is `2^33` bytes and no requirements are returned:
the call fails with `Overflow`. -/
theorem calcTensorRequirements_overflow_counterexample :
    shapeBig.Valid ∧ (∀ d ∈ shapeBig.shape.elems, 0 < d) ∧ specIsPowerOfTwo 1 = true ∧
    calcTensorRequirements shapeBig 0 1 1 = .error overflow := by
  decide

/-- C28, for total sizes of at most `2^32` bytes.  For a valid shape of rank at least 1 with
positive sizes, every dtype (with element size `elemSize`) and every power-of-two alignment:
the innermost stride is at least the element size and the total size (outermost size times
outermost stride) is not negative; when the total is at most `2^32`,
`calcTensorRequirements` returns a `TensorRequirements` carrying the dtype, layout, rank,
sizes, strides and alignment, whose device counters are 1 at exactly one bucket `k`, the
smallest `k` with `2^k >= total`, and 0 elsewhere, and whose host and host-pinned counters
are all 0; when the total exceeds `2^32` the call fails with `Overflow`. -/
theorem calcTensorRequirements_spec (shape : TensorShape) (dtype elemSize alignment : Nat)
    (hv : shape.Valid) (hrank : 1 ≤ shape.rank)
    (hpos : ∀ d ∈ shape.shape.elems, 0 < d)
    (hpow : specIsPowerOfTwo alignment = true) :
    (elemSize : Int) ≤ (specRoundUp elemSize alignment : Nat) ∧
    (specStrides (specRoundUp elemSize alignment) shape.shape.elems).getLast?
      = some ((specRoundUp elemSize alignment : Nat) : Int) ∧
    0 ≤ shape.shape.elems.headD 0 *
      (specStrides (specRoundUp elemSize alignment) shape.shape.elems).headD 0 ∧
    ((shape.shape.elems.headD 0 *
        (specStrides (specRoundUp elemSize alignment) shape.shape.elems).headD 0).toNat ≤ 2 ^ 32 →
      ∃ req k, calcTensorRequirements shape dtype elemSize alignment = .ok req ∧
        req.dtype = dtype ∧ req.layout = shape.layout ∧ req.rank = shape.rank ∧
        req.shape = shape.shape.elems ∧
        req.strides = specStrides (specRoundUp elemSize alignment) shape.shape.elems ∧
        req.alignBytes = alignment ∧
        k ≤ 32 ∧
        (shape.shape.elems.headD 0 * req.strides.headD 0).toNat ≤ 2 ^ k ∧
        (∀ j, j < k → 2 ^ j < (shape.shape.elems.headD 0 * req.strides.headD 0).toNat) ∧
        (∀ j, req.mem.cudaMem.num_blocks.getD j 0 = if j = k then 1 else 0) ∧
        (∀ j, req.mem.hostMem.num_blocks.getD j 0 = 0) ∧
        (∀ j, req.mem.hostPinnedMem.num_blocks.getD j 0 = 0)) ∧
    (2 ^ 32 < (shape.shape.elems.headD 0 *
        (specStrides (specRoundUp elemSize alignment) shape.shape.elems).headD 0).toNat →
      calcTensorRequirements shape dtype elemSize alignment = .error overflow) := by
  have hlen := Shape.elems_length shape.shape_ hv.1
  have hrank2 : 1 ≤ shape.shape_.size_ := hrank
  have hne : shape.shape.elems ≠ [] := by
    intro h
    have h2 : shape.shape_.elems = [] := h
    rw [h2] at hlen
    simp at hlen
    omega
  obtain ⟨kp, hkp⟩ := (specIsPowerOfTwo_iff alignment).mp hpow
  have hapos : 0 < alignment := by rw [hkp]; exact Nat.two_pow_pos kp
  have hany : (shape.shape.elems.any fun d => decide (d ≤ 0)) = false := by
    rw [List.any_eq_false]
    intro d hd
    have := hpos d hd
    simp only [decide_eq_true_eq]
    omega
  have hnot : (!specIsPowerOfTwo alignment) = false := by rw [hpow]; rfl
  refine ⟨by exact_mod_cast specRoundUp_ge elemSize alignment hapos,
    specStrides_getLast? _ _ hne, ?_, ?_, ?_⟩
  · cases hs : shape.shape.elems with
    | nil => exact absurd hs hne
    | cons d rest =>
      rw [hs] at hpos
      have hd : 0 < d := hpos d (List.mem_cons_self _ _)
      have hrest : 0 < rest.prod :=
        List.prod_pos (fun a ha => hpos a (List.mem_cons_of_mem _ ha))
      show 0 ≤ d * ((specRoundUp elemSize alignment : Nat) * rest.prod)
      positivity
  · intro hle
    obtain ⟨k, hf, hk, hp, hmin⟩ := (classify_find _).1 hle
    have hcl : classify specZeroCounters (shape.shape.elems.headD 0 *
        (specStrides (specRoundUp elemSize alignment) shape.shape.elems).headD 0).toNat
        = .ok (k, specZeroCounters.set k (specZeroCounters.getD k 0 + 1)) := by
      simp only [classify, hf]
    refine ⟨⟨dtype, shape.layout, shape.rank, shape.shape.elems,
      specStrides (specRoundUp elemSize alignment) shape.shape.elems, alignment,
      ⟨⟨specZeroCounters.set k (specZeroCounters.getD k 0 + 1)⟩, ⟨specZeroCounters⟩,
        ⟨specZeroCounters⟩⟩⟩, k, ?_, rfl, rfl, rfl, rfl, rfl, rfl, hk, hp, hmin, ?_,
      specZeroCounters_getD, specZeroCounters_getD⟩
    · simp only [calcTensorRequirements, hany, hnot, hcl]
      rfl
    · intro j
      show (specZeroCounters.set k (specZeroCounters.getD k 0 + 1)).getD j 0 = _
      by_cases hj : j = k
      · subst hj
        have hl : j < specZeroCounters.length := by
          have : specZeroCounters.length = 33 := rfl
          omega
        rw [set_getD_self _ _ _ hl, specZeroCounters_getD, if_pos rfl]
        rfl
      · rw [set_getD_ne _ _ _ _ hj, specZeroCounters_getD, if_neg hj]
  · intro hgt
    have hcl : classify specZeroCounters (shape.shape.elems.headD 0 *
        (specStrides (specRoundUp elemSize alignment) shape.shape.elems).headD 0).toNat
        = .error overflow := by
      simp only [classify, (classify_find _).2 hgt]
    simp only [calcTensorRequirements, hany, hnot, hcl]
    rfl

theorem calcTensorRequirements_spec_witness :
    (shapeNCHW_1_3_224_224.Valid ∧ 1 ≤ shapeNCHW_1_3_224_224.rank ∧
      (∀ d ∈ shapeNCHW_1_3_224_224.shape.elems, 0 < d) ∧ specIsPowerOfTwo 256 = true) ∧
    ((4 : Nat) : Int) ≤ (specRoundUp 4 256 : Nat) ∧
    ∃ req k, calcTensorRequirements shapeNCHW_1_3_224_224 0 4 256 = .ok req ∧
      req.dtype = 0 ∧ req.layout = shapeNCHW_1_3_224_224.layout ∧
      req.rank = shapeNCHW_1_3_224_224.rank ∧
      req.shape = shapeNCHW_1_3_224_224.shape.elems ∧
      req.strides = specStrides (specRoundUp 4 256) shapeNCHW_1_3_224_224.shape.elems ∧
      req.alignBytes = (256 : Nat) ∧
      k ≤ 32 ∧
      (shapeNCHW_1_3_224_224.shape.elems.headD 0 * req.strides.headD 0).toNat ≤ 2 ^ k ∧
      (∀ j, j < k →
        2 ^ j < (shapeNCHW_1_3_224_224.shape.elems.headD 0 * req.strides.headD 0).toNat) ∧
      (∀ j, req.mem.cudaMem.num_blocks.getD j 0 = if j = k then 1 else 0) ∧
      (∀ j, req.mem.hostMem.num_blocks.getD j 0 = 0) ∧
      (∀ j, req.mem.hostPinnedMem.num_blocks.getD j 0 = 0) :=
  ⟨by decide,
   (calcTensorRequirements_spec shapeNCHW_1_3_224_224 0 4 256 (by decide) (by decide)
      (by decide) (by decide)).1,
   (calcTensorRequirements_spec shapeNCHW_1_3_224_224 0 4 256 (by decide) (by decide)
      (by decide) (by decide)).2.2.2.1 (by decide)⟩

/-! ## Permutation with repeated labels -/

/-- The destination cells after the first `k` iterations of the loop of `TensorShapePermute`,
without any assumption on the labels: a slot whose label occurs earlier in `D` holds 1; a slot
`j` at the first occurrence of its label holds the source size of the last index `i < k` with
`S[i] = D[j]`, or 1 when there is none. -/
theorem TensorShapePermute.loop_spec_general (S D : TensorLayout_t) (src dst : List Int)
    (hD : D.Valid) (hdst : D.rank.toNat ≤ dst.length) :
    ∀ k,
      ((List.range k).foldl (TensorShapePermute.body S src D)
          (fill_n dst D.rank.toNat 1)).length = dst.length ∧
      (∀ j, j < D.rank.toNat →
        ((∃ j', j' < j ∧ D.data.getD j' 0 = D.data.getD j 0) →
          ((List.range k).foldl (TensorShapePermute.body S src D)
            (fill_n dst D.rank.toNat 1))[j]? = some 1) ∧
        ((∀ j', j' < j → D.data.getD j' 0 ≠ D.data.getD j 0) →
          (∀ i, i < k → S.data.getD i 0 = D.data.getD j 0 →
            (∀ i', i < i' → i' < k → S.data.getD i' 0 ≠ D.data.getD j 0) →
            ((List.range k).foldl (TensorShapePermute.body S src D)
              (fill_n dst D.rank.toNat 1))[j]? = some (src.getD i 0)) ∧
          ((∀ i, i < k → S.data.getD i 0 ≠ D.data.getD j 0) →
            ((List.range k).foldl (TensorShapePermute.body S src D)
              (fill_n dst D.rank.toNat 1))[j]? = some 1))) := by
  intro k
  induction k with
  | zero =>
    refine ⟨fill_n_length _ _ _ hdst, fun j hj => ⟨fun _ => fill_n_getElem?_lt _ _ _ _ hj,
      fun _ => ⟨fun i hi => absurd hi (by omega), fun _ => fill_n_getElem?_lt _ _ _ _ hj⟩⟩⟩
  | succ k ih =>
    obtain ⟨ihlen, ihlt⟩ := ih
    rw [List.range_succ, List.foldl_append, List.foldl_cons, List.foldl_nil]
    generalize (List.range k).foldl (TensorShapePermute.body S src D) (fill_n dst D.rank.toNat 1)
      = cur at ihlen ihlt
    obtain ⟨hnone, hsome⟩ := FindDimIndex_spec D (S.data.getD k 0) hD
    by_cases hidx : FindDimIndex D (S.data.getD k 0) = -1
    · have hbody : TensorShapePermute.body S src D cur k = cur := by
        show (if FindDimIndex D (S.data.getD k 0) ≥ 0 then
          cur.set (FindDimIndex D (S.data.getD k 0)).toNat (src.getD k 0) else cur) = cur
        rw [hidx, if_neg (by omega)]
      rw [hbody]
      refine ⟨ihlen, fun j hj => ⟨(ihlt j hj).1, fun hfirst => ⟨fun i hi hij hlast => ?_,
        fun hall => ?_⟩⟩⟩
      · rcases Nat.lt_or_ge i k with hlt | hge
        · exact ((ihlt j hj).2 hfirst).1 i hlt hij (fun i' h1 h2 => hlast i' h1 (by omega))
        · have : i = k := by omega
          subst this
          exact absurd hij.symm (hnone.mp hidx j hj)
      · exact ((ihlt j hj).2 hfirst).2 (fun i hi => hall i (by omega))
    · obtain ⟨j0, hj0, hj0r, hj0c, hj0min⟩ := hsome hidx
      have hbody : TensorShapePermute.body S src D cur k = cur.set j0 (src.getD k 0) := by
        show (if FindDimIndex D (S.data.getD k 0) ≥ 0 then
          cur.set (FindDimIndex D (S.data.getD k 0)).toNat (src.getD k 0) else cur) = _
        rw [hj0, if_pos (by omega), Int.toNat_ofNat]
      rw [hbody]
      refine ⟨by rw [List.length_set]; exact ihlen, fun j hj => ?_⟩
      by_cases hjj : j0 = j
      · subst hjj
        refine ⟨fun hdup => ?_, fun _ => ⟨fun i hi hij hlast => ?_, fun hall => ?_⟩⟩
        · obtain ⟨j', hj', he⟩ := hdup
          exact absurd (he.trans hj0c) (hj0min j' hj')
        · have hik : i = k := by
            rcases Nat.lt_or_ge i k with hlt | hge
            · exact absurd hj0c.symm (hlast k hlt (by omega))
            · omega
          rw [hik, List.getElem?_set_self (by omega)]
        · exact absurd hj0c.symm (hall k (by omega))
      · rw [List.getElem?_set_ne hjj]
        refine ⟨(ihlt j hj).1, fun hfirst => ?_⟩
        have hne : S.data.getD k 0 ≠ D.data.getD j 0 := by
          intro he
          rcases Nat.lt_or_ge j j0 with hlt | hge
          · exact hj0min j hlt he.symm
          · exact hfirst j0 (by omega) (hj0c.trans he)
        refine ⟨fun i hi hij hlast => ?_, fun hall => ?_⟩
        · rcases Nat.lt_or_ge i k with hlt | hge
          · exact ((ihlt j hj).2 hfirst).1 i hlt hij (fun i' h1 h2 => hlast i' h1 (by omega))
          · have : i = k := by omega
            subst this
            exact absurd hij hne
        · exact ((ihlt j hj).2 hfirst).2 (fun i hi => hall i (by omega))

/-- C29.  For valid layouts `S` and `D`, with or without repeated labels, `TensorShapePermute`
raises no error and writes the destination as follows, for every slot `j < rank(D)`: when the
label `D[j]` occurs earlier in `D`, the slot keeps the default 1 (a source label is looked up
at its first occurrence in `D`); when `j` is the first occurrence of its label, the slot holds
the source size of the last index `i` with `S[i] = D[j]`, and 1 when `S` has no such index.
Layout `NN` with sizes `{2, 3}` permuted to layout `NN` gives `{3, 1}`. -/
theorem TensorShapePermute_duplicate_labels (S D : TensorLayout_t) (src dst : List Int)
    (_ : S.Valid) (hD : D.Valid) (hdst : D.rank.toNat ≤ dst.length) :
    (∃ written, TensorShapePermute S (some src) D (some dst) = .ok written ∧
      written.length = dst.length ∧
      ∀ j, j < D.rank.toNat →
        ((∃ j', j' < j ∧ D.data.getD j' 0 = D.data.getD j 0) → written[j]? = some 1) ∧
        ((∀ j', j' < j → D.data.getD j' 0 ≠ D.data.getD j 0) →
          (∀ i, i < S.rank.toNat → S.data.getD i 0 = D.data.getD j 0 →
            (∀ i', i < i' → i' < S.rank.toNat → S.data.getD i' 0 ≠ D.data.getD j 0) →
            written[j]? = some (src.getD i 0)) ∧
          ((∀ i, i < S.rank.toNat → S.data.getD i 0 ≠ D.data.getD j 0) →
            written[j]? = some 1))) ∧
    TensorShapePermute layoutNN (some [2, 3, 0, 0, 0, 0, 0, 0, 0, 0, 0, 0, 0, 0, 0]) layoutNN
        (some zeroStorage) = .ok [3, 1, 0, 0, 0, 0, 0, 0, 0, 0, 0, 0, 0, 0, 0] := by
  refine ⟨⟨_, rfl, ?_⟩, by decide⟩
  exact TensorShapePermute.loop_spec_general S D src dst hD hdst S.rank.toNat

theorem TensorShapePermute_duplicate_labels_witness :
    (layoutNN.Valid ∧ layoutNN.rank.toNat ≤ zeroStorage.length) ∧
    ∃ written, TensorShapePermute layoutNN (some [2, 3, 0, 0, 0, 0, 0, 0, 0, 0, 0, 0, 0, 0, 0])
        layoutNN (some zeroStorage) = .ok written ∧
      written.length = zeroStorage.length ∧
      ∀ j, j < layoutNN.rank.toNat →
        ((∃ j', j' < j ∧ layoutNN.data.getD j' 0 = layoutNN.data.getD j 0) →
          written[j]? = some 1) ∧
        ((∀ j', j' < j → layoutNN.data.getD j' 0 ≠ layoutNN.data.getD j 0) →
          (∀ i, i < layoutNN.rank.toNat → layoutNN.data.getD i 0 = layoutNN.data.getD j 0 →
            (∀ i', i < i' → i' < layoutNN.rank.toNat →
              layoutNN.data.getD i' 0 ≠ layoutNN.data.getD j 0) →
            written[j]? = some
              (([2, 3, 0, 0, 0, 0, 0, 0, 0, 0, 0, 0, 0, 0, 0] : List Int).getD i 0)) ∧
          ((∀ i, i < layoutNN.rank.toNat → layoutNN.data.getD i 0 ≠ layoutNN.data.getD j 0) →
            written[j]? = some 1)) :=
  ⟨by decide,
   (TensorShapePermute_duplicate_labels layoutNN layoutNN
      [2, 3, 0, 0, 0, 0, 0, 0, 0, 0, 0, 0, 0, 0, 0] zeroStorage (by decide) (by decide)
      (by decide)).1⟩

/-! ## The terminator of the label array -/

theorem takeWhile_ne_zero_eq_take : ∀ (l : List Nat) (n : Nat), n < l.length →
    (∀ i, i < n → l[i]? ≠ some 0) → l[n]? = some 0 →
    l.takeWhile (fun c => c != 0) = l.take n
  | [], _, h, _, _ => by simp at h
  | a :: t, 0, _, _, hz => by
    have ha : a = 0 := by simpa using hz
    simp [ha]
  | a :: t, n + 1, h, hpre, hz => by
    have ha : a ≠ 0 := by
      have := hpre 0 (by omega)
      simpa using this
    have ih := takeWhile_ne_zero_eq_take t n (by simpa using h)
      (fun i hi => by have := hpre (i + 1) (by omega); simpa using this)
      (by simpa using hz)
    simp [List.takeWhile_cons, ha, ih]

/-- Source: `CreateLayout(descr)` on a C string of at most 15 labels: the array of the result holds
NUL at `data[rank]`, and `TensorLayoutGetName` yields exactly the labels. -/
theorem CreateLayout_terminated (mem : Mem) (p len : Nat) (out : TensorLayout_t)
    (hs : IsCStr mem p len) (hlen : len ≤ TENSOR_MAX_RANK)
    (hout : out.data.length = TENSOR_MAX_RANK + 1) :
    ∃ l, CreateLayout mem (some p) out = .ok l ∧ l.rank = len ∧
      l.data.getD l.rank.toNat 0 = 0 ∧ TensorLayoutGetName (some l) = l.labels := by
  obtain ⟨h1, h2, h3⟩ :=
    CreateLayout.copyLoop_spec mem p len hs TENSOR_MAX_RANK 0 out.data (by omega)
  have hfst : (CreateLayout.copyLoop mem p TENSOR_MAX_RANK 0 out.data).1 = len := by
    rw [h1]; omega
  have hz : mem (p + len) = 0 := hs.2
  have hlen15 : len ≤ 15 := hlen
  have hout16 : out.data.length = 16 := hout
  have hsz : toSizeT (len : Int) < TENSOR_MAX_RANK + 1 := by
    rw [toSizeT_natCast len (by omega)]; unfold TENSOR_MAX_RANK; omega
  have hok : CreateLayout mem (some p) out =
      .ok { data := (CreateLayout.copyLoop mem p TENSOR_MAX_RANK 0 out.data).2.set len 0,
            rank := len } := by
    simp only [CreateLayout, hfst, ne_eq, hz, not_true_eq_false, if_false]
    rw [if_pos ⟨by omega, hsz⟩]
    simp
  have hl : len < ((CreateLayout.copyLoop mem p TENSOR_MAX_RANK 0 out.data).2.set len 0).length := by
    rw [List.length_set, h2]; omega
  have hat : ((CreateLayout.copyLoop mem p TENSOR_MAX_RANK 0 out.data).2.set len 0)[len]?
      = some 0 := by
    rw [List.getElem?_set_self (by rw [h2]; omega)]
  have hpre : ∀ i, i < len →
      ((CreateLayout.copyLoop mem p TENSOR_MAX_RANK 0 out.data).2.set len 0)[i]? ≠ some 0 := by
    intro i hi
    have h15 : (TENSOR_MAX_RANK : Nat) = 15 := rfl
    rw [List.getElem?_set_ne (by omega), h3 i,
      if_pos ⟨by omega, by rw [h15]; omega, by omega⟩]
    intro he
    exact hs.1 i hi (Option.some.inj he)
  refine ⟨_, hok, rfl, ?_, ?_⟩
  · show ((CreateLayout.copyLoop mem p TENSOR_MAX_RANK 0 out.data).2.set len 0).getD
      ((len : Int)).toNat 0 = 0
    rw [Int.toNat_ofNat, List.getD_eq_getElem?_getD, hat]
    rfl
  · show ((CreateLayout.copyLoop mem p TENSOR_MAX_RANK 0 out.data).2.set len 0).takeWhile
        (fun c => c != 0)
      = ((CreateLayout.copyLoop mem p TENSOR_MAX_RANK 0 out.data).2.set len 0).take
        ((len : Int)).toNat
    rw [Int.toNat_ofNat]
    exact takeWhile_ne_zero_eq_take _ len hl hpre hat

theorem CreateLayout_terminated_example :
    ∃ l, CreateLayout memNCHW (some 0) layoutOfX = .ok l ∧ l.rank = (4 : Nat) ∧
      l.data.getD l.rank.toNat 0 = 0 ∧ TensorLayoutGetName (some l) = l.labels :=
  CreateLayout_terminated memNCHW 0 4 layoutOfX (by decide) (by decide) (by decide)

/-- C30, failing: with a result record that held the byte `'X'` in every cell,
`CreateFirst(NCHW, 2)`, `CreateLast(NCHW, 2)`, `CreateSubRange(NCHW, 1, 3)` and
`CreateLayout(begin, end)` over the two bytes `"NC"` return a layout of rank 2 whose `data[2]` is
still `'X'`, not NUL, and `TensorLayoutGetName` yields the two labels followed by the fourteen
`'X'` of the rest of the array (in C the string runs on past the array), while
`CreateLayout("NCHW")` over the same record stores NUL at `data[4]` and its name is `NCHW`. -/
theorem TensorLayoutGetName_slices_not_terminated :
    (CreateFirst 1 layoutOfX layoutNCHW 2).map (fun l => (l.rank, l.data.getD l.rank.toNat 0))
      = some (2, 88) ∧
    (CreateFirst 1 layoutOfX layoutNCHW 2).map (fun l => TensorLayoutGetName (some l))
      = some ([TLABEL_BATCH, TLABEL_CHANNEL] ++ List.replicate 14 88) ∧
    (CreateFirst 1 layoutOfX layoutNCHW 2).map (fun l => l.labels)
      = some [TLABEL_BATCH, TLABEL_CHANNEL] ∧
    (CreateLast 1 layoutOfX layoutNCHW 2).map (fun l => (l.rank, l.data.getD l.rank.toNat 0))
      = some (2, 88) ∧
    (CreateLast 1 layoutOfX layoutNCHW 2).map (fun l => TensorLayoutGetName (some l))
      = some ([TLABEL_HEIGHT, TLABEL_WIDTH] ++ List.replicate 14 88) ∧
    (CreateSubRange layoutOfX layoutNCHW 1 3).rank = 2 ∧
    (CreateSubRange layoutOfX layoutNCHW 1 3).data.getD 2 0 = 88 ∧
    TensorLayoutGetName (some (CreateSubRange layoutOfX layoutNCHW 1 3))
      = [TLABEL_CHANNEL, TLABEL_HEIGHT] ++ List.replicate 14 88 ∧
    (CreateSubRange layoutOfX layoutNCHW 3 1).rank = 0 ∧
    (CreateSubRange layoutOfX layoutNCHW 3 1).data.getD 0 0 = 88 ∧
    CreateLayoutRange memNCHW (some 0) (some 2) layoutOfX
      = .ok ⟨[TLABEL_BATCH, TLABEL_CHANNEL] ++ List.replicate 14 88, 2⟩ ∧
    CreateLayout memNCHW (some 0) layoutOfX
      = .ok ⟨[TLABEL_BATCH, TLABEL_CHANNEL, TLABEL_HEIGHT, TLABEL_WIDTH, 0]
              ++ List.replicate 11 88, 4⟩ := by
  decide

/-- The example of section 4.4: shape `{1, 3, 224, 224}`, 4-byte elements, alignment 256: the
strides are `{38535168, 12845056, 57344, 256}`, the total is 38535168 bytes and the only
non-zero device counter is that of bucket 26 (`2^25 < 38535168 <= 2^26`). -/
theorem calcTensorRequirements_example :
    calcTensorRequirements shapeNCHW_1_3_224_224 0 4 256
      = .ok ⟨0, layoutNCHW, 4, [1, 3, 224, 224], [38535168, 12845056, 57344, 256], 256,
          ⟨⟨specZeroCounters.set 26 1⟩, ⟨specZeroCounters⟩, ⟨specZeroCounters⟩⟩⟩ ∧
    (2 : Nat) ^ 25 < 38535168 ∧ 38535168 ≤ (2 : Nat) ^ 26 := by
  decide

/-! ## Error strings -/

/-- C31, failing at `CUCV_ERROR_ASSERT_FAILED`: the `switch` of `getErrorStr` has no `CASE` for
it, so status 12 gets the fallback string although the table holds its description; every
other enumerator gets its name, `": "` and its description; and an integer that is no value of
`Status` gets the fallback. -/
theorem getErrorStr_assert_failed_falls_through :
    Status.CUCV_ERROR_ASSERT_FAILED.toInt = 12 ∧
    kErrorStrAt 12 = some "断言失败." ∧
    getErrorStr 12 = some "12: 未定义错误." ∧
    getErrorStr 12 ≠ some "CUCV_ERROR_ASSERT_FAILED: 断言失败." ∧
    (∀ s : Status, s ≠ .CUCV_ERROR_ASSERT_FAILED →
      ∃ descr, kErrorStrAt s.toInt = some descr ∧
        getErrorStr s.toInt = some (s.name ++ ": " ++ descr)) ∧
    (∀ status : Int, status < 0 ∨ 12 < status →
      getErrorStr status = some (toString status ++ ": 未定义错误.")) := by
  refine ⟨rfl, by decide, by decide, by decide, ?_, ?_⟩
  · intro s hs
    cases s <;> first | exact absurd rfl hs | exact ⟨_, rfl, rfl⟩
  · intro status h
    unfold getErrorStr
    simp only [Status.toInt]
    repeat rw [if_neg (by omega)]

/-! ## Assignment of `Optional` -/

/-- C32, failing when the target is empty and the source holds a value: after `a = b` (and
after `a = std::move(b)`) with `a` empty and `b` holding 5, the value has been constructed in
the storage of `a` but `a.hasValue()` is still `false` while `b.hasValue()` is `true`, and
`a.value()` throws.  In the three other cases (target with a value, or source empty) the
assignment is as claimed. -/
theorem Optional_assign_empty_target_keeps_flag :
    ((Optional.none (0 : Int)).assign ⟨true, 5⟩).hasValue = false ∧
    (Optional.mk true (5 : Int)).hasValue = true ∧
    ((Optional.none (0 : Int)).assign ⟨true, 5⟩).storage_ = 5 ∧
    ((Optional.none (0 : Int)).assign ⟨true, 5⟩).value = .error .badOptionalAccess ∧
    ((Optional.none (0 : Int)).assignMove ⟨true, 5⟩).hasValue = false ∧
    ((Optional.none (0 : Int)).assignMove ⟨true, 5⟩).value = .error .badOptionalAccess ∧
    (∀ a b : Optional Int, a.has_value_ = false → b.has_value_ = true →
      (a.assign b).hasValue = false ∧ (a.assignMove b).hasValue = false) ∧
    (∀ a b : Optional Int, a.has_value_ = true ∨ b.has_value_ = false →
      (a.assign b).hasValue = b.hasValue ∧ (a.assignMove b).hasValue = b.hasValue ∧
      (b.has_value_ = true →
        (a.assign b).value = .ok b.storage_ ∧ (a.assignMove b).value = .ok b.storage_)) := by
  refine ⟨rfl, rfl, rfl, rfl, rfl, rfl, ?_, ?_⟩
  · rintro ⟨ha, sa⟩ ⟨hb, sb⟩ h1 h2
    simp only at h1 h2
    subst h1; subst h2
    exact ⟨rfl, rfl⟩
  · rintro ⟨ha, sa⟩ ⟨hb, sb⟩ h
    cases ha <;> cases hb <;> simp at h <;>
      simp [Optional.assign, Optional.assignMove, Optional.hasValue, Optional.value]

/-! ## Totality and round trip of `Permute` -/

/-- Source: `Permute` with a destination layout of negative rank: the construction of the local
`dst(dstLayout.rank())` does not return. -/
theorem Permute_of_rank_neg (storage : List Int) (src : TensorShape) (D : TensorLayout_t)
    (h : TensorLayoutGetNumDim D < 0) : Permute storage src D = .error .neverReturns := by
  simp only [Permute, Shape.sized_of_neg storage _ h]

/-- Source: `Permute` fails the bounds assertion of `Shape::operator[]` when the source shape or the
local `dst` has no dimension. -/
theorem Permute_of_sized_empty (storage : List Int) (src : TensorShape) (D : TensorLayout_t)
    (dst : Shape) (hsized : Shape.sized storage (TensorLayoutGetNumDim D) = .ok dst)
    (h : src.rank ≤ 0 ∨ dst.size_ ≤ 0) :
    Permute storage src D = .error .assertFailed := by
  by_cases hs : src.rank ≤ 0
  · have hsrc0 : src.get 0 = .error .assertFailed := by
      have hc : ¬ ((0 : Int) ≤ 0 ∧ (0 : Int) < src.shape_.size_) := by
        have : src.rank = src.shape_.size_ := rfl
        omega
      simp only [TensorShape.get, Shape.get, if_neg hc]
    simp only [Permute, hsized, hsrc0]
  · have hd : dst.size_ ≤ 0 := by
      rcases h with h | h
      · exact absurd h hs
      · exact h
    have hsrc0 : src.get 0 = .ok (src.shape_.data_.getD 0 0) := by
      have hc : (0 : Int) ≤ 0 ∧ (0 : Int) < src.shape_.size_ := ⟨le_refl _, by
        have : src.rank = src.shape_.size_ := rfl
        omega⟩
      simp only [TensorShape.get, Shape.get, if_pos hc]
      rfl
    have hdst0 : dst.get 0 = .error .assertFailed := by
      have hc : ¬ ((0 : Int) ≤ 0 ∧ (0 : Int) < dst.size_) := by omega
      simp only [Shape.get, if_neg hc]
    simp only [Permute, hsized, hsrc0, hdst0]

/-- Source: `Permute` fails the bounds assertion of `Shape::operator[]` when the source shape or the
destination layout has no dimension (and when the destination layout has a rank above 15,
for which `dst` reports rank 0). -/
theorem Permute_of_rank_le_zero (storage : List Int) (src : TensorShape) (D : TensorLayout_t)
    (hD0 : 0 ≤ TensorLayoutGetNumDim D)
    (h : src.rank ≤ 0 ∨ TensorLayoutGetNumDim D ≤ 0 ∨ 15 < TensorLayoutGetNumDim D) :
    Permute storage src D = .error .assertFailed := by
  by_cases h15 : TensorLayoutGetNumDim D ≤ 15
  · refine Permute_of_sized_empty storage src D _ (Shape.sized_of_range storage _ hD0 h15) ?_
    show src.rank ≤ 0 ∨ TensorLayoutGetNumDim D ≤ 0
    omega
  · exact Permute_of_sized_empty storage src D _ (Shape.sized_of_large storage _ (by omega))
      (Or.inr (le_refl _))

/-- Source: `Permute` on a source shape of at least one dimension and a destination layout of 1 to
15 dimensions: it returns the shape built from the cells that `TensorShapePermute` leaves. -/
theorem Permute_of_rank_pos (storage : List Int) (src : TensorShape) (D : TensorLayout_t)
    (hr : 1 ≤ src.rank) (hd : 1 ≤ TensorLayoutGetNumDim D) (hd15 : TensorLayoutGetNumDim D ≤ 15) :
    ∃ written,
      TensorShapePermute src.layout (some src.shape_.data_) D
        (some (fill_n storage D.rank.toNat 0)) = .ok written ∧
      Permute storage src D =
        .ok { shape_ := Shape.copy storage { data_ := written, size_ := D.rank }, layout_ := D } := by
  refine ⟨_, rfl, ?_⟩
  have hsized : Shape.sized storage (TensorLayoutGetNumDim D) =
      .ok { data_ := fill_n storage D.rank.toNat 0, size_ := D.rank } :=
    Shape.sized_of_range storage D.rank (by
      have : TensorLayoutGetNumDim D = D.rank := rfl
      omega) hd15
  have hsrc0 : src.get 0 = .ok (src.shape_.data_.getD 0 0) := by
    have hc : (0 : Int) ≤ 0 ∧ (0 : Int) < src.shape_.size_ := ⟨le_refl _, by
      have : src.rank = src.shape_.size_ := rfl
      omega⟩
    simp only [TensorShape.get, Shape.get, if_pos hc]
    rfl
  have hdst0 : Shape.get { data_ := fill_n storage D.rank.toNat 0, size_ := D.rank } 0 =
      .ok ((fill_n storage D.rank.toNat 0).getD 0 0) := by
    have hc : (0 : Int) ≤ 0 ∧ (0 : Int) < D.rank :=
      ⟨le_refl _, by
        have : TensorLayoutGetNumDim D = D.rank := rfl
        omega⟩
    simp only [Shape.get, if_pos hc]
    rfl
  simp only [Permute, hsized, hsrc0, hdst0, TensorShapePermute, TensorShape.ofShape]
  refine if_neg ?_
  intro h
  exact h.2 rfl

/-- C34, failing at rank 0: `Permute` fails the bounds assertion of `Shape::operator[]` (on
`src[0]` or on `dst[0]`) whenever the source shape or the destination layout has rank 0, for
instance on the empty shape with the layout `HW` and on `HW {4, 5}` with the empty
destination layout; with a source rank of at least 1 and a destination rank within `1..15` it
returns a shape of the rank of the destination layout with that layout.  (Outside the ranks
`0..15` of a layout: a destination rank above 15 also ends in the assertion, and with a
negative one the construction of `dst` does not return.) -/
theorem Permute_not_total_at_rank_zero :
    (∀ (storage : List Int) (src : TensorShape) (D : TensorLayout_t),
      0 ≤ TensorLayoutGetNumDim D →
      src.rank ≤ 0 ∨ TensorLayoutGetNumDim D ≤ 0 ∨ 15 < TensorLayoutGetNumDim D →
        Permute storage src D = .error .assertFailed) ∧
    (∀ (storage : List Int) (src : TensorShape) (D : TensorLayout_t),
      TensorLayoutGetNumDim D < 0 → Permute storage src D = .error .neverReturns) ∧
    (∀ (storage : List Int) (src : TensorShape) (D : TensorLayout_t),
      1 ≤ src.rank → 1 ≤ TensorLayoutGetNumDim D → TensorLayoutGetNumDim D ≤ 15 →
        ∃ ts, Permute storage src D = .ok ts ∧ ts.rank = TensorLayoutGetNumDim D ∧
          ts.layout = D) ∧
    ((TensorShape.mk (Shape.default zeroStorage) TENSOR_NONE).Valid ∧ layoutHW.Valid ∧
      Permute zeroStorage (TensorShape.mk (Shape.default zeroStorage) TENSOR_NONE) layoutHW
        = .error .assertFailed) ∧
    (shapeHW45.Valid ∧ TENSOR_NONE.Valid ∧
      Permute zeroStorage shapeHW45 TENSOR_NONE = .error .assertFailed) := by
  refine ⟨Permute_of_rank_le_zero, Permute_of_rank_neg, ?_, by decide, by decide⟩
  intro storage src D hr hd hd15
  obtain ⟨written, -, hp⟩ := Permute_of_rank_pos storage src D hr hd hd15
  exact ⟨_, hp, rfl, rfl⟩

/-- The cells of the shape that `Permute` returns, for layouts with pairwise distinct labels
and at least one dimension on both sides: the cell at `j` is the source cell at the index `i`
with `S[i] = D[j]`. -/
theorem Permute_cells (storage : List Int) (src : TensorShape) (D : TensorLayout_t)
    (hS : src.layout.Valid) (hD : D.Valid)
    (hSn : src.layout.labels.Nodup) (hDn : D.labels.Nodup)
    (hstorage : storage.length = TENSOR_MAX_RANK)
    (hr : 1 ≤ src.rank) (hd : 1 ≤ TensorLayoutGetNumDim D) :
    ∃ ts, Permute storage src D = .ok ts ∧ ts.shape_.size_ = D.rank ∧ ts.layout_ = D ∧
      ∀ j, j < D.rank.toNat → ∀ i, i < src.layout.rank.toNat →
        src.layout.data.getD i 0 = D.data.getD j 0 →
        ts.shape_.data_.getD j 0 = src.shape_.data_.getD i 0 := by
  obtain ⟨hDlen, hD0, hD1⟩ := id hD
  have hD15 : D.rank ≤ 15 := hD1
  have hst : storage.length = 15 := hstorage
  have hfill : D.rank.toNat ≤ (fill_n storage D.rank.toNat (0 : Int)).length := by
    rw [fill_n_length _ _ _ (by omega)]; omega
  obtain ⟨written, hw, hp⟩ := Permute_of_rank_pos storage src D hr hd hD15
  obtain ⟨written2, hw2, -, -, hcells⟩ :=
    TensorShapePermute_spec src.layout D src.shape_.data_
      (fill_n storage D.rank.toNat 0) hS hD hSn hDn hfill
  have hww : written2 = written := by
    have := hw2.symm.trans hw
    exact Except.ok.inj this
  subst hww
  refine ⟨_, hp, rfl, rfl, ?_⟩
  intro j hj i hi hij
  have h1 := (hcells j hj).1 i hi hij
  have h2 := Shape.copy_getD storage { data_ := written2, size_ := D.rank } j hj
  rw [h2]
  show written2.getD j 0 = _
  rw [List.getD_eq_getElem?_getD, h1, Option.getD_some]

/-- A label of a valid layout at an index below the rank occurs, in every valid layout with
the same labels up to order, at an index below the rank. -/
theorem exists_index_of_perm (S D : TensorLayout_t) (hS : S.Valid) (hD : D.Valid)
    (hperm : D.labels.Perm S.labels) (i : Nat) (hi : i < S.rank.toNat) :
    ∃ j, j < D.rank.toNat ∧ D.data.getD j 0 = S.data.getD i 0 := by
  have hmemS : S.data.getD i 0 ∈ S.labels :=
    List.getElem?_mem (labels_getElem? S hS i hi)
  have hmemD : S.data.getD i 0 ∈ D.labels := hperm.mem_iff.mpr hmemS
  obtain ⟨j, hj⟩ := List.mem_iff_getElem?.mp hmemD
  have hjlen : j < D.labels.length := by
    by_contra hc
    rw [List.getElem?_eq_none (by omega)] at hj
    cases hj
  have hjr : j < D.rank.toNat := by rw [labels_length D hD] at hjlen; exact hjlen
  refine ⟨j, hjr, ?_⟩
  rw [labels_getElem? D hD j hjr] at hj
  exact Option.some.inj hj

/-- C33.  For a valid `TensorShape` `s` whose layout `S` is non-empty, has the rank of `s` and
pairwise distinct labels, and every valid layout `D` whose labels are a permutation of those
of `S`: `Permute(s, D)` returns a shape `t`, `Permute(t, S)` returns a shape `u`, and
`u == s`; in particular `Permute(s, S) == s`. -/
theorem Permute_roundtrip (storage storage2 : List Int) (s : TensorShape) (D : TensorLayout_t)
    (hs : s.Valid) (hD : D.Valid)
    (hne : 1 ≤ TensorLayoutGetNumDim s.layout)
    (hrank : s.rank = TensorLayoutGetNumDim s.layout)
    (hSn : s.layout.labels.Nodup) (hperm : D.labels.Perm s.layout.labels)
    (hstorage : storage.length = TENSOR_MAX_RANK)
    (hstorage2 : storage2.length = TENSOR_MAX_RANK) :
    (∃ t u, Permute storage s D = .ok t ∧ Permute storage2 t s.layout = .ok u ∧
      u.eq s = true) ∧
    (∃ u, Permute storage s s.layout = .ok u ∧ u.eq s = true) := by
  have key : ∀ (st st2 : List Int) (E : TensorLayout_t), E.Valid → E.labels.Perm s.layout.labels →
      st.length = TENSOR_MAX_RANK → st2.length = TENSOR_MAX_RANK →
      ∃ t u, Permute st s E = .ok t ∧ Permute st2 t s.layout = .ok u ∧ u.eq s = true := by
    intro st st2 E hE hp hst hst2
    have hS : s.layout.Valid := hs.2
    have hEn : E.labels.Nodup := hp.nodup_iff.mpr hSn
    have hlen : E.rank.toNat = s.layout.rank.toNat := by
      rw [← labels_length E hE, ← labels_length s.layout hS]
      exact hp.length_eq
    have hS0 : 0 ≤ s.layout.rank := hS.2.1
    have hE0 : 0 ≤ E.rank := hE.2.1
    have hSr : TensorLayoutGetNumDim s.layout = s.layout.rank := rfl
    have hEr : TensorLayoutGetNumDim E = E.rank := rfl
    have hsz : s.shape_.size_ = s.layout.rank := hrank
    obtain ⟨t, ht, htsz, htl, htc⟩ :=
      Permute_cells st s E hS hE hSn hEn hst (by rw [hrank]; exact hne) (by omega)
    have htl2 : t.layout = E := htl
    obtain ⟨u, hu, husz, hul, huc⟩ :=
      Permute_cells st2 t s.layout (by rw [htl2]; exact hE) hS (by rw [htl2]; exact hEn) hSn hst2
        (by show 1 ≤ t.shape_.size_; omega) hne
    refine ⟨t, u, ht, hu, ?_⟩
    have hseq : u.shape_.eq s.shape_ = true := by
      have hsize : u.shape_.size_ = s.shape_.size_ := by rw [husz, hsz]
      simp only [Shape.eq, hsize, if_true, List.all_eq_true, List.mem_range, beq_iff_eq]
      intro i hi
      have hi2 : i < s.layout.rank.toNat := by omega
      obtain ⟨j, hj, hji⟩ := exists_index_of_perm s.layout E hS hE hp i hi2
      have h1 := huc i hi2 j (by rw [htl2]; exact hj) (by rw [htl2]; exact hji)
      have h2 := htc j hj i hi2 hji.symm
      rw [h1, h2]
    have hleq : u.layout_.eq s.layout_ = true := by
      have : u.layout_ = s.layout_ := hul
      rw [this]
      simp [TensorLayout_t.eq, TensorLayoutCompare_self]
    simp [TensorShape.eq, hseq, hleq]
  refine ⟨key storage storage2 D hD hperm hstorage hstorage2, ?_⟩
  obtain ⟨t, ht, htsz, htl, htc⟩ :=
    Permute_cells storage s s.layout hs.2 hs.2 hSn hSn hstorage (by rw [hrank]; exact hne) hne
  refine ⟨t, ht, ?_⟩
  have hsz : s.shape_.size_ = s.layout.rank := hrank
  have hS0 : 0 ≤ s.layout.rank := hs.2.2.1
  have hseq : t.shape_.eq s.shape_ = true := by
    have hsize : t.shape_.size_ = s.shape_.size_ := by rw [htsz, hsz]
    simp only [Shape.eq, hsize, if_true, List.all_eq_true, List.mem_range, beq_iff_eq]
    intro i hi
    have hi2 : i < s.layout.rank.toNat := by omega
    exact htc i hi2 i hi2 rfl
  have hleq : t.layout_.eq s.layout_ = true := by
    have : t.layout_ = s.layout_ := htl
    rw [this]
    simp [TensorLayout_t.eq, TensorLayoutCompare_self]
  simp [TensorShape.eq, hseq, hleq]

theorem Permute_roundtrip_witness :
    (shapeNCHW2345.Valid ∧ layoutNHWC.Valid ∧
      1 ≤ TensorLayoutGetNumDim shapeNCHW2345.layout ∧
      shapeNCHW2345.rank = TensorLayoutGetNumDim shapeNCHW2345.layout ∧
      shapeNCHW2345.layout.labels.Nodup) ∧
    (∃ t u, Permute zeroStorage shapeNCHW2345 layoutNHWC = .ok t ∧
      Permute zeroStorage t shapeNCHW2345.layout = .ok u ∧ u.eq shapeNCHW2345 = true) ∧
    (∃ u, Permute zeroStorage shapeNCHW2345 shapeNCHW2345.layout = .ok u ∧
      u.eq shapeNCHW2345 = true) :=
  ⟨by decide,
   Permute_roundtrip zeroStorage zeroStorage shapeNCHW2345 layoutNHWC (by decide) (by decide)
     (by decide) (by decide) (by decide) (by decide) (by decide) (by decide)⟩

/-! ## Index safety of `TensorShapePermute` -/

theorem wrapInt32_neg_INT_MIN : wrapInt32 (-INT_MIN) = INT_MIN := by decide

theorem CreateFirst_CreateLast_INT_MIN (out L : TensorLayout_t) :
    ∀ fuel : Nat, CreateFirst fuel out L INT_MIN = none ∧ CreateLast fuel out L INT_MIN = none := by
  intro fuel
  induction fuel with
  | zero => exact ⟨by rw [CreateFirst], by rw [CreateLast]⟩
  | succ fuel ih =>
    have hneg : INT_MIN < 0 := by decide
    rw [CreateFirst_of_neg fuel out L INT_MIN hneg, CreateLast_of_neg fuel out L INT_MIN hneg,
      wrapInt32_neg_INT_MIN]
    exact ⟨ih.2, ih.1⟩

/-- C36, failing at `n = -2^31`: the negation of `INT_MIN` wraps to `INT_MIN`, so
`CreateFirst(L, INT_MIN)` calls `CreateLast(L, INT_MIN)`, which calls
`CreateFirst(L, INT_MIN)`, and so on: neither call returns within any depth of the call
chain.  For every other 32-bit `n` both functions return after at most one hand-off. -/
theorem CreateFirst_CreateLast_diverge_at_INT_MIN :
    wrapInt32 (-INT_MIN) = INT_MIN ∧
    (∀ (fuel : Nat) (out L : TensorLayout_t),
      CreateFirst fuel out L INT_MIN = none ∧ CreateLast fuel out L INT_MIN = none) ∧
    (∀ (out L : TensorLayout_t) (n : Int), INT_MIN < n →
      (CreateFirst 2 out L n).isSome = true ∧ (CreateLast 2 out L n).isSome = true) :=
  ⟨wrapInt32_neg_INT_MIN, fun fuel out L => CreateFirst_CreateLast_INT_MIN out L fuel,
   fun out L n hn => CreateFirst_CreateLast_isSome out L n hn⟩

/-! ## Iterators of `Shape` -/

/-- C37, failing: `cend()` is `data_.cend() + size_`, so the range `[cbegin(), cend())` spans
`15 + rank()` positions, not `rank()`, and `cend()` differs from `end()` for every shape; for
the shape `{4, 5}` it spans 17 positions and ends 2 past the end of the array, while
`[begin(), end())` spans the 2 elements. -/
theorem Shape_cend_past_the_array :
    (∀ s : Shape, s.cend - s.cbegin = Shape.MAX_RANK + s.rank ∧ s.end_ - s.begin = s.rank ∧
      s.cbegin = s.begin ∧ s.cend ≠ s.end_ ∧ s.cend - s.cbegin ≠ s.rank) ∧
    shapeHW45.shape.Valid ∧
    shapeHW45.shape.cend - shapeHW45.shape.cbegin = 17 ∧
    shapeHW45.shape.end_ - shapeHW45.shape.begin = 2 ∧
    shapeHW45.shape.rank = 2 := by
  refine ⟨fun s => ?_, by decide, by decide, by decide, by decide⟩
  have h15 : ((Shape.MAX_RANK : Nat) : Int) = 15 := rfl
  simp only [Shape.cend, Shape.cbegin, Shape.end_, Shape.begin, Shape.rank, h15]
  refine ⟨by omega, by omega, trivial, by omega, by omega⟩

/-! ## Consistency of the accessors of `ITensorData` -/

/-- Construction from cells and a 32-bit size: it raises `InvalidArgument` exactly when the
size is negative or above 15, or the layout is non-empty and of another rank; otherwise it
succeeds. -/
theorem TensorShape.ofData_error_iff (storage cellsOfData : List Int) (size : Int)
    (layout : TensorLayout_t) (h0 : INT_MIN ≤ size) (h1 : size ≤ INT_MAX) :
    (TensorShape.ofData storage (some cellsOfData) size layout = .error invalidArgument ↔
      (size < 0 ∨ 15 < size) ∨
        (¬ (TensorLayoutCompare layout TENSOR_NONE = 0) ∧ size ≠ TensorLayoutGetNumDim layout)) ∧
    (¬ ((size < 0 ∨ 15 < size) ∨
        (¬ (TensorLayoutCompare layout TENSOR_NONE = 0) ∧ size ≠ TensorLayoutGetNumDim layout)) →
      ∃ ts, TensorShape.ofData storage (some cellsOfData) size layout = .ok ts) := by
  by_cases hr : size < 0 ∨ 15 < size
  · have hbig : toSizeT size > TENSOR_MAX_RANK := by
      have := toSizeT_le_iff size h0 h1 15 (le_refl _)
      have h15 : (TENSOR_MAX_RANK : Nat) = 15 := rfl
      rw [h15]
      by_contra hc
      have := this.mp (by omega)
      omega
    have herr : TensorShape.ofData storage (some cellsOfData) size layout
        = .error invalidArgument := by
      simp [TensorShape.ofData, Shape.ofData, hbig]
    exact ⟨⟨fun _ => Or.inl hr, fun _ => herr⟩, fun hn => absurd (Or.inl hr) hn⟩
  · have hs0 : 0 ≤ size := by omega
    have hs15 : size ≤ 15 := by omega
    by_cases hl : ¬ (TensorLayoutCompare layout TENSOR_NONE = 0) ∧
        size ≠ TensorLayoutGetNumDim layout
    · have hsz : toSizeT size = size.toNat := toSizeT_of_nonneg _ hs0 (by omega)
      have hbig : ¬ (size.toNat > TENSOR_MAX_RANK) := by unfold TENSOR_MAX_RANK; omega
      have hcast : ((size.toNat : Nat) : Int) = size := by omega
      have hc : ¬ (TensorLayoutCompare layout TENSOR_NONE = 0) ∧
          (Shape.copy storage ⟨memcpy storage (fun i => cellsOfData.getD i 0) size.toNat,
            (size.toNat : Nat)⟩).rank ≠ TensorLayoutGetNumDim layout := by
        refine ⟨hl.1, ?_⟩
        show ((size.toNat : Nat) : Int) ≠ _
        rw [hcast]; exact hl.2
      have herr : TensorShape.ofData storage (some cellsOfData) size layout
          = .error invalidArgument := by
        simp only [TensorShape.ofData, Shape.ofData, hsz, if_neg hbig, TensorShape.ofShape]
        exact if_pos hc
      exact ⟨⟨fun _ => Or.inr hl, fun _ => herr⟩, fun hn => absurd (Or.inr hl) hn⟩
    · have hl2 : TensorLayoutCompare layout TENSOR_NONE = 0 ∨
          size = TensorLayoutGetNumDim layout := by
        by_cases hcmp : TensorLayoutCompare layout TENSOR_NONE = 0
        · exact Or.inl hcmp
        · right
          by_contra hne
          exact hl ⟨hcmp, hne⟩
      obtain ⟨ts, hts⟩ := TensorShape.ofData_isOk storage cellsOfData size layout hs0 hs15 hl2
      refine ⟨⟨fun he => ?_, fun hc => ?_⟩, fun _ => ⟨ts, hts⟩⟩
      · rw [hts] at he; cases he
      · rcases hc with hc | hc
        · exact absurd hc hr
        · exact absurd hc hl

theorem ITensorData.layout_fst (self : ITensorData) :
    self.layout.1 =
      match self.shape.1 with
      | .ok ts => .ok ts.layout
      | .error e => .error e := by
  unfold ITensorData.layout
  rcases hsh : self.shape with ⟨r, after⟩
  cases r <;> rfl

/-- C38, as stated: a record with rank `-1` and the empty layout makes `shape()` and
`layout()` raise `InvalidArgument`, although its rank does not exceed 15 and its layout is
empty. -/
theorem ITensorData_negative_rank_counterexample :
    (ITensorData.ofData recordRankNeg ⟨Shape.default zeroStorage, TENSOR_NONE⟩).Coherent ∧
    (ITensorData.ofData recordRankNeg ⟨Shape.default zeroStorage, TENSOR_NONE⟩).shape.1
      = .error invalidArgument ∧
    (ITensorData.ofData recordRankNeg ⟨Shape.default zeroStorage, TENSOR_NONE⟩).layout.1
      = .error invalidArgument ∧
    ¬ (15 < recordRankNeg.rank) ∧
    TensorLayoutCompare recordRankNeg.layout TENSOR_NONE = 0 :=
  ⟨ITensorData.coherent_ofData _ _, by decide, by decide, by decide, by decide⟩

/-- C38, with negative ranks among the failures.  For a view whose cache is coherent with its
record (as it is after every sequence of accesses) and whose record holds a 32-bit rank: when
`0 <= rank <= 15` and the layout of the record is empty or of that rank, `shape()` succeeds
with `shape().rank() == rank()`, `shape()[d] == shape(d)` for every `0 <= d < rank()`, and
`layout()` is the layout of the record; and `shape()`, like `layout()`, raises
`InvalidArgument` exactly when the rank of the record is negative or exceeds 15, or its layout
is non-empty with a rank different from the rank of the record. -/
theorem ITensorData_accessor_consistency (self : ITensorData) (hc : self.Coherent)
    (h0 : INT_MIN ≤ self.rank) (h1 : self.rank ≤ INT_MAX) :
    (0 ≤ self.rank → self.rank ≤ 15 →
      (TensorLayoutCompare self.data_.layout TENSOR_NONE = 0 ∨
        self.rank = TensorLayoutGetNumDim self.data_.layout) →
      ∃ ts, self.shape.1 = .ok ts ∧ ts.rank = self.rank ∧
        (∀ d : Int, 0 ≤ d → d < self.rank → ts.get d = (self.shapeAt d).1) ∧
        self.layout.1 = .ok self.data_.layout) ∧
    (self.shape.1 = .error invalidArgument ↔
      (self.rank < 0 ∨ 15 < self.rank) ∨
        (¬ (TensorLayoutCompare self.data_.layout TENSOR_NONE = 0) ∧
          self.rank ≠ TensorLayoutGetNumDim self.data_.layout)) ∧
    (self.layout.1 = .error invalidArgument ↔
      (self.rank < 0 ∨ 15 < self.rank) ∨
        (¬ (TensorLayoutCompare self.data_.layout TENSOR_NONE = 0) ∧
          self.rank ≠ TensorLayoutGetNumDim self.data_.layout)) := by
  have hrk : self.rank = self.data_.rank := rfl
  obtain ⟨storage, hsh⟩ := ITensorData.shape_of_coherent self hc
  obtain ⟨hiff, hok⟩ := TensorShape.ofData_error_iff storage self.data_.shape self.data_.rank
    self.data_.layout h0 h1
  rw [← hsh] at hiff
  refine ⟨?_, by rw [hrk]; exact hiff, ?_⟩
  · intro hr0 hr15 hl
    obtain ⟨ts, hts⟩ := TensorShape.ofData_isOk storage self.data_.shape self.data_.rank
      self.data_.layout hr0 hr15 hl
    obtain ⟨-, -, hr, hlay, hget⟩ := TensorShape.ofData_ok _ _ _ _ _ hts h0 h1
    rw [← hsh] at hts
    refine ⟨ts, hts, hr, ?_, ?_⟩
    · intro d hd0 hd1
      have hcnd : ¬ (d < 0 ∨ d ≥ self.data_.rank) := by omega
      have hv : (self.shapeAt d).1 = .ok (self.data_.shape.getD d.toNat 0) := by
        simp only [ITensorData.shapeAt, ITensorData.cdataConst, if_neg hcnd]
      have := hget d.toNat (by omega)
      rw [Int.toNat_of_nonneg hd0] at this
      rw [hv, this]
    · rw [ITensorData.layout_fst, hts]
      show Except.ok ts.layout = _
      rw [hlay]
  · rw [ITensorData.layout_fst, hrk]
    rw [← hiff]
    cases hs : self.shape.1 with
    | ok ts => simp
    | error e => simp

theorem ITensorData_accessor_consistency_witness :
    ((ITensorData.ofData recordHW45 ⟨Shape.default zeroStorage, TENSOR_NONE⟩).Coherent ∧
      INT_MIN ≤ (ITensorData.ofData recordHW45 ⟨Shape.default zeroStorage, TENSOR_NONE⟩).rank ∧
      (ITensorData.ofData recordHW45 ⟨Shape.default zeroStorage, TENSOR_NONE⟩).rank ≤ INT_MAX) ∧
    ∃ ts, (ITensorData.ofData recordHW45 ⟨Shape.default zeroStorage, TENSOR_NONE⟩).shape.1
        = .ok ts ∧
      ts.rank = (ITensorData.ofData recordHW45 ⟨Shape.default zeroStorage, TENSOR_NONE⟩).rank ∧
      (∀ d : Int, 0 ≤ d →
        d < (ITensorData.ofData recordHW45 ⟨Shape.default zeroStorage, TENSOR_NONE⟩).rank →
        ts.get d =
          ((ITensorData.ofData recordHW45 ⟨Shape.default zeroStorage, TENSOR_NONE⟩).shapeAt d).1) ∧
      (ITensorData.ofData recordHW45 ⟨Shape.default zeroStorage, TENSOR_NONE⟩).layout.1
        = .ok (ITensorData.ofData recordHW45 ⟨Shape.default zeroStorage, TENSOR_NONE⟩).data_.layout :=
  ⟨⟨ITensorData.coherent_ofData _ _, by decide, by decide⟩,
   (ITensorData_accessor_consistency
      (ITensorData.ofData recordHW45 ⟨Shape.default zeroStorage, TENSOR_NONE⟩)
      (ITensorData.coherent_ofData _ _) (by decide) (by decide)).1
      (by decide) (by decide) (Or.inr (by decide))⟩

/-! ## Agreement of the two label searches -/

/-- C39.  For a valid layout `L` and a label `c`: `FindDimIndex(L, c)` equals
`TensorLayoutFindDimIndex(L, c, 0)`; both are `-1` when no index below the rank carries `c`,
and otherwise the smallest index `i < rank` with `L[i] = c`. -/
theorem FindDimIndex_eq_TensorLayoutFindDimIndex (before : Nat → Nat) (L : TensorLayout_t)
    (c : Nat) (hL : L.Valid) :
    FindDimIndex L c = TensorLayoutFindDimIndex before L c 0 ∧
    ((∀ i : Nat, i < L.rank.toNat → L.data.getD i 0 ≠ c) → FindDimIndex L c = -1) ∧
    (∀ i : Nat, i < L.rank.toNat → L.data.getD i 0 = c →
      (∀ j : Nat, j < i → L.data.getD j 0 ≠ c) → FindDimIndex L c = i) := by
  have h0 : 0 ≤ L.rank := hL.2.1
  obtain ⟨hnone, hsome⟩ := FindDimIndex_spec L c hL
  have hmin : ∀ i : Nat, i < L.rank.toNat → L.data.getD i 0 = c →
      (∀ j : Nat, j < i → L.data.getD j 0 ≠ c) → FindDimIndex L c = i := by
    intro i hi hic hlt
    have hne : FindDimIndex L c ≠ -1 := fun h => hnone.mp h i hi hic
    obtain ⟨k, hk, hkr, hkc, hkmin⟩ := hsome hne
    have hik : k = i := by
      rcases Nat.lt_trichotomy k i with h | h | h
      · exact absurd hkc (hlt k h)
      · exact h
      · exact absurd hic (hkmin i h)
    rw [hk, hik]
  refine ⟨?_, hnone.mpr, hmin⟩
  have hT := TensorLayoutFindDimIndex_of_start_ge before L c 0 hL (by omega)
    (by unfold INT_MAX; omega)
  simp only [lt_self_iff_false, if_false] at hT
  obtain ⟨hTnone, hTsome⟩ := hT
  by_cases hT1 : TensorLayoutFindDimIndex before L c 0 = -1
  · rw [hT1]
    apply hnone.mpr
    intro i hi
    exact hTnone.mp hT1 i (by omega) (by omega)
  · obtain ⟨i, hi, -, hir, hic, himin⟩ := hTsome hT1
    rw [hi]
    exact hmin i (by omega) hic (fun j hj => himin j (by omega) hj)

theorem FindDimIndex_eq_TensorLayoutFindDimIndex_witness :
    layoutNCHW.Valid ∧
    FindDimIndex layoutNCHW TLABEL_HEIGHT
      = TensorLayoutFindDimIndex (fun _ => TLABEL_HEIGHT) layoutNCHW TLABEL_HEIGHT 0 ∧
    FindDimIndex layoutNCHW TLABEL_HEIGHT = (2 : Nat) ∧
    FindDimIndex layoutNCHW TLABEL_DEPTH = -1 :=
  ⟨by decide,
   (FindDimIndex_eq_TensorLayoutFindDimIndex (fun _ => TLABEL_HEIGHT) layoutNCHW TLABEL_HEIGHT
      (by decide)).1,
   (FindDimIndex_eq_TensorLayoutFindDimIndex (fun _ => TLABEL_HEIGHT) layoutNCHW TLABEL_HEIGHT
      (by decide)).2.2 2 (by decide) (by decide) (by decide),
   (FindDimIndex_eq_TensorLayoutFindDimIndex (fun _ => TLABEL_HEIGHT) layoutNCHW TLABEL_DEPTH
      (by decide)).2.1 (by decide)⟩

/-! ## Slices and the prefix and suffix predicates -/

theorem memcmp_memcpy_cells (dst : List Nat) (src : Nat → Nat) (m : Nat) :
    memcmp (cells (memcpy dst src m) 0) src m = 0 := by
  rw [memcmp_eq_zero_iff]
  intro i hi
  show (memcpy dst src m).getD (0 + i) 0 = src i
  rw [Nat.zero_add, List.getD_eq_getElem?_getD, memcpy_getElem?_lt _ _ _ _ hi, Option.getD_some]

/-- C40.  For a valid layout `L` and every `n >= 0`, `CreateFirst(L, n)` and
`CreateLast(L, n)` return, `TensorLayoutStartsWith(L, CreateFirst(L, n))` is non-zero and
`TensorLayoutEndsWith(L, CreateLast(L, n))` is non-zero, whatever the result records held
before. -/
theorem slices_recognised_by_StartsWith_EndsWith (fuel : Nat) (out out2 L : TensorLayout_t)
    (n : Int) (hL : L.Valid) (hn : 0 ≤ n) :
    ∃ first last, CreateFirst (fuel + 1) out L n = some first ∧
      CreateLast (fuel + 1) out2 L n = some last ∧
      TensorLayoutStartsWith L first ≠ 0 ∧ TensorLayoutEndsWith L last ≠ 0 := by
  obtain ⟨-, h0, h1⟩ := hL
  have h15 : L.rank ≤ 15 := h1
  have hm0 : 0 ≤ min n L.rank := by omega
  have hmr : min n L.rank ≤ L.rank := by omega
  refine ⟨_, _, CreateFirst_of_nonneg fuel out L n hn, CreateLast_of_nonneg fuel out2 L n hn,
    ?_, ?_⟩
  · show (if min n L.rank ≤ L.rank then
        (if memcmp (cells (memcpy out.data (cells L.data 0) (toSizeT (min n L.rank))) 0)
            (cells L.data 0) (toSizeT (min n L.rank)) = 0 then (1 : Int) else 0)
      else 0) ≠ 0
    rw [if_pos hmr, if_pos (memcmp_memcpy_cells _ _ _)]
    decide
  · show (if min n L.rank ≤ L.rank then
        (if memcmp
            (cells (memcpy out2.data (cells L.data (L.rank - min n L.rank).toNat)
              (toSizeT (min n L.rank))) 0)
            (cells L.data (L.rank - min n L.rank).toNat) (toSizeT (min n L.rank)) = 0
          then (1 : Int) else 0)
      else 0) ≠ 0
    rw [if_pos hmr, if_pos (memcmp_memcpy_cells _ _ _)]
    decide

theorem slices_recognised_by_StartsWith_EndsWith_witness :
    (layoutNCHW.Valid ∧ (0 : Int) ≤ 3) ∧
    ∃ first last, CreateFirst (0 + 1) layoutOfX layoutNCHW 3 = some first ∧
      CreateLast (0 + 1) layoutOfX layoutNCHW 3 = some last ∧
      TensorLayoutStartsWith layoutNCHW first ≠ 0 ∧ TensorLayoutEndsWith layoutNCHW last ≠ 0 :=
  ⟨by decide,
   slices_recognised_by_StartsWith_EndsWith 0 layoutOfX layoutOfX layoutNCHW 3 (by decide)
     (by decide)⟩

end cucv
